import Mathlib

/-!
# Centipede locomotion core: a shallow embedding

Embedding of `include/Centipede.hpp`, `src/Centipede.cpp`, `src/ik/LegIK.cpp`,
`src/gait/GaitController.cpp`, `src/render/Projection.cpp` and `src/input/Camera.cpp`, of the
leg forward kinematics of `src/render/DrawHelpers.cpp` and of the constant `Game::res`.

Modelling conventions.

* `float` values are elements of an arbitrary linearly ordered field `F` with a floor
  function, so arithmetic is exact (no rounding, no NaN, no infinities).  Decimal literals
  of the source (`0.28f`, `3.14159265f`, ...) are the decimal numbers they spell.
  Every definition is computable at `F = ℚ`; theorems are stated for every `F`
  (in particular for `ℝ`).
* Two branches of the source are decided by rounding once the values are large: the loop
  conditions of `ik::wrapAngle` and the swing test of `gait::updateGait`.  The section on
  single-precision arithmetic gives these a second time over binary32 values, with every
  arithmetic result rounded to nearest, ties to even (`f32`), as on a target that evaluates
  `float` expressions in single precision.  The names of that section end in `32`.
* The libm functions that are not field operations (`sqrt`, `atan2`, `acos`, `sin`, `cos`)
  are the fields of a record `MathFns F` handed to every function that calls them.
  `std::floor`, `std::fabs`, `std::abs`, `std::fmod`, `std::max`, `std::clamp` are exact and
  are modelled directly.  Properties that depend on what these functions compute take the
  laws of the real functions as the hypothesis `MathFns.Exact`.
* `int` values are `Int` (no overflow); `static_cast<int>(std::floor(x))` is `⌊x⌋`.
* `std::vector` is `List`; an index loop is a fold over `List.range`.
* `std::unordered_map<uint64_t, std::pair<int,int>>` is an association list keyed by the
  cell `(gx, gy)`; `cellKey` packs the two 32-bit coordinates injectively, so key equality
  is equality of cells.  The source only uses `find`, `erase`, `clear` and `operator[]`
  assignment, never the iteration order.
* The file-scoped `g_bodyZ` is the field `bodyZ` of the creature state.
* What the source reads from the window system (`window->getSize().x`,
  `sf::Mouse::getPosition`, the event) is a parameter of the function that reads it; the
  globals `input::g_camOffX`, `input::g_camOffY` are fields of the camera state.
* Division is the field's, so `x / 0 = 0` where the source would produce an infinity or NaN.
* Members the constructor leaves uninitialised (`Segment::angle`, `Segment::moved`) start
  at `0` and `false`.
-/

namespace CentipedeSim

/-! ## Data model (`include/Centipede.hpp`) -/

/-- The libm functions the source calls that are not exact field operations. -/
structure MathFns (F : Type) where
  sqrt : F → F
  atan2 : F → F → F
  acos : F → F
  sin : F → F
  cos : F → F

/-- A cell of a segment's deformable grid (`struct Voxel`); `filled` is the `uint8_t` mask
bit, only ever 0 or 1. -/
structure Voxel (F : Type) where
  baseOx : F
  baseOy : F
  wx : F
  wy : F
  vx : F
  vy : F
  filled : Bool
  deriving DecidableEq

/-- One leg (`struct Segment::Leg`).  The members `targetHipAngle`, `targetKneeAngle`,
`targetFootAngle`, `swingLandX`, `swingLandY` are never initialised, read or written by the
source and are left out. -/
structure Leg (F : Type) where
  hipOx : F
  hipOy : F
  side : Int
  hipAngle : F
  kneeAngle : F
  footAngle : F
  phaseOffset : F
  cycle : F
  footHoldX : F
  footHoldY : F
  swingPhase : F
  swingStartX : F
  swingStartY : F
  hipLength : F
  kneeLength : F
  footLength : F
  pushStrength : F
  onGround : Bool
  coxaLength : F
  deriving DecidableEq

/-- One body segment (`struct Segment`), without the render colour. -/
structure Segment (F : Type) where
  x : F
  y : F
  px : F
  py : F
  angle : F
  voxW : Int
  voxH : Int
  voxels : List (Voxel F)
  moved : Bool
  legs : List (Leg F)
  deriving DecidableEq

/-- The creature (`class Centipede`) together with the file-scoped body height `g_bodyZ`. -/
structure Centipede (F : Type) where
  segments : List (Segment F)
  dirX : Int
  dirY : Int
  moveCounter : Int
  gaitTime : F
  lastHeadX : F
  lastHeadY : F
  lastMoveDx : F
  lastMoveDy : F
  bodyZ : F
  deriving DecidableEq

section Defs

variable {F : Type} [LinearOrderedField F] [FloorRing F]

/-! ## Constants -/

def kHipPitchMin : F := -1.25
def kHipPitchMax : F := 0.15
def kKneeMin : F := -2.00
def kKneeMax : F := -0.05
def kHipYawMaxDelta : F := 1.04719755
def kStanceWidth : F := 1.0
def kCoxaLength : F := 1.4
def kBodyRestZ : F := 0.6
def moveDelay : Int := 2
def followSpeed : F := 0.28
def maxMovePerTry : F := 1.2
/-- The literal `PI = 3.14159265f` of `LegIK.cpp`, `GaitController.cpp` and the
constructor. -/
def PI : F := 3.14159265

/-! ## Exact library functions -/

/-- The function `std::clamp(v, lo, hi)`. -/
def clamp (v lo hi : F) : F := if v < lo then lo else if hi < v then hi else v

/-- The function `std::max(a, b)`. -/
def fmax (a b : F) : F := if a < b then b else a

/-- The function `std::fmod(x, y)`: `x - n*y` with `n` the quotient `x / y` truncated toward
zero. -/
def fmod (x y : F) : F :=
  let q := x / y
  x - (if 0 ≤ q then (⌊q⌋ : Int) else ⌈q⌉) * y

/-! ## Leg inverse kinematics (`src/ik/LegIK.cpp`) -/

/-- First loop of `wrapAngle`: `while (a > PI) a -= 2.0f * PI;`, at most `fuel`
iterations. -/
def ik.wrapDown : Nat → F → F
  | 0, a => a
  | n + 1, a => if a > PI then ik.wrapDown n (a - 2.0 * PI) else a

/-- Second loop of `wrapAngle`: `while (a < -PI) a += 2.0f * PI;`, at most `fuel`
iterations. -/
def ik.wrapUp : Nat → F → F
  | 0, a => a
  | n + 1, a => if a < -PI then ik.wrapUp n (a + 2.0 * PI) else a

/-- An iteration budget that suffices, in exact arithmetic, for either loop of `wrapAngle`
started at `a`. -/
def ik.wrapFuel (a : F) : Nat := ⌈|a| / (2.0 * PI)⌉₊

/-- The function `ik::wrapAngle` in exact arithmetic, where every step changes `a` by
`2 PI` and both loops exit.  The loops as they run on binary32 values are `ik.wrapDown32`
and `ik.wrapUp32`. -/
def ik.wrapAngle (a : F) : F :=
  let a1 := ik.wrapDown (ik.wrapFuel a) a
  ik.wrapUp (ik.wrapFuel a1) a1

/-- The value `dist` of `solveLeg` (source lines 16-21): the distance from the hip attach point,
at height `bodyZ`, to the foot anchor on the ground. -/
def ik.footDist (M : MathFns F) (leg : Leg F) (coxaAttachX coxaAttachY bodyZ : F) : F :=
  let targetZ : F := 0.0
  let dz := targetZ - bodyZ
  let dx := leg.footHoldX - coxaAttachX
  let dy := leg.footHoldY - coxaAttachY
  let r := M.sqrt (dx * dx + dy * dy)
  M.sqrt (r * r + dz * dz)

/-- The local variables of `solveLeg` after the reach guard (source lines 18-44). -/
structure Reach (F : Type) where
  dx : F
  dy : F
  r : F
  dist : F
  footHoldX : F
  footHoldY : F

/-- Lines 15-44 of `solveLeg`: offset and distance to the foot anchor, clamped into
`[minDist, maxDist]`; the anchor is rewritten only while the leg is airborne. -/
def ik.reachGuard (M : MathFns F) (leg : Leg F) (coxaAttachX coxaAttachY bodyZ : F) : Reach F :=
  let targetZ : F := 0.0
  let dz := targetZ - bodyZ
  let dx := leg.footHoldX - coxaAttachX
  let dy := leg.footHoldY - coxaAttachY
  let r := M.sqrt (dx * dx + dy * dy)
  let dist := M.sqrt (r * r + dz * dz)
  let L1 := leg.hipLength
  let L2 := leg.kneeLength + leg.footLength
  let maxDist := (L1 + L2) - 0.05
  let minDist := |L1 - L2| + 0.05
  let clampedDist := clamp dist minDist maxDist
  if dist > 1e-4 ∧ |clampedDist - dist| > 1e-5 then
    let desiredR := M.sqrt (fmax 0.0 (clampedDist * clampedDist - dz * dz))
    let scale := if r > 1e-4 then desiredR / r else 0.0
    let dx := dx * scale
    let dy := dy * scale
    { dx := dx, dy := dy, r := desiredR, dist := clampedDist,
      footHoldX := if !leg.onGround then coxaAttachX + dx else leg.footHoldX,
      footHoldY := if !leg.onGround then coxaAttachY + dy else leg.footHoldY }
  else
    { dx := dx, dy := dy, r := r, dist := dist,
      footHoldX := leg.footHoldX, footHoldY := leg.footHoldY }

/-- The raw knee angle of `solveLeg` before limits and smoothing (source lines 48-51), for
link lengths `L1`, `L2`, horizontal reach `r` and vertical offset `dz`. -/
def ik.rawKnee (M : MathFns F) (L1 L2 r dz : F) : F :=
  let cosKnee := (r * r + dz * dz - L1 * L1 - L2 * L2) / (2.0 * L1 * L2)
  let cosKnee := clamp cosKnee (-0.999) 0.999
  let knee := -M.acos cosKnee
  knee

/-- The raw hip pitch of `solveLeg` before limits and smoothing (source line 53). -/
def ik.rawHipPitch (M : MathFns F) (L1 L2 r dz : F) : F :=
  let knee := ik.rawKnee M L1 L2 r dz
  M.atan2 dz r - M.atan2 (L2 * M.sin knee) (L1 + L2 * M.cos knee)

/-- The function `ik::ik.solveLeg`. -/
def ik.solveLeg (M : MathFns F) (leg : Leg F) (coxaAttachX coxaAttachY bodyZ yawRef : F) :
    Leg F :=
  let targetZ : F := 0.0
  let dz := targetZ - bodyZ
  let g := ik.reachGuard M leg coxaAttachX coxaAttachY bodyZ
  let L1 := leg.hipLength
  let L2 := leg.kneeLength + leg.footLength
  let yaw := if g.r > 1e-6 then M.atan2 g.dy g.dx else leg.hipAngle
  let knee := ik.rawKnee M L1 L2 g.r dz
  let hipPitch := ik.rawHipPitch M L1 L2 g.r dz
  let hipPitch := clamp hipPitch kHipPitchMin kHipPitchMax
  let knee := clamp knee kKneeMin kKneeMax
  let yawDelta := ik.wrapAngle (yaw - yawRef)
  let yawDelta := clamp yawDelta (-kHipYawMaxDelta) kHipYawMaxDelta
  let yaw := ik.wrapAngle (yawRef + yawDelta)
  let dyaw := ik.wrapAngle (yaw - leg.hipAngle)
  let hipAngle := ik.wrapAngle (leg.hipAngle + dyaw * 0.20)
  let kneeAngle := leg.kneeAngle + (hipPitch - leg.kneeAngle) * 0.20
  let footAngle := leg.footAngle + (knee - leg.footAngle) * 0.20
  let stateYawDelta := ik.wrapAngle (hipAngle - yawRef)
  let stateYawDelta := clamp stateYawDelta (-kHipYawMaxDelta) kHipYawMaxDelta
  { leg with
    footHoldX := g.footHoldX
    footHoldY := g.footHoldY
    hipAngle := ik.wrapAngle (yawRef + stateYawDelta)
    kneeAngle := clamp kneeAngle kHipPitchMin kHipPitchMax
    footAngle := clamp footAngle kKneeMin kKneeMax }

/-! ## Gait controller (`src/gait/GaitController.cpp`) -/

instance : Inhabited (Voxel F) := ⟨⟨0, 0, 0, 0, 0, 0, false⟩⟩

instance : Inhabited (Leg F) :=
  ⟨⟨0, 0, 0, 0, 0, 0, 0, 0, 0, 0, 0, 0, 0, 0, 0, 0, 0, false, 0⟩⟩

instance : Inhabited (Segment F) := ⟨⟨0, 0, 0, 0, 0, 0, 0, [], false, []⟩⟩

/-- In-place update of element `i` of a vector (`v[i] = f(v[i])`); out of range is a no-op. -/
def updateAt {α : Type} : List α → Nat → (α → α) → List α
  | [], _, _ => []
  | a :: as, 0, f => f a :: as
  | a :: as, i + 1, f => a :: updateAt as i f

/-- The per-leg phase of `updateGait`: `fmod(gaitTime + phaseOffset, 2*PI)`, shifted by
`2*PI` when negative, in exact arithmetic.  With the sum rounded to binary32 it is
`gait.legPhase32`. -/
def gait.legPhase (gaitTime phaseOffset : F) : F :=
  let phase := fmod (gaitTime + phaseOffset) (2.0 * PI)
  if phase < 0.0 then phase + 2.0 * PI else phase

/-- The stance/swing boundary `stanceEnd = stanceFrac * 2.0f * PI` with `stanceFrac = 0.55f`. -/
def gait.stanceEnd : F := 0.55 * 2.0 * PI

/-- The blended forward direction `(forwardX, forwardY)` (source lines 16-41). -/
def gait.forwardDir (M : MathFns F) (segments : List (Segment F)) (lastMoveDx lastMoveDy : F) :
    F × F :=
  let s0 := segments.getD 0 default
  let s1 := segments.getD 1 default
  let bx := s1.x - s0.x
  let by_ := s1.y - s0.y
  let bl := M.sqrt (bx * bx + by_ * by_)
  let base : F × F :=
    if 2 ≤ segments.length then (if bl > 1e-4 then (bx / bl, by_ / bl) else (1.0, 0.0))
    else (1.0, 0.0)
  let moveMag := M.sqrt (lastMoveDx * lastMoveDx + lastMoveDy * lastMoveDy)
  let moveDir : F × F :=
    if moveMag > 1e-4 then (lastMoveDx / moveMag, lastMoveDy / moveMag) else base
  let kMoveBias : F := 0.85
  let forwardX := base.1 * (1.0 - kMoveBias) + moveDir.1 * kMoveBias
  let forwardY := base.2 * (1.0 - kMoveBias) + moveDir.2 * kMoveBias
  let forwardLen := M.sqrt (forwardX * forwardX + forwardY * forwardY)
  if forwardLen < 1e-4 then ((1.0 : F) / 1.0, (0.0 : F) / 1.0)
  else (forwardX / forwardLen, forwardY / forwardLen)

/-- The raw spine vector of segment `i`: toward the next segment, for the last segment from
the previous one, and `fallback` for a one-segment body. -/
def spineRaw (segments : List (Segment F)) (i : Nat) (fallback : F × F) : F × F :=
  let s := segments.getD i default
  if i + 1 < segments.length then
    ((segments.getD (i + 1) default).x - s.x, (segments.getD (i + 1) default).y - s.y)
  else if 0 < i then
    (s.x - (segments.getD (i - 1) default).x, s.y - (segments.getD (i - 1) default).y)
  else fallback

/-- The unit spine direction of segment `i`; a spine shorter than `eps` is replaced by
`fallback` with length taken as 1. -/
def spineDir (M : MathFns F) (segments : List (Segment F)) (i : Nat) (fallback : F × F)
    (eps : F) : F × F :=
  let sp := spineRaw segments i fallback
  let spineLen := M.sqrt (sp.1 * sp.1 + sp.2 * sp.2)
  if spineLen < eps then (fallback.1 / 1.0, fallback.2 / 1.0)
  else (sp.1 / spineLen, sp.2 / spineLen)

/-- The point `(midX, midY)`: midway to the next segment, or the segment itself for the
last one. -/
def spineMid (segments : List (Segment F)) (i : Nat) : F × F :=
  let s := segments.getD i default
  if i + 1 < segments.length then
    ((s.x + (segments.getD (i + 1) default).x) * 0.5,
     (s.y + (segments.getD (i + 1) default).y) * 0.5)
  else (s.x, s.y)

/-- The hip joint position `(coxaAttachX, coxaAttachY)` of a leg, given the unit spine
direction and the spine midpoint. -/
def coxaAttach (spine mid : F × F) (leg : Leg F) : F × F :=
  let perpX := -spine.2
  let perpY := spine.1
  let attachX := mid.1 + perpX * (kStanceWidth * (leg.side : F))
  let attachY := mid.2 + perpY * (kStanceWidth * (leg.side : F))
  (attachX + perpX * leg.coxaLength * (leg.side : F),
   attachY + perpY * leg.coxaLength * (leg.side : F))

/-- The landing point `(landX, landY)` of a leg (source lines 82-113). -/
def gait.landing (M : MathFns F) (bodyZ : F) (forward spine mid : F × F) (leg : Leg F) :
    F × F :=
  let desiredSweepDeg : F := 150.0
  let desiredHalfSweep := (desiredSweepDeg * (PI / 180.0)) * 0.5
  let perpX := -spine.2
  let perpY := spine.1
  let ca := coxaAttach spine mid leg
  let L1 := leg.hipLength
  let L2 := leg.kneeLength + leg.footLength
  let maxDist := (L1 + L2) - 0.05
  let dzAbs := |bodyZ|
  let maxReachR : F :=
    if dzAbs < maxDist then M.sqrt (fmax 0.0 (maxDist * maxDist - dzAbs * dzAbs)) else 0.0
  let outDirX := perpX * (leg.side : F)
  let outDirY := perpY * (leg.side : F)
  let baseOutR := maxReachR * M.cos desiredHalfSweep
  let forwardAmp := maxReachR * M.sin desiredHalfSweep
  let restX := ca.1 + outDirX * baseOutR
  let restY := ca.2 + outDirY * baseOutR
  let landX := restX + forward.1 * forwardAmp
  let landY := restY + forward.2 * forwardAmp
  let toTX := landX - ca.1
  let toTY := landY - ca.2
  let outComp := toTX * outDirX + toTY * outDirY
  let minOut := baseOutR * 0.95
  if outComp < minOut then
    (landX + outDirX * (minOut - outComp), landY + outDirY * (minOut - outComp))
  else (landX, landY)

/-- The body of the per-leg loop of `updateGait` (source lines 67-137). -/
def gait.updateLeg (M : MathFns F) (gaitTime bodyZ : F) (forward spine mid : F × F)
    (leg : Leg F) : Leg F :=
  let wasOnGround := leg.onGround
  let phase := gait.legPhase gaitTime leg.phaseOffset
  let inSwing : Bool := decide (phase ≥ gait.stanceEnd)
  let land := gait.landing M bodyZ forward spine mid leg
  if inSwing then
    let swingStartX := if wasOnGround then leg.footHoldX else leg.swingStartX
    let swingStartY := if wasOnGround then leg.footHoldY else leg.swingStartY
    let swingT := (phase - gait.stanceEnd) / (2.0 * PI - gait.stanceEnd)
    let swingT := clamp swingT 0.0 1.0
    let t := swingT * swingT * (3.0 - 2.0 * swingT)
    { leg with
      onGround := false
      swingStartX := swingStartX
      swingStartY := swingStartY
      swingPhase := swingT
      footHoldX := swingStartX + (land.1 - swingStartX) * t
      footHoldY := swingStartY + (land.2 - swingStartY) * t }
  else
    { leg with
      onGround := true
      swingPhase := 0.0
      footHoldX := if !wasOnGround then land.1 else leg.footHoldX
      footHoldY := if !wasOnGround then land.2 else leg.footHoldY }

/-- The function `gait::updateGait`.  Only legs are written, so every spine direction is
read from the unchanged segment positions. -/
def gait.updateGait (M : MathFns F) (segments : List (Segment F))
    (gaitTime bodyZ lastMoveDx lastMoveDy : F) : List (Segment F) :=
  let forward := gait.forwardDir M segments lastMoveDx lastMoveDy
  segments.enum.map fun p =>
    let spine := spineDir M segments p.1 forward 1e-4
    let mid := spineMid segments p.1
    { p.2 with legs := p.2.legs.map (gait.updateLeg M gaitTime bodyZ forward spine mid) }

/-! ## Construction (`Centipede::Centipede`) -/

/-- The voxel pushed for grid position `(xx, yy)` of a segment at `(segX, segY)`. -/
def mkVoxel (segX segY : F) (voxW voxH xx yy : Int) : Voxel F :=
  let cx := voxW / 2
  let cy := voxH / 2
  let ddx := xx - cx
  let ddy := yy - cy
  { filled := decide (|ddx| + |ddy| ≤ 1)
    baseOx := (xx : F), baseOy := (yy : F)
    wx := segX + (xx : F), wy := segY + (yy : F)
    vx := 0.0, vy := 0.0 }

/-- The leg pushed for `side` on segment number `i` at `(segX, segY)`. -/
def mkLeg (segX segY : F) (voxW voxH : Int) (i : Nat) (side : Int) : Leg F :=
  let hipOx : F := ((voxW : F) * 0.5) + ((side : F) * 1.2)
  let hipOy : F := (voxH : F) * 0.5
  let phaseStep : F := PI / 4.0
  let sidePhase : F := if side = -1 then 0.0 else PI
  let totalLen : F := 2.0 + 2.0 + 1.5
  let unit : F := totalLen / 6.0
  { hipOx := hipOx, hipOy := hipOy, side := side
    hipAngle := 0.0, kneeAngle := 0.0, footAngle := 0.0
    phaseOffset := (i : F) * phaseStep + sidePhase
    cycle := 0.0
    footHoldX := segX + hipOx, footHoldY := segY + hipOy
    swingPhase := 0.0
    swingStartX := segX + hipOx, swingStartY := segY + hipOy
    hipLength := 3.0 * unit, kneeLength := 2.0 * unit, footLength := 1.0 * unit
    pushStrength := 0.06
    onGround := true
    coxaLength := kCoxaLength }

/-- Segment number `i` as built by the constructor loop body. -/
def mkSegment (startX startY : Int) (i : Nat) : Segment F :=
  let SEG_W : Int := 3
  let x : F := ((startX - (i : Int) * SEG_W : Int) : F)
  let y : F := (startY : F)
  { x := x, y := y, px := x, py := y
    angle := 0, moved := false
    voxW := SEG_W, voxH := SEG_W
    voxels := (List.range SEG_W.toNat).flatMap fun yy =>
      (List.range SEG_W.toNat).map fun xx => mkVoxel x y SEG_W SEG_W (xx : Int) (yy : Int)
    legs := [mkLeg x y SEG_W SEG_W i (-1), mkLeg x y SEG_W SEG_W i 1] }

/-- The constructor `Centipede::Centipede(startX, startY, length)`; the body height starts at
its static initialiser `kBodyRestZ`. -/
def Centipede.create (startX startY length : Int) : Centipede F :=
  { segments := (List.range length.toNat).map (mkSegment startX startY)
    dirX := 1, dirY := 0, moveCounter := 0
    gaitTime := 0.0
    lastHeadX := (startX : F), lastHeadY := (startY : F)
    lastMoveDx := 0.0, lastMoveDy := 0.0
    bodyZ := kBodyRestZ }

/-! ## Collision-aware mover (`Centipede::tryMove`, `Centipede::moveBy`) -/

/-- The rounded grid cell `(floor(wx + 0.5), floor(wy + 0.5))` of a world position. -/
def cellAt (wx wy : F) : Int × Int := (⌊wx + 0.5⌋, ⌊wy + 0.5⌋)

/-- The rounded grid cell a voxel currently occupies. -/
def Voxel.cell (v : Voxel F) : Int × Int := cellAt v.wx v.wy

/-- The occupancy map `occ`: cell to `(segment index, voxel index)`, keys unique. -/
abbrev Occ := List ((Int × Int) × (Nat × Nat))

/-- The call `occ.find(key)`. -/
def Occ.find (occ : Occ) (k : Int × Int) : Option (Nat × Nat) := occ.lookup k

/-- The call `occ.erase(key)`. -/
def Occ.erase (occ : Occ) (k : Int × Int) : Occ := occ.filter fun e => e.1 ≠ k

/-- The assignment `occ[key] = value`. -/
def Occ.set (occ : Occ) (k : Int × Int) (v : Nat × Nat) : Occ := (k, v) :: Occ.erase occ k

/-- The occupancy fill loop: every filled voxel, in segment then voxel order, claims its cell
(a later voxel overwrites an earlier one on the same cell). -/
def buildOcc (segments : List (Segment F)) : Occ :=
  segments.enum.foldl (fun occ ps =>
    ps.2.voxels.enum.foldl (fun occ pv =>
      if !pv.2.filled then occ else Occ.set occ pv.2.cell (ps.1, pv.1)) occ) []

/-- The integers `lo, lo+1, ..., hi` in increasing order. -/
def intRange (lo hi : Int) : List Int :=
  (List.range (hi + 1 - lo).toNat).map fun (k : Nat) => lo + (k : Int)

/-- The offsets `(dxr, dyr)` visited by the ring search, in visiting order: radius 1 to 6,
then `dxr`, then `dyr` from `-radius` to `radius`, keeping the cells on the ring. -/
def ringOffsets : List (Int × Int) :=
  (intRange 1 6).flatMap fun radius =>
    (intRange (-radius) radius).flatMap fun dxr =>
      (intRange (-radius) radius).filterMap fun dyr =>
        if |dxr| ≠ radius ∧ |dyr| ≠ radius then none else some (dxr, dyr)

/-- The first ring cell around `cell` that is absent from `occ`, if any. -/
def firstFreeRing (occ : Occ) (cell : Int × Int) : Option (Int × Int) :=
  (ringOffsets.map fun d => (cell.1 + d.1, cell.2 + d.2)).find? fun nk =>
    (Occ.find occ nk).isNone

/-- The lambda `relocateVoxel(ownerSeg, ownerVox)`: returns the new segments, the new map and
`placed`. -/
def relocateVoxel (segments : List (Segment F)) (occ : Occ) (ownerSeg ownerVox : Nat) :
    List (Segment F) × Occ × Bool :=
  let ov := ((segments.getD ownerSeg default).voxels.getD ownerVox default)
  let ig := ov.cell
  match firstFreeRing occ ig with
  | none => (segments, occ, false)
  | some n =>
    (updateAt segments ownerSeg fun s =>
        { s with voxels := updateAt s.voxels ownerVox fun v =>
            { v with wx := (n.1 : F), wy := (n.2 : F) } },
     Occ.set (Occ.erase occ ig) n (ownerSeg, ownerVox), true)

/-- The branch `if (!ok)` of the resolution loop: the whole owning segment is pushed away from
the head by `pushBase * (1 + iter * 0.7)`. -/
def pushSegment (M : MathFns F) (iter : Nat) (segments : List (Segment F)) (occ : Occ)
    (osi : Nat) : List (Segment F) × Occ :=
  let ownerSeg := segments.getD osi default
  let head := segments.getD 0 default
  let vx := ownerSeg.x - head.x
  let vy := ownerSeg.y - head.y
  let vlen := M.sqrt (vx * vx + vy * vy)
  let v : F × F × F := if vlen < 0.001 then (1.0, 0.0, 1.0) else (vx, vy, vlen)
  let vx := v.1 / v.2.2
  let vy := v.2.1 / v.2.2
  let pushBase : F := 1.5
  let pushDist := pushBase * (1.0 + (iter : F) * 0.7)
  let occ := ownerSeg.voxels.foldl (fun occ ov => Occ.erase occ ov.cell) occ
  let shift : Segment F → Segment F := fun s =>
    { s with
      x := s.x + vx * pushDist
      y := s.y + vy * pushDist
      moved := true
      voxels := s.voxels.map fun ov =>
        { ov with wx := ov.wx + vx * pushDist, wy := ov.wy + vy * pushDist } }
  let occ :=
    (shift ownerSeg).voxels.enum.foldl (fun occ pv => Occ.set occ pv.2.cell (osi, pv.1)) occ
  (updateAt segments osi shift, occ)

/-- The body of `for (auto tk : headTargets)` in pass number `iter`; the state is the
segments, the map and `headFree`. -/
def resolveTarget (M : MathFns F) (iter : Nat) (st : List (Segment F) × Occ × Bool)
    (tk : Int × Int) : List (Segment F) × Occ × Bool :=
  match Occ.find st.2.1 tk with
  | none => st
  | some o =>
    if o.1 = 0 then st
    else
      let r := relocateVoxel st.1 st.2.1 o.1 o.2
      if r.2.2 then (r.1, r.2.1, st.2.2)
      else
        let p := pushSegment M iter st.1 st.2.1 o.1
        (p.1, p.2, false)

/-- The loop `for (iter = 0; iter < maxIterations && !headFree; ++iter)`, with `fuel` passes
left; returns the segments and the map of the last pass. -/
def resolveLoop (M : MathFns F) (headTargets : List (Int × Int)) :
    Nat → Nat → List (Segment F) → Occ → List (Segment F) × Occ
  | 0, _, segments, occ => (segments, occ)
  | fuel + 1, iter, segments, _ =>
    let st := headTargets.foldl (resolveTarget M iter) (segments, buildOcc segments, true)
    if st.2.2 then (st.1, st.2.1) else resolveLoop M headTargets fuel (iter + 1) st.1 st.2.1

/-- The cells the head's filled voxels would occupy after moving by `(dx, dy)`. -/
def headTargets (segments : List (Segment F)) (dx dy : F) : List (Int × Int) :=
  ((segments.getD 0 default).voxels.filter fun hv => hv.filled).map fun hv =>
    cellAt (hv.wx + dx) (hv.wy + dy)

/-- The lambda `wouldCollide(ox, oy)`: some filled head voxel shifted by `(ox, oy)` rounds to
the cell of a filled voxel of another segment. -/
def wouldCollide (segments : List (Segment F)) (ox oy : F) : Bool :=
  (segments.getD 0 default).voxels.any fun hv =>
    hv.filled && (segments.drop 1).any fun other =>
      other.voxels.any fun ov => ov.filled && decide (ov.cell = cellAt (hv.wx + ox) (hv.wy + oy))

/-- The final check `blocked`: some head target cell is mapped to a segment other than the
head. -/
def isBlocked (occ : Occ) (headTargets : List (Int × Int)) : Bool :=
  headTargets.any fun tk =>
    match Occ.find occ tk with
    | none => false
    | some o => decide (o.1 ≠ 0)

/-- The delta chosen after collision resolution (source lines 202-207). -/
def chooseDelta (segments : List (Segment F)) (blocked : Bool) (dx dy : F) : F × F :=
  if !blocked then (dx, dy)
  else
    let colX := wouldCollide segments dx 0.0
    let colY := wouldCollide segments 0.0 dy
    if !colX then (dx, 0.0) else if !colY then (0.0, dy) else (0.0, 0.0)

/-- The projected screen position of a grid point as computed inside `moveBy`
(`resf = 10`, window 800 x 800). -/
def screenPos (x y : F) : F × F :=
  let resf : F := 10.0
  let halfW := resf * 0.5
  let halfH := resf * 0.25
  let cx : F := 400.0
  let cy : F := 50.0
  ((x - y) * halfW + cx, (x + y) * halfH + cy)

/-- The boundary check of `moveBy` (source lines 209-234): returns the final
`(applyDx, applyDy)` for a head at `(hx, hy)`. -/
def viewportClamp (hx hy applyDx applyDy : F) : F × F :=
  let newHeadX := hx + applyDx
  let newHeadY := hy + applyDy
  let sp := screenPos newHeadX newHeadY
  let margin : F := 20.0
  let inBoundsX : Bool := decide (sp.1 ≥ margin ∧ sp.1 ≤ (800.0 - margin))
  let inBoundsY : Bool := decide (sp.2 ≥ margin ∧ sp.2 ≤ (800.0 - margin))
  if !inBoundsX || !inBoundsY then
    let newHeadX := hx + (if inBoundsX then applyDx else 0.0)
    let newHeadY := hy + (if inBoundsY then applyDy else 0.0)
    (newHeadX - hx, newHeadY - hy)
  else (applyDx, applyDy)

/-- The head update (source lines 236-239). -/
def applyHead (M : MathFns F) (head : Segment F) (applyDx applyDy : F) : Segment F :=
  let moved : Bool := decide (|applyDx| > 1e-6 ∨ |applyDy| > 1e-6)
  { head with
    x := head.x + applyDx
    y := head.y + applyDy
    voxels := head.voxels.map fun hv => { hv with wx := hv.wx + applyDx, wy := hv.wy + applyDy }
    moved := moved
    angle := if moved then M.atan2 applyDy applyDx else head.angle }

/-- The follower step for segment `i` (source lines 247-264): exponential chase of the
predecessor's pre-move position `prev[i-1]`, heading ease, voxel spring. -/
def followStep (M : MathFns F) (prev : List (F × F)) (segments : List (Segment F)) (i : Nat) :
    List (Segment F) :=
  let target := prev.getD (i - 1) (0, 0)
  let pred := segments.getD (i - 1) default
  updateAt segments i fun s =>
    let oldx := s.x
    let oldy := s.y
    let x := s.x + (target.1 - s.x) * followSpeed * 0.9
    let y := s.y + (target.2 - s.y) * followSpeed * 0.9
    let moved : Bool := decide (|x - oldx| > 1e-4 ∨ |y - oldy| > 1e-4)
    let dx_to_pred := pred.x - x
    let dy_to_pred := pred.y - y
    let dist_to_pred := M.sqrt (dx_to_pred * dx_to_pred + dy_to_pred * dy_to_pred)
    let angle :=
      if dist_to_pred > 0.1 then
        let target_angle := M.atan2 dy_to_pred dx_to_pred
        let da := target_angle - s.angle
        let da := if da > 3.14159 then da - 6.28318 else da
        let da := if da < -3.14159 then da + 6.28318 else da
        s.angle + da * 0.15
      else s.angle
    { s with
      x := x, y := y, moved := moved, angle := angle
      voxels := s.voxels.map fun v =>
        if !v.filled then v
        else
          let targetWx := x + v.baseOx
          let targetWy := y + v.baseOy
          let k : F := 0.22
          let vx := (v.vx + (targetWx - v.wx) * k) * 0.82
          let vy := (v.vy + (targetWy - v.wy) * k) * 0.82
          { v with vx := vx, vy := vy, wx := v.wx + vx, wy := v.wy + vy } }

/-- Whether some filled voxel of `other` and some filled voxel of `me` round to the same
cell. -/
def overlaps (other me : Segment F) : Bool :=
  other.voxels.any fun ov =>
    ov.filled && me.voxels.any fun fv => fv.filled && decide (fv.cell = ov.cell)

/-- The first segment `sj != i`, in index order, that overlaps segment `i`: the one the
push-off loop acts on before it breaks out. -/
def pushOffSource (segments : List (Segment F)) (i : Nat) : Option (Nat × Segment F) :=
  segments.enum.find? fun p => decide (p.1 ≠ i) && overlaps p.2 (segments.getD i default)

/-- The overlap push-off of segment `i` (source lines 265-277). -/
def pushOff (segments : List (Segment F)) (i : Nat) : List (Segment F) :=
  match pushOffSource segments i with
  | none => segments
  | some p =>
    let me := segments.getD i default
    let pushX := (me.x - p.2.x) * 0.2
    let pushY := (me.y - p.2.y) * 0.2
    let ax : F := if pushX = 0.0 then 0.2 else pushX
    let ay : F := if pushY = 0.0 then 0.2 else pushY
    updateAt segments i fun s =>
      { s with
        x := s.x + ax, y := s.y + ay
        voxels := s.voxels.map fun fv2 => { fv2 with wx := fv2.wx + ax, wy := fv2.wy + ay } }

/-- The body of the chain loop for index `i >= 1` (source lines 245-278). -/
def chainStep (M : MathFns F) (prev : List (F × F)) (segments : List (Segment F)) (i : Nat) :
    List (Segment F) :=
  if !(segments.getD (i - 1) default).moved then
    updateAt segments i fun s => { s with moved := false }
  else pushOff (followStep M prev segments i) i

/-- The chain loop restricted to the indices `1, ..., k`. -/
def chainLoop (M : MathFns F) (prev : List (F × F)) (segments : List (Segment F)) (k : Nat) :
    List (Segment F) :=
  (List.range k).foldl (fun segs j => chainStep M prev segs (j + 1)) segments

/-- The loop `for (auto &s : segments) s.moved = false;`. -/
def clearMoved (segments : List (Segment F)) : List (Segment F) :=
  segments.map fun s => { s with moved := false }

/-- The delta finally applied to the head by `moveBy(dx, dy)`: collision resolution, axis
fallback and boundary check (source lines 98-234); also returns the segments after
resolution. -/
def resolveMove (M : MathFns F) (segments : List (Segment F)) (dx dy : F) :
    List (Segment F) × F × F :=
  let segs := clearMoved segments
  let targets := headTargets segs dx dy
  let r := resolveLoop M targets 5 0 segs (buildOcc segs)
  let blocked := isBlocked r.2 targets
  let d := chooseDelta r.1 blocked dx dy
  let head := r.1.getD 0 default
  let a := viewportClamp head.x head.y d.1 d.2
  (r.1, a.1, a.2)

/-- The segments as they enter the chain loop of `moveBy(dx, dy)`: collision resolution
done and the head moved (source lines 98-239). -/
def chainEntry (M : MathFns F) (segments : List (Segment F)) (dx dy : F) : List (Segment F) :=
  let r := resolveMove M segments dx dy
  updateAt r.1 0 fun head => applyHead M head r.2.1 r.2.2

/-- The snapshot `prev` of the pre-move logical positions. -/
def prevPositions (segments : List (Segment F)) : List (F × F) :=
  segments.map fun s => (s.x, s.y)

/-- The segments at the start of iteration `i` of the chain loop of `moveBy(dx, dy)`. -/
def chainBefore (M : MathFns F) (segments : List (Segment F)) (dx dy : F) (i : Nat) :
    List (Segment F) :=
  chainLoop M (prevPositions segments) (chainEntry M segments dx dy) (i - 1)

/-- Whether the overlap push-off acts on segment `i` during `moveBy(dx, dy)`, given that its
predecessor moved: after the follower step some other segment shares a cell with it. -/
def pushOffFires (M : MathFns F) (segments : List (Segment F)) (dx dy : F) (i : Nat) : Bool :=
  (pushOffSource
    (followStep M (prevPositions segments) (chainBefore M segments dx dy i) i) i).isSome

/-- The method `Centipede::moveBy`. -/
def Centipede.moveBy (M : MathFns F) (c : Centipede F) (dx dy : F) : Centipede F :=
  if c.segments.isEmpty then c
  else
    let prev := prevPositions c.segments
    let r := resolveMove M c.segments dx dy
    let applyDx := r.2.1
    let applyDy := r.2.2
    let segs := chainEntry M c.segments dx dy
    let headMoved := (segs.getD 0 default).moved
    let segs := chainLoop M prev segs (segs.length - 1)
    { c with
      segments := segs.map fun s => { s with px := s.x, py := s.y }
      lastMoveDx := if headMoved then applyDx else 0.0
      lastMoveDy := if headMoved then applyDy else 0.0 }

/-- The method `Centipede::tryMove`, also reporting whether it reached the call of `moveBy`. -/
def Centipede.tryMoveTraced (M : MathFns F) (c : Centipede F) (dx dy : F) :
    Centipede F × Bool :=
  let mag := M.sqrt (dx * dx + dy * dy)
  let d : F × F :=
    if mag > maxMovePerTry then (dx / mag * maxMovePerTry, dy / mag * maxMovePerTry)
    else (dx, dy)
  let moveCounter := c.moveCounter + 1
  if moveCounter < moveDelay then ({ c with moveCounter := moveCounter }, false)
  else (Centipede.moveBy M { c with moveCounter := 0 } d.1 d.2, true)

/-- A run of consecutive `tryMove` calls, one per requested delta: the state after each call
and whether that call reached `moveBy`. -/
def tryMoveRun (M : MathFns F) : Centipede F → List (F × F) → List (Centipede F × Bool)
  | _, [] => []
  | c, d :: ds =>
    (Centipede.tryMoveTraced M c d.1 d.2) ::
      tryMoveRun M (Centipede.tryMoveTraced M c d.1 d.2).1 ds

/-- The method `Centipede::tryMove`. -/
def Centipede.tryMove (M : MathFns F) (c : Centipede F) (dx dy : F) : Centipede F :=
  (Centipede.tryMoveTraced M c dx dy).1

/-! ## Per-tick update (`Centipede::update`) -/

/-- The height estimate `zFromLeg` of one planted leg (source lines 342-362). -/
def zFromLeg (M : MathFns F) (spine mid : F × F) (leg : Leg F) : F :=
  let ca := coxaAttach spine mid leg
  let dxHold := leg.footHoldX - ca.1
  let dyHold := leg.footHoldY - ca.2
  let rHold := M.sqrt (dxHold * dxHold + dyHold * dyHold)
  let L1 := leg.hipLength
  let L2 := leg.kneeLength + leg.footLength
  let total := L1 + L2
  let preferredExt : F := 0.75
  let preferredDist := preferredExt * total
  let preferredDist := clamp preferredDist (|L1 - L2| + 0.05) (total - 0.05)
  let z : F :=
    if rHold < preferredDist then
      M.sqrt (fmax 0.0 (preferredDist * preferredDist - rHold * rHold))
    else 0.05
  clamp z 0.15 2.0

/-- The accumulators `(supportedZSum, supportedZCount)` after the first pass over all legs. -/
def supportedZ (M : MathFns F) (segments : List (Segment F)) : F × Nat :=
  segments.enum.foldl (fun acc p =>
    let spine := spineDir M segments p.1 (1.0, 0.0) 0.001
    let mid := spineMid segments p.1
    p.2.legs.foldl (fun acc leg =>
      if !leg.onGround then acc else (acc.1 + zFromLeg M spine mid leg, acc.2 + 1)) acc)
    (0.0, 0)

/-- The new shared body height (source lines 369-373). -/
def nextBodyZ (M : MathFns F) (segments : List (Segment F)) (bodyZ : F) : F :=
  let acc := supportedZ M segments
  let targetBodyZ : F := if 0 < acc.2 then acc.1 / (acc.2 : F) else kBodyRestZ
  clamp (bodyZ + (targetBodyZ - bodyZ) * 0.12) 0.15 2.0

/-- Pass 2 of `update`: `solveLeg` on every leg with the current body height. -/
def ikPass (M : MathFns F) (segments : List (Segment F)) (bodyZ : F) : List (Segment F) :=
  segments.enum.map fun p =>
    let spine := spineDir M segments p.1 (1.0, 0.0) 0.001
    let mid := spineMid segments p.1
    { p.2 with legs := p.2.legs.map fun leg =>
        let ca := coxaAttach spine mid leg
        let outDirX := -spine.2 * (leg.side : F)
        let outDirY := spine.1 * (leg.side : F)
        let yawRef := M.atan2 outDirY outDirX
        ik.solveLeg M leg ca.1 ca.2 bodyZ yawRef }

/-- The render-position follow and the soft-body spring step of `update`
(source lines 421-437). -/
def relaxSegment (seg : Segment F) : Segment F :=
  { seg with
    px := seg.px + (seg.x - seg.px) * followSpeed
    py := seg.py + (seg.y - seg.py) * followSpeed
    voxels := seg.voxels.map fun v =>
      if !v.filled then v
      else
        let targetWx := seg.x + v.baseOx
        let targetWy := seg.y + v.baseOy
        let k_center : F := 0.04
        let vx := v.vx + (targetWx - v.wx) * k_center
        let vy := v.vy + (targetWy - v.wy) * k_center
        let k_move : F := 0.12
        let vx := if seg.moved then vx + (targetWx - v.wx) * k_move else vx
        let vy := if seg.moved then vy + (targetWy - v.wy) * k_move else vy
        let vx := vx * 0.85
        let vy := vy * 0.85
        { v with vx := vx, vy := vy, wx := v.wx + vx, wy := v.wy + vy } }

/-- The loop `for (attempt = 0; attempt < 8 && !placed; ++attempt)` nudging a voxel along its
velocity, with `fuel` attempts left. -/
def nudgeLoop (si vi : Nat) : Nat → Voxel F → Occ → Voxel F × Occ × Bool
  | 0, v, occ => (v, occ, false)
  | fuel + 1, v, occ =>
    let step : F := 0.25
    let v := { v with wx := v.wx + v.vx * step, wy := v.wy + v.vy * step }
    if (Occ.find occ v.cell).isNone then (v, Occ.set occ v.cell (si, vi), true)
    else nudgeLoop si vi fuel v occ

/-- The de-overlap step for voxel `vi` of segment `si` (source lines 442-445). -/
def deOverlapVoxel (si vi : Nat) (v : Voxel F) (occ : Occ) : Voxel F × Occ :=
  if !v.filled then (v, occ)
  else
    let k := v.cell
    if (Occ.find occ k).isNone then (v, Occ.set occ k (si, vi))
    else
      match firstFreeRing occ k with
      | some n => ({ v with wx := (n.1 : F), wy := (n.2 : F) }, Occ.set occ n (si, vi))
      | none =>
        let r := nudgeLoop si vi 8 v occ
        if r.2.2 then (r.1, r.2.1) else (r.1, Occ.set r.2.1 k (si, vi))

/-- The de-overlap pass over the voxels of one segment, threading the map. -/
def deOverlapVoxels (si : Nat) : Nat → List (Voxel F) → Occ → List (Voxel F) × Occ
  | _, [], occ => ([], occ)
  | vi, v :: vs, occ =>
    let r := deOverlapVoxel si vi v occ
    let rest := deOverlapVoxels si (vi + 1) vs r.2
    (r.1 :: rest.1, rest.2)

/-- The de-overlap pass over all segments from index `si` on, threading the map. -/
def deOverlapFrom : Nat → List (Segment F) → Occ → List (Segment F) × Occ
  | _, [], occ => ([], occ)
  | si, seg :: segs, occ =>
    let r := deOverlapVoxels si 0 seg.voxels occ
    let rest := deOverlapFrom (si + 1) segs r.2
    ({ seg with voxels := r.1 } :: rest.1, rest.2)

/-- The method `Centipede::update`. -/
def Centipede.update (M : MathFns F) (c : Centipede F) : Centipede F :=
  let kIdleGait : F := 0.015
  let kGaitPerUnit : F := 5.55
  let head := c.segments.getD 0 default
  let headMove : F :=
    if c.segments.isEmpty then 0.0
    else M.sqrt ((head.x - c.lastHeadX) * (head.x - c.lastHeadX) +
      (head.y - c.lastHeadY) * (head.y - c.lastHeadY))
  let gaitAdvance := kIdleGait + headMove * kGaitPerUnit
  let gaitTime := c.gaitTime + gaitAdvance
  let segs := gait.updateGait M c.segments gaitTime c.bodyZ c.lastMoveDx c.lastMoveDy
  let bodyZ := nextBodyZ M segs c.bodyZ
  let segs := ikPass M segs bodyZ
  let segs := segs.map relaxSegment
  let segs := (deOverlapFrom 0 segs []).1
  { c with
    segments := segs
    lastHeadX := if c.segments.isEmpty then c.lastHeadX else head.x
    lastHeadY := if c.segments.isEmpty then c.lastHeadY else head.y
    gaitTime := gaitTime
    bodyZ := bodyZ }

/-- The projected screen position of the head segment (of the zero segment when the body is
empty), as `moveBy` computes it for the boundary check. -/
def headScreen (c : Centipede F) : F × F :=
  screenPos (c.segments.getD 0 default).x (c.segments.getD 0 default).y

/-! ## Observers of `moveBy` used by the properties -/

/-- The segments and the occupancy map when the resolution loop of `moveBy(dx, dy)` ends
(source line 196). -/
def resolved (M : MathFns F) (segments : List (Segment F)) (dx dy : F) :
    List (Segment F) × Occ :=
  resolveLoop M (headTargets (clearMoved segments) dx dy) 5 0 (clearMoved segments)
    (buildOcc (clearMoved segments))

/-- The flag `blocked` of `moveBy(dx, dy)` (source lines 199-200). -/
def moveBlocked (M : MathFns F) (segments : List (Segment F)) (dx dy : F) : Bool :=
  isBlocked (resolved M segments dx dy).2 (headTargets (clearMoved segments) dx dy)

/-- The pair `(applyDx, applyDy)` of `moveBy(dx, dy)` before the boundary check
(source lines 202-207). -/
def preClampDelta (M : MathFns F) (segments : List (Segment F)) (dx dy : F) : F × F :=
  chooseDelta (resolved M segments dx dy).1 (moveBlocked M segments dx dy) dx dy

/-! ## Observers of `update` used by the properties -/

/-- The increment `gaitAdvance` of `update` (source lines 293-301). -/
def Centipede.gaitAdvance (M : MathFns F) (c : Centipede F) : F :=
  let kIdleGait : F := 0.015
  let kGaitPerUnit : F := 5.55
  let head := c.segments.getD 0 default
  let headMove : F :=
    if c.segments.isEmpty then 0.0
    else M.sqrt ((head.x - c.lastHeadX) * (head.x - c.lastHeadX) +
      (head.y - c.lastHeadY) * (head.y - c.lastHeadY))
  kIdleGait + headMove * kGaitPerUnit

/-- The segments of `update` right after the call of `updateGait` (source line 305). -/
def Centipede.gaitSegments (M : MathFns F) (c : Centipede F) : List (Segment F) :=
  gait.updateGait M c.segments (c.gaitTime + Centipede.gaitAdvance M c) c.bodyZ
    c.lastMoveDx c.lastMoveDy

/-- The value `targetBodyZ` of `update` (source line 370). -/
def targetBodyZ (M : MathFns F) (segments : List (Segment F)) : F :=
  if 0 < (supportedZ M segments).2 then
    (supportedZ M segments).1 / ((supportedZ M segments).2 : F)
  else kBodyRestZ

/-- The height estimates `zFromLeg` of the planted legs, in loop order. -/
def plantedEstimates (M : MathFns F) (segments : List (Segment F)) : List F :=
  segments.enum.flatMap fun p =>
    (p.2.legs.filter fun leg => leg.onGround).map
      (zFromLeg M (spineDir M segments p.1 (1.0, 0.0) 0.001) (spineMid segments p.1))

/-! ## Reachable states and topology -/

/-- The states reachable from the constructor by `tryMove`, `moveBy` and `update` calls. -/
inductive Reachable (M : MathFns F) : Centipede F → Prop
  | create (startX startY length : Int) : Reachable M (Centipede.create startX startY length)
  | tryMove (c : Centipede F) (dx dy : F) :
      Reachable M c → Reachable M (Centipede.tryMove M c dx dy)
  | moveBy (c : Centipede F) (dx dy : F) :
      Reachable M c → Reachable M (Centipede.moveBy M c dx dy)
  | update (c : Centipede F) : Reachable M c → Reachable M (Centipede.update M c)

/-- The members of a voxel fixed at construction: the mask bit and the rest offset. -/
def Voxel.shape (v : Voxel F) : Bool × F × F := (v.filled, v.baseOx, v.baseOy)

/-- The members of a leg fixed at construction: side, phase offset, coxa length and the three
link lengths. -/
def Leg.build (l : Leg F) : Int × F × F × F × F × F :=
  (l.side, l.phaseOffset, l.coxaLength, l.hipLength, l.kneeLength, l.footLength)

/-- The topology of a segment: the shapes of its voxels and the builds of its legs, in
order. -/
def Segment.topology (s : Segment F) :
    List (Bool × F × F) × List (Int × F × F × F × F × F) :=
  (s.voxels.map Voxel.shape, s.legs.map Leg.build)

/-- The topology of the creature: the topology of each segment, in order. -/
def Centipede.topology (c : Centipede F) :
    List (List (Bool × F × F) × List (Int × F × F × F × F × F)) :=
  c.segments.map Segment.topology

/-! ## Forward kinematics of the renderer (`src/render/DrawHelpers.cpp`) -/

/-- The horizontal distance from the hip joint to the foot in the forward kinematics of
`drawhelpers::drawCentipede`, second and third link taken together (`L2`). -/
def fkReach (M : MathFns F) (L1 L2 hipPitch knee : F) : F :=
  L1 * M.cos hipPitch + L2 * M.cos (hipPitch + knee)

/-- The height of the foot above the hip joint in the same forward kinematics. -/
def fkHeight (M : MathFns F) (L1 L2 hipPitch knee : F) : F :=
  L1 * M.sin hipPitch + L2 * M.sin (hipPitch + knee)

/-- The laws of the real `sqrt`, `acos`, `sin`, `cos` and `atan2` that the properties of the
solver rely on; the functions of `ℝ` satisfy them. -/
structure MathFns.Exact (M : MathFns F) : Prop where
  sqrt_nonneg : ∀ x : F, 0 ≤ x → 0 ≤ M.sqrt x
  sqrt_mul_self : ∀ x : F, 0 ≤ x → M.sqrt x * M.sqrt x = x
  cos_acos : ∀ x : F, -1 ≤ x → x ≤ 1 → M.cos (M.acos x) = x
  acos_nonneg : ∀ x : F, 0 ≤ M.acos x
  sin_sq_add_cos_sq : ∀ a : F, M.sin a * M.sin a + M.cos a * M.cos a = 1
  cos_neg : ∀ a : F, M.cos (-a) = M.cos a
  sin_neg : ∀ a : F, M.sin (-a) = -M.sin a
  cos_add : ∀ a b : F, M.cos (a + b) = M.cos a * M.cos b - M.sin a * M.sin b
  sin_add : ∀ a b : F, M.sin (a + b) = M.sin a * M.cos b + M.cos a * M.sin b
  atan2_polar : ∀ x y : F, (x ≠ 0 ∨ y ≠ 0) →
    ∃ D : F, 0 < D ∧ D * D = x * x + y * y ∧
      x = D * M.cos (M.atan2 y x) ∧ y = D * M.sin (M.atan2 y x)

/-! ## Ring search geometry -/

/-- The Chebyshev distance between two grid cells. -/
def cheb (a b : Int × Int) : Int := max |a.1 - b.1| |a.2 - b.2|

/-! ## Cells of the body -/

/-- The rounded grid cells of the filled voxels of the body, one entry per filled voxel, in
segment then voxel order. -/
def filledCells (segments : List (Segment F)) : List (Int × Int) :=
  segments.flatMap fun s => (s.voxels.filter fun v => v.filled).map Voxel.cell

/-- The keys of the occupancy map. -/
def Occ.keys (occ : Occ) : List (Int × Int) := occ.map Prod.fst

/-- The occupancy map is exact for the segments: every filled voxel owns its rounded cell in
the map, and every entry of the map names a filled voxel on that cell. -/
def OccExact (segments : List (Segment F)) (occ : Occ) : Prop :=
  (∀ (j vi : Nat) (s : Segment F) (v : Voxel F), segments[j]? = some s →
      s.voxels[vi]? = some v → v.filled = true → Occ.find occ v.cell = some (j, vi)) ∧
  (∀ (cell : Int × Int) (o : Nat × Nat), Occ.find occ cell = some o →
      ∃ (s : Segment F) (v : Voxel F), segments[o.1]? = some s ∧ s.voxels[o.2]? = some v ∧
        v.filled = true ∧ v.cell = cell)

/-- The entries the occupancy fill loop writes, in order: one per filled voxel. -/
def ownedCells (segments : List (Segment F)) : List ((Int × Int) × (Nat × Nat)) :=
  segments.enum.flatMap fun ps =>
    ps.2.voxels.enum.filterMap fun pv =>
      if pv.2.filled then some (pv.2.cell, (ps.1, pv.1)) else none

/-! ## Isometric projection (`src/render/Projection.cpp`) -/

/-- The function `gridToIsoZ`; `winW` is `window->getSize().x` and `(camOffX, camOffY)` are
the camera offsets `input::g_camOffX`, `input::g_camOffY`. -/
def gridToIsoZ (gx gy z resf : F) (winW : Nat) (camOffX camOffY : F) : F × F :=
  let halfW := resf * 0.5
  let halfH := resf * 0.25
  let cx := (winW : F) * 0.5 + camOffX
  let cy := 50.0 + camOffY
  let sx := (gx - gy) * halfW + cx
  let sy := (gx + gy) * halfH - z * resf * 0.3 + cy
  (sx, sy)

/-- The function `gridToIso`: the ground-level projection. -/
def gridToIso (gx gy resf : F) (winW : Nat) (camOffX camOffY : F) : F × F :=
  gridToIsoZ gx gy 0.0 resf winW camOffX camOffY

/-- The function `screenToGrid`. -/
def screenToGrid (sx sy resf : F) (winW : Nat) (camOffX camOffY : F) : F × F :=
  let halfW := resf * 0.5
  let halfH := resf * 0.25
  let cx := (winW : F) * 0.5 + camOffX
  let cy := 50.0 + camOffY
  let A := sx - cx
  let B := sy - cy
  let gx := (A / halfW + B / halfH) * 0.5
  let gy := (B / halfH - A / halfW) * 0.5
  (gx, gy)

/-! ## Camera input (`src/input/Camera.cpp`, `include/Game.hpp`) -/

/-- The constant `Game::res`. -/
def Game.res : Int := 10

/-- The events `handleCameraEvent` tells apart: middle button pressed or released, mouse
moved, wheel scrolled (on the vertical wheel or not, with its `delta`), anything else. -/
inductive CamEvent (F : Type)
  | middlePressed
  | middleReleased
  | mouseMoved
  | wheelScrolled (vertical : Bool) (delta : F)
  | other

/-- The state `handleCameraEvent` reads and writes: the caller's `zoom`, `middleDragging`
and `middleLastMouse`, and the globals `g_camOffX`, `g_camOffY`. -/
structure Camera (F : Type) where
  zoom : F
  middleDragging : Bool
  middleLastMouse : Int × Int
  camOffX : F
  camOffY : F

/-- The function `input::handleCameraEvent`; `mpos` is what `sf::Mouse::getPosition(*window)`
returns during the call and `winW` is `window->getSize().x`. -/
def handleCameraEvent (ev : CamEvent F) (mpos : Int × Int) (winW : Nat) (c : Camera F) :
    Camera F :=
  match ev with
  | CamEvent.middlePressed => { c with middleDragging := true, middleLastMouse := mpos }
  | CamEvent.middleReleased => { c with middleDragging := false }
  | CamEvent.mouseMoved =>
    if c.middleDragging then
      { c with
        camOffX := c.camOffX + ((mpos.1 - c.middleLastMouse.1 : Int) : F)
        camOffY := c.camOffY + ((mpos.2 - c.middleLastMouse.2 : Int) : F)
        middleLastMouse := mpos }
    else c
  | CamEvent.wheelScrolled vertical delta =>
    if vertical then
      let res : F := 32.0
      let resfBefore := res * c.zoom
      let gridBefore := screenToGrid (mpos.1 : F) (mpos.2 : F) resfBefore winW c.camOffX c.camOffY
      let zoomStep : F := 1.05
      let zoom := if delta > 0 then c.zoom * zoomStep
        else if delta < 0 then c.zoom / zoomStep else c.zoom
      let zoom := if zoom < 0.2 then 0.2 else zoom
      let zoom := if zoom > 4.0 then 4.0 else zoom
      let resfAfter := res * zoom
      let halfW := resfAfter * 0.5
      let halfH := resfAfter * 0.25
      let cxNeeded := (mpos.1 : F) - (gridBefore.1 - gridBefore.2) * halfW
      let cyNeeded := (mpos.2 : F) - (gridBefore.1 + gridBefore.2) * halfH
      { c with
        zoom := zoom
        camOffX := cxNeeded - ((winW : F) * 0.5)
        camOffY := cyNeeded - 50.0 }
    else c
  | CamEvent.other => c

/-! ## Observers of `wrapAngle` used by the properties -/

/-- The number of iterations the first loop of `wrapAngle` runs from `a`, at most `fuel`. -/
def ik.wrapDownIters : Nat → F → Nat
  | 0, _ => 0
  | n + 1, a => if a > PI then ik.wrapDownIters n (a - 2.0 * PI) + 1 else 0

/-- The number of iterations the second loop of `wrapAngle` runs from `a`, at most `fuel`. -/
def ik.wrapUpIters : Nat → F → Nat
  | 0, _ => 0
  | n + 1, a => if a < -PI then ik.wrapUpIters n (a + 2.0 * PI) + 1 else 0

/-- The iteration counts of the two loops of `wrapAngle(a)`. -/
def ik.wrapIters (a : F) : Nat × Nat :=
  let a1 := ik.wrapDown (ik.wrapFuel a) a
  (ik.wrapDownIters (ik.wrapFuel a) a, ik.wrapUpIters (ik.wrapFuel a1) a1)

/-- The arguments of the six calls of `wrapAngle` in `solveLeg`, in source order (lines 60,
62, 65, 66, 71, 73). -/
def ik.wrapCalls (M : MathFns F) (leg : Leg F) (coxaAttachX coxaAttachY bodyZ yawRef : F) :
    List F :=
  let g := ik.reachGuard M leg coxaAttachX coxaAttachY bodyZ
  let yaw := if g.r > 1e-6 then M.atan2 g.dy g.dx else leg.hipAngle
  let a1 := yaw - yawRef
  let yawDelta := ik.wrapAngle a1
  let yawDelta := clamp yawDelta (-kHipYawMaxDelta) kHipYawMaxDelta
  let a2 := yawRef + yawDelta
  let yaw := ik.wrapAngle a2
  let a3 := yaw - leg.hipAngle
  let dyaw := ik.wrapAngle a3
  let a4 := leg.hipAngle + dyaw * 0.20
  let hipAngle := ik.wrapAngle a4
  let a5 := hipAngle - yawRef
  let stateYawDelta := ik.wrapAngle a5
  let stateYawDelta := clamp stateYawDelta (-kHipYawMaxDelta) kHipYawMaxDelta
  let a6 := yawRef + stateYawDelta
  [a1, a2, a3, a4, a5, a6]

/-- Every entry of the occupancy map names a filled voxel that sits on the entry's cell. -/
def OccSound (segments : List (Segment F)) (occ : Occ) : Prop :=
  ∀ (cell : Int × Int) (o : Nat × Nat), Occ.find occ cell = some o →
    ∃ (s : Segment F) (v : Voxel F), segments[o.1]? = some s ∧ s.voxels[o.2]? = some v ∧
      v.filled = true ∧ v.cell = cell

/-- The number of passes the resolution loop of `moveBy` runs (source line 166), with `fuel`
passes left. -/
def resolvePasses (M : MathFns F) (headTargets : List (Int × Int)) :
    Nat → Nat → List (Segment F) → Nat
  | 0, _, _ => 0
  | fuel + 1, iter, segments =>
    let st := headTargets.foldl (resolveTarget M iter) (segments, buildOcc segments, true)
    if st.2.2 then 1 else 1 + resolvePasses M headTargets fuel (iter + 1) st.1

/-- The state (segments, map, `headFree`) of the first pass of the resolution loop of
`moveBy(dx, dy)` after its first `k` head targets. -/
def firstPassState (M : MathFns F) (segments : List (Segment F)) (dx dy : F) (k : Nat) :
    List (Segment F) × Occ × Bool :=
  ((headTargets (clearMoved segments) dx dy).take k).foldl (resolveTarget M 0)
    (clearMoved segments, buildOcc (clearMoved segments), true)

/-! ## Observers of `updateGait` used by the properties -/

/-- The angle `desiredHalfSweep` of `updateGait` (source lines 13-14): 75 degrees. -/
def gait.desiredHalfSweep : F :=
  let desiredSweepDeg : F := 150.0
  (desiredSweepDeg * (PI / 180.0)) * 0.5

/-- The value `maxReachR` of `updateGait` (source lines 82-89): the greatest horizontal reach
of the leg from a hip at height `bodyZ`. -/
def gait.maxReachR (M : MathFns F) (leg : Leg F) (bodyZ : F) : F :=
  let L1 := leg.hipLength
  let L2 := leg.kneeLength + leg.footLength
  let maxDist := (L1 + L2) - 0.05
  let dzAbs := |bodyZ|
  if dzAbs < maxDist then M.sqrt (fmax 0.0 (maxDist * maxDist - dzAbs * dzAbs)) else 0.0

/-- The outward direction `(outDirX, outDirY)` of a leg (source lines 91-92), given the unit
spine direction. -/
def gait.outDir (spine : F × F) (leg : Leg F) : F × F :=
  let perpX := -spine.2
  let perpY := spine.1
  (perpX * (leg.side : F), perpY * (leg.side : F))

/-! ## Single-precision arithmetic

Two places of the source branch on a value whose rounding decides the branch: the loops of
`ik::wrapAngle` and the swing test of `gait::updateGait`.  They are given here a second
time over IEEE-754 binary32 values: a `float` is the rational number it denotes, and every
arithmetic result is rounded by `f32`. -/

/-- The power `2 ^ k` of an integer exponent, as a rational. -/
def f32.pow2 (k : Int) : ℚ :=
  if 0 ≤ k then ((2 ^ k.toNat : Nat) : ℚ) else 1 / ((2 ^ (-k).toNat : Nat) : ℚ)

/-- The number `floor (log2 n)` of a positive `n` (and `0` for `n = 0`), by halving;
`fuel = n` halvings always suffice. -/
def f32.log2 : Nat → Nat → Nat
  | 0, _ => 0
  | fuel + 1, n =>
    match n / 2 with
    | 0 => 0
    | m + 1 => f32.log2 fuel (m + 1) + 1

/-- The binade of a non-zero `x`: the exponent `e` with `2 ^ e ≤ |x| < 2 ^ (e + 1)`, and
`-126` (the exponent of the smallest normal numbers, shared by the subnormals) below
`2 ^ -126`. -/
def f32.exponent (x : ℚ) : Int :=
  let n := x.num.natAbs
  let k : Int := (f32.log2 n n : Int) - (f32.log2 x.den x.den : Int)
  let e : Int := if f32.pow2 k ≤ |x| then k else k - 1
  max e (-126)

/-- Rounding to the nearest integer, a tie going to the even neighbour. -/
def f32.roundEven (x : ℚ) : Int :=
  let f : Int := ⌊x⌋
  let r : ℚ := x - f
  if r < 1 / 2 then f else if 1 / 2 < r then f + 1 else if f % 2 = 0 then f else f + 1

/-- The binary32 value nearest to `x` (round to nearest, ties to even): a multiple of the
unit in the last place `2 ^ (e - 23)` of the binade of `x`, which leaves 24 significant
bits.  Results of magnitude `2 ^ 128` and beyond, where the hardware gives an infinity,
are not represented. -/
def f32 (x : ℚ) : ℚ :=
  if x = 0 then 0
  else
    let ulp := f32.pow2 (f32.exponent x - 23)
    (f32.roundEven (x / ulp) : ℚ) * ulp

/-- The constant `const float PI = 3.14159265f` as the compiler stores it. -/
def PI32 : ℚ := f32 3.14159265

/-- First loop of `wrapAngle` in single precision: `while (a > PI) a -= 2.0f * PI;`.  The
result is `none` when the loop is still running after `fuel` tests of its condition. -/
def ik.wrapDown32 : Nat → ℚ → Option ℚ
  | 0, _ => none
  | n + 1, a => if a > PI32 then ik.wrapDown32 n (f32 (a - f32 (2.0 * PI32))) else some a

/-- Second loop of `wrapAngle` in single precision: `while (a < -PI) a += 2.0f * PI;`. -/
def ik.wrapUp32 : Nat → ℚ → Option ℚ
  | 0, _ => none
  | n + 1, a => if a < -PI32 then ik.wrapUp32 n (f32 (a + f32 (2.0 * PI32))) else some a

/-- The function `ik::wrapAngle` in single precision, each loop allowed `fuel` tests of its
condition; `none` when one of them has not exited by then. -/
def ik.wrapAngle32 (fuel : Nat) (a : ℚ) : Option ℚ :=
  (ik.wrapDown32 fuel a).bind (ik.wrapUp32 fuel)

/-- The phase offset the constructor stores for the leg `side` of segment `i`
(`Centipede.cpp` lines 62-65) in single precision. -/
def phaseOffset32 (i : Nat) (side : Int) : ℚ :=
  let phaseStep := f32 (PI32 / 4.0)
  let sidePhase : ℚ := if side = -1 then 0.0 else PI32
  f32 (f32 (f32 (i : ℚ) * phaseStep) + sidePhase)

/-- The per-leg phase of `updateGait` (source lines 70-71) in single precision.  The result
of `std::fmod` is exact, so rounding it changes nothing. -/
def gait.legPhase32 (gaitTime phaseOffset : ℚ) : ℚ :=
  let twoPi := f32 (2.0 * PI32)
  let phase := f32 (fmod (f32 (gaitTime + phaseOffset)) twoPi)
  if phase < 0.0 then f32 (phase + twoPi) else phase

/-- The bound `stanceEnd = stanceFrac * 2.0f * PI` (source line 73) in single precision. -/
def gait.stanceEnd32 : ℚ := f32 (f32 (f32 0.55 * 2.0) * PI32)

/-- The flag `inSwing` (source line 74) in single precision; `updateGait` stores its
negation in `leg.onGround` (source lines 115-116 and 129-130). -/
def gait.inSwing32 (gaitTime phaseOffset : ℚ) : Bool :=
  decide (gait.legPhase32 gaitTime phaseOffset ≥ gait.stanceEnd32)

/-- The counter `supportedZCount` of `Centipede::update` (source lines 308-367) in single
precision for a creature of `length` segments as the constructor built it: the number of
legs that `updateGait`, called with `gaitTime`, left with `onGround = true`. -/
def supportedZCount32 (length : Nat) (gaitTime : ℚ) : Nat :=
  ((List.range length).map fun i =>
    ([(-1 : Int), 1].filter fun side =>
      !gait.inSwing32 gaitTime (phaseOffset32 i side)).length).sum

/-! ## A runnable instance

Rational stand-ins for the libm functions, used to run the model on concrete inputs:
`sqrt` is exact on squares of rationals and correct to about six decimals elsewhere; the
trigonometric functions are short series.  No general theorem refers to them. -/

/-- Newton iteration for the integer square root, `fuel` rounds. -/
def isqrtLoop (n : Nat) : Nat → Nat → Nat
  | 0, x => x
  | fuel + 1, x =>
    match (x + n / x) / 2 with
    | 0 => 0
    | y + 1 => if y + 1 < x then isqrtLoop n fuel (y + 1) else x

/-- The integer square root `floor(sqrt n)` (the 200 rounds suffice below `2 ^ 190`). -/
def isqrt (n : Nat) : Nat := if n ≤ 1 then n else isqrtLoop n 200 n

/-- Square root on `ℚ`, exact on squares. -/
def ratSqrt (q : ℚ) : ℚ :=
  if q ≤ 0 then 0
  else (isqrt (q.num.toNat * q.den * 1000000000000) : ℚ) / ((q.den : ℚ) * 1000000)

/-- Arctangent on `[-1, 1]`, a rational approximation. -/
def ratAtan (z : ℚ) : ℚ := z / (1 + 0.28 * z * z)

/-- Two-argument arctangent on `ℚ` by quadrant. -/
def ratAtan2 (y x : ℚ) : ℚ :=
  if x = 0 ∧ y = 0 then 0
  else if |y| ≤ |x| then
    (if 0 < x then ratAtan (y / x)
     else if 0 ≤ y then ratAtan (y / x) + PI else ratAtan (y / x) - PI)
  else (if 0 < y then PI / 2 - ratAtan (x / y) else -(PI / 2) - ratAtan (x / y))

/-- Sine on `ℚ`, a degree-7 series. -/
def ratSin (x : ℚ) : ℚ := x - x ^ 3 / 6 + x ^ 5 / 120 - x ^ 7 / 5040

/-- Cosine on `ℚ`, a degree-6 series. -/
def ratCos (x : ℚ) : ℚ := 1 - x ^ 2 / 2 + x ^ 4 / 24 - x ^ 6 / 720

/-- Arccosine on `ℚ`, a short series. -/
def ratAcos (x : ℚ) : ℚ := PI / 2 - (x + x ^ 3 / 6 + 3 * x ^ 5 / 40)

/-- The runnable instance of the libm record over `ℚ`. -/
def ratFns : MathFns ℚ :=
  { sqrt := ratSqrt, atan2 := ratAtan2, acos := ratAcos, sin := ratSin, cos := ratCos }

end Defs

/-! ## Theorems -/

section Proofs

set_option linter.unusedSectionVars false

variable {F : Type} [LinearOrderedField F] [FloorRing F]

theorem clamp_mem (v lo hi : F) (h : lo ≤ hi) : lo ≤ clamp v lo hi ∧ clamp v lo hi ≤ hi := by
  unfold clamp
  split_ifs with h1 h2
  · exact ⟨le_rfl, h⟩
  · exact ⟨h, le_rfl⟩
  · exact ⟨not_lt.mp h1, not_lt.mp h2⟩

theorem clamp_of_mem (v lo hi : F) (h1 : lo ≤ v) (h2 : v ≤ hi) : clamp v lo hi = v := by
  unfold clamp
  rw [if_neg (not_lt.mpr h1), if_neg (not_lt.mpr h2)]

theorem PI_pos : (0 : F) < PI := by unfold PI; norm_num

theorem wrapFuel_spec (a : F) : |a| ≤ (ik.wrapFuel a : F) * (2 * PI) := by
  have hpos : (0 : F) < 2 * PI := by have := PI_pos (F := F); linarith
  have h := Nat.le_ceil (|a| / (2.0 * PI))
  have h2 : (2.0 : F) = 2 := by norm_num
  rw [h2] at h
  unfold ik.wrapFuel
  rw [h2]
  exact (div_le_iff₀ hpos).mp h

theorem wrapDown_spec (n : Nat) : ∀ a : F,
    (∃ k : Nat, ik.wrapDown n a = a - k * (2 * PI)) ∧
    (a ≤ PI + n * (2 * PI) → ik.wrapDown n a ≤ PI) := by
  induction n with
  | zero =>
    intro a
    refine ⟨⟨0, by simp [ik.wrapDown]⟩, ?_⟩
    intro h
    simpa [ik.wrapDown] using h
  | succ n ih =>
    intro a
    unfold ik.wrapDown
    have h2 : (2.0 : F) = 2 := by norm_num
    rw [h2]
    split_ifs with hgt
    · obtain ⟨⟨k, hk⟩, hb⟩ := ih (a - 2 * PI)
      refine ⟨⟨k + 1, ?_⟩, ?_⟩
      · rw [hk]; push_cast; ring
      · intro h
        apply hb
        push_cast at h
        linarith
    · exact ⟨⟨0, by simp⟩, fun _ => not_lt.mp hgt⟩

theorem wrapUp_spec (n : Nat) : ∀ b : F,
    (∃ k : Nat, ik.wrapUp n b = b + k * (2 * PI)) ∧
    (b ≤ PI → ik.wrapUp n b ≤ PI) ∧
    (-PI - n * (2 * PI) ≤ b → -PI ≤ ik.wrapUp n b) := by
  induction n with
  | zero =>
    intro b
    refine ⟨⟨0, by simp [ik.wrapUp]⟩, ?_, ?_⟩
    · intro h; simpa [ik.wrapUp] using h
    · intro h; simpa [ik.wrapUp] using h
  | succ n ih =>
    intro b
    unfold ik.wrapUp
    have h2 : (2.0 : F) = 2 := by norm_num
    have hpi := PI_pos (F := F)
    rw [h2]
    split_ifs with hlt
    · obtain ⟨⟨k, hk⟩, hu, hl⟩ := ih (b + 2 * PI)
      refine ⟨⟨k + 1, ?_⟩, ?_, ?_⟩
      · rw [hk]; push_cast; ring
      · intro _
        apply hu
        linarith
      · intro h
        apply hl
        push_cast at h
        linarith
    · exact ⟨⟨0, by simp⟩, fun h => h, fun _ => not_lt.mp hlt⟩

/-- The function `wrapAngle` returns a value of `[-PI, PI]` that differs from its argument by a
whole number of turns `2*PI`: both loops have run to their exit condition. -/
theorem wrapAngle_spec (a : F) :
    -PI ≤ ik.wrapAngle a ∧ ik.wrapAngle a ≤ PI ∧ ∃ k : Int, ik.wrapAngle a = a + k * (2 * PI) := by
  unfold ik.wrapAngle
  obtain ⟨⟨k1, hk1⟩, hd⟩ := wrapDown_spec (ik.wrapFuel a) a
  have hle : ik.wrapDown (ik.wrapFuel a) a ≤ PI := by
    apply hd
    have := wrapFuel_spec a
    have := le_abs_self a
    have := PI_pos (F := F)
    linarith
  set b := ik.wrapDown (ik.wrapFuel a) a with hb
  obtain ⟨⟨k2, hk2⟩, hu, hl⟩ := wrapUp_spec (ik.wrapFuel b) b
  refine ⟨?_, hu hle, ⟨(k2 : Int) - k1, ?_⟩⟩
  · apply hl
    have := wrapFuel_spec b
    have := neg_abs_le b
    have := PI_pos (F := F)
    linarith
  · rw [hk2, hk1]; push_cast; ring

/-- A value already strictly inside `(-PI, PI)` is what `wrapAngle` returns for each of its
translates by whole turns. -/
theorem wrapAngle_eq_of_abs_lt (a d : F) (hd : |d| < PI) (k : Int)
    (ha : a = d + k * (2 * PI)) : ik.wrapAngle a = d := by
  obtain ⟨hlo, hhi, ⟨k', hk'⟩⟩ := wrapAngle_spec a
  have hpi := PI_pos (F := F)
  have habs := abs_lt.mp hd
  have hm : ik.wrapAngle a = d + ((k + k' : Int) : F) * (2 * PI) := by
    rw [hk', ha]; push_cast; ring
  have h1 : ((k + k' : Int) : F) < 1 := by
    by_contra hcon
    have hge : (1 : F) ≤ ((k + k' : Int) : F) := not_lt.mp hcon
    have : (2 * PI : F) ≤ ((k + k' : Int) : F) * (2 * PI) := by nlinarith
    linarith
  have h2 : (-1 : F) < ((k + k' : Int) : F) := by
    by_contra hcon
    have hge : ((k + k' : Int) : F) ≤ -1 := not_lt.mp hcon
    have : ((k + k' : Int) : F) * (2 * PI) ≤ -(2 * PI) := by nlinarith
    linarith
  have h1' : k + k' < 1 := by exact_mod_cast h1
  have h2' : -1 < k + k' := by exact_mod_cast h2
  have h0 : k + k' = 0 := by omega
  rw [hm, h0]; simp

/-- C1. After `solveLeg`, for every leg state and every hip attach point, body height and yaw
reference: the hip pitch (`kneeAngle`) lies in `[-1.25, 0.15]`, the knee bend (`footAngle`)
lies in `[-2.00, -0.05]`, and the yaw (`hipAngle`) deviates from `yawRef` by at most
`kHipYawMaxDelta = 1.04719755 = PI / 3` under shortest-angle wrapping, that is
`wrapAngle(hipAngle - yawRef)` lies in `[-PI/3, PI/3]`. -/
theorem solveLeg_joint_limits (M : MathFns F) (leg : Leg F)
    (coxaAttachX coxaAttachY bodyZ yawRef : F) :
    (-1.25 : F) ≤ (ik.solveLeg M leg coxaAttachX coxaAttachY bodyZ yawRef).kneeAngle ∧
    (ik.solveLeg M leg coxaAttachX coxaAttachY bodyZ yawRef).kneeAngle ≤ 0.15 ∧
    (-2.00 : F) ≤ (ik.solveLeg M leg coxaAttachX coxaAttachY bodyZ yawRef).footAngle ∧
    (ik.solveLeg M leg coxaAttachX coxaAttachY bodyZ yawRef).footAngle ≤ -0.05 ∧
    (-1.04719755 : F) ≤
      ik.wrapAngle ((ik.solveLeg M leg coxaAttachX coxaAttachY bodyZ yawRef).hipAngle - yawRef) ∧
    ik.wrapAngle ((ik.solveLeg M leg coxaAttachX coxaAttachY bodyZ yawRef).hipAngle - yawRef)
      ≤ 1.04719755 ∧
    (kHipYawMaxDelta : F) = 1.04719755 ∧ (1.04719755 : F) = PI / 3 := by
  have hp : (kHipPitchMin : F) ≤ kHipPitchMax := by unfold kHipPitchMin kHipPitchMax; norm_num
  have hk : (kKneeMin : F) ≤ kKneeMax := by unfold kKneeMin kKneeMax; norm_num
  have hy : (-kHipYawMaxDelta : F) ≤ kHipYawMaxDelta := by unfold kHipYawMaxDelta; norm_num
  simp only [ik.solveLeg]
  generalize hA : ik.wrapAngle (leg.hipAngle + _ * 0.20) = hipAngle
  generalize hB : leg.kneeAngle + _ * 0.20 = kneeAngle
  generalize hC : leg.footAngle + _ * 0.20 = footAngle
  have h1 := clamp_mem kneeAngle (kHipPitchMin : F) kHipPitchMax hp
  have h2 := clamp_mem footAngle (kKneeMin : F) kKneeMax hk
  have h3 := clamp_mem (ik.wrapAngle (hipAngle - yawRef)) (-kHipYawMaxDelta : F) kHipYawMaxDelta hy
  set s := clamp (ik.wrapAngle (hipAngle - yawRef)) (-kHipYawMaxDelta : F) kHipYawMaxDelta with hs
  have hsabs : |s| < (PI : F) := by
    rw [abs_lt]
    have : (kHipYawMaxDelta : F) < PI := by unfold kHipYawMaxDelta PI; norm_num
    constructor <;> linarith [h3.1, h3.2]
  obtain ⟨_, _, ⟨k, hk'⟩⟩ := wrapAngle_spec (yawRef + s)
  have hw : ik.wrapAngle (ik.wrapAngle (yawRef + s) - yawRef) = s :=
    wrapAngle_eq_of_abs_lt _ s hsabs k (by rw [hk']; ring)
  rw [hw]
  unfold kHipPitchMin kHipPitchMax at h1
  unfold kKneeMin kKneeMax at h2
  unfold kHipYawMaxDelta at h3
  exact ⟨h1.1, h1.2, h2.1, h2.2, h3.1, h3.2, rfl, by unfold PI; norm_num⟩

/-- C5. Reach-guard idempotence: when the distance `dist` that `solveLeg` computes from the
hip attach point to the foot anchor (vertical offset = body height) already lies in
`[minDist, maxDist] = [|L1 - L2| + 0.05, L1 + L2 - 0.05]` with `L1 = hipLength` and
`L2 = kneeLength + footLength`, the stored anchor `(footHoldX, footHoldY)` is exactly
unchanged, whether the leg is planted or airborne. -/
theorem solveLeg_anchor_fixed_in_reach (M : MathFns F) (leg : Leg F)
    (coxaAttachX coxaAttachY bodyZ yawRef : F)
    (hmin : |leg.hipLength - (leg.kneeLength + leg.footLength)| + 0.05 ≤
      ik.footDist M leg coxaAttachX coxaAttachY bodyZ)
    (hmax : ik.footDist M leg coxaAttachX coxaAttachY bodyZ ≤
      (leg.hipLength + (leg.kneeLength + leg.footLength)) - 0.05) :
    (ik.solveLeg M leg coxaAttachX coxaAttachY bodyZ yawRef).footHoldX = leg.footHoldX ∧
    (ik.solveLeg M leg coxaAttachX coxaAttachY bodyZ yawRef).footHoldY = leg.footHoldY := by
  simp only [ik.footDist] at hmin hmax
  simp only [ik.solveLeg, ik.reachGuard]
  rw [clamp_of_mem _ _ _ hmin hmax, if_neg]
  · exact ⟨rfl, rfl⟩
  · rintro ⟨_, h⟩
    rw [sub_self, abs_zero] at h
    norm_num at h

/-! ### Gait phase -/

theorem two_PI_pos : (0 : F) < 2 * PI := by have := PI_pos (F := F); linarith

/-- The wrapped phase is the floor remainder of `gaitTime + phaseOffset` modulo `2*PI`. -/
theorem legPhase_eq (t off : F) :
    gait.legPhase t off = (t + off) - (⌊(t + off) / (2 * PI)⌋ : Int) * (2 * PI) := by
  have hy := two_PI_pos (F := F)
  have h2 : (2.0 : F) = 2 := by norm_num
  have h0 : (0.0 : F) = 0 := by norm_num
  unfold gait.legPhase fmod
  simp only [h2, h0]
  set x := t + off with hx
  set q := x / (2 * PI) with hq
  have hxq : x = q * (2 * PI) := by rw [hq]; field_simp
  by_cases hq0 : 0 ≤ q
  · rw [if_pos hq0]
    have hfl : ((⌊q⌋ : Int) : F) ≤ q := Int.floor_le q
    have : ¬ (x - ((⌊q⌋ : Int) : F) * (2 * PI) < 0) := by
      rw [not_lt]
      have : ((⌊q⌋ : Int) : F) * (2 * PI) ≤ q * (2 * PI) :=
        mul_le_mul_of_nonneg_right hfl hy.le
      linarith
    rw [if_neg this]
  · rw [if_neg hq0]
    have hce : q ≤ ((⌈q⌉ : Int) : F) := Int.le_ceil q
    by_cases hp : x - ((⌈q⌉ : Int) : F) * (2 * PI) < 0
    · rw [if_pos hp]
      have hlt : q < ((⌈q⌉ : Int) : F) := by
        by_contra hcon
        have heq : ((⌈q⌉ : Int) : F) = q := le_antisymm (not_lt.mp hcon) hce
        rw [heq, ← hxq] at hp
        simp at hp
      have h1 : ⌊q⌋ < ⌈q⌉ := by
        have : ((⌊q⌋ : Int) : F) < ((⌈q⌉ : Int) : F) := lt_of_le_of_lt (Int.floor_le q) hlt
        exact_mod_cast this
      have h2 : ⌈q⌉ ≤ ⌊q⌋ + 1 := Int.ceil_le_floor_add_one q
      have h3 : ⌊q⌋ = ⌈q⌉ - 1 := by omega
      rw [h3]; push_cast; ring
    · rw [if_neg hp]
      have hge : ((⌈q⌉ : Int) : F) * (2 * PI) ≤ x := by linarith [not_lt.mp hp]
      have hle : ((⌈q⌉ : Int) : F) ≤ q := by
        rw [hxq] at hge
        exact le_of_mul_le_mul_right hge hy
      have heq : ((⌈q⌉ : Int) : F) = q := le_antisymm hle hce
      have : ⌊q⌋ = ⌈q⌉ := by rw [← heq]; simp
      rw [this]

theorem legPhase_range (t off : F) :
    0 ≤ gait.legPhase t off ∧ gait.legPhase t off < 2 * PI := by
  have hy := two_PI_pos (F := F)
  rw [legPhase_eq]
  set q := (t + off) / (2 * PI) with hq
  have hxq : t + off = q * (2 * PI) := by rw [hq]; field_simp
  have h1 : ((⌊q⌋ : Int) : F) ≤ q := Int.floor_le q
  have h2 : q < ((⌊q⌋ : Int) : F) + 1 := Int.lt_floor_add_one q
  rw [hxq]
  constructor
  · nlinarith
  · nlinarith

/-- What `updateGait` leaves at index `i`: the same segment with each leg replaced by its
`updateLeg` image. -/
theorem updateGait_getElem? (M : MathFns F) (segments : List (Segment F))
    (gaitTime bodyZ lastMoveDx lastMoveDy : F) (i : Nat) :
    (gait.updateGait M segments gaitTime bodyZ lastMoveDx lastMoveDy)[i]? =
      segments[i]?.map fun seg =>
        { seg with legs := seg.legs.map (gait.updateLeg M gaitTime bodyZ
            (gait.forwardDir M segments lastMoveDx lastMoveDy)
            (spineDir M segments i (gait.forwardDir M segments lastMoveDx lastMoveDy) 1e-4)
            (spineMid segments i)) } := by
  unfold gait.updateGait
  simp only [List.getElem?_map, List.getElem?_enum]
  cases segments[i]? <;> simp

theorem updateGait_leg (M : MathFns F) (segments : List (Segment F))
    (gaitTime bodyZ lastMoveDx lastMoveDy : F) (i j : Nat) (seg : Segment F) (leg : Leg F)
    (hseg : segments[i]? = some seg) (hleg : seg.legs[j]? = some leg) :
    ∃ (seg' : Segment F) (fwd sp mid : F × F),
      (gait.updateGait M segments gaitTime bodyZ lastMoveDx lastMoveDy)[i]? = some seg' ∧
      seg'.legs[j]? = some (gait.updateLeg M gaitTime bodyZ fwd sp mid leg) := by
  refine ⟨{ seg with legs := seg.legs.map (gait.updateLeg M gaitTime bodyZ
      (gait.forwardDir M segments lastMoveDx lastMoveDy)
      (spineDir M segments i (gait.forwardDir M segments lastMoveDx lastMoveDy) 1e-4)
      (spineMid segments i)) }, gait.forwardDir M segments lastMoveDx lastMoveDy,
      spineDir M segments i (gait.forwardDir M segments lastMoveDx lastMoveDy) 1e-4,
      spineMid segments i, ?_, ?_⟩
  · rw [updateGait_getElem?, hseg]; rfl
  · simp only [List.getElem?_map, hleg]; rfl

theorem updateLeg_onGround (M : MathFns F) (gaitTime bodyZ : F) (forward spine mid : F × F)
    (leg : Leg F) :
    (gait.updateLeg M gaitTime bodyZ forward spine mid leg).onGround = true ↔
      gait.legPhase gaitTime leg.phaseOffset < gait.stanceEnd := by
  unfold gait.updateLeg
  by_cases h : gait.legPhase gaitTime leg.phaseOffset ≥ gait.stanceEnd
  · simp [h]
  · simp only [h, decide_False]
    simp
    exact not_le.mp h

theorem updateLeg_phaseOffset (M : MathFns F) (gaitTime bodyZ : F) (forward spine mid : F × F)
    (leg : Leg F) :
    (gait.updateLeg M gaitTime bodyZ forward spine mid leg).phaseOffset = leg.phaseOffset := by
  simp only [gait.updateLeg]
  split_ifs <;> rfl

theorem updateAt_length {α : Type} (f : α → α) : ∀ (l : List α) (i : Nat),
    (updateAt l i f).length = l.length
  | [], _ => rfl
  | _ :: _, 0 => rfl
  | _ :: as, i + 1 => by simp [updateAt, updateAt_length f as i]

theorem updateAt_getElem? {α : Type} (f : α → α) : ∀ (l : List α) (i j : Nat),
    (updateAt l i f)[j]? = if j = i then l[j]?.map f else l[j]?
  | [], _, _ => by simp [updateAt]
  | a :: as, 0, 0 => by simp [updateAt]
  | a :: as, 0, j + 1 => by simp [updateAt]
  | a :: as, i + 1, 0 => by simp [updateAt]
  | a :: as, i + 1, j + 1 => by simp [updateAt, updateAt_getElem? f as i j]

theorem updateAt_getD_ne {α : Type} (f : α → α) (l : List α) (i j : Nat) (d : α)
    (h : j ≠ i) : (updateAt l i f).getD j d = l.getD j d := by
  simp [List.getD_eq_getElem?_getD, updateAt_getElem?, h]

theorem updateAt_map_congr {α β : Type} (f : α → α) (g : α → β) (h : ∀ a, g (f a) = g a) :
    ∀ (l : List α) (i : Nat), (updateAt l i f).map g = l.map g
  | [], _ => rfl
  | a :: as, 0 => by simp [updateAt, h]
  | a :: as, i + 1 => by simp [updateAt, updateAt_map_congr f g h as i]

/-! ### Construction -/

/-- C8. For every `startX`, `startY` and `length >= 0` the constructor builds exactly `length`
segments; segment `i` sits at `(startX - 3*i, startY)`, its render position equals its
logical position, and it has exactly two legs, of sides `-1` and `+1` in that order.  In
particular `Centipede(40, 10, 14)` has segment 0 at `(40, 10)` and segment 13 at `(1, 10)`. -/
theorem create_segments (startX startY length : Int) (hlen : 0 ≤ length) :
    (((Centipede.create startX startY length : Centipede F).segments.length : Int) = length) ∧
    (∀ i : Nat, (i : Int) < length →
      ∃ seg : Segment F,
        (Centipede.create startX startY length : Centipede F).segments[i]? = some seg ∧
        seg.x = (startX : F) - 3 * (i : F) ∧ seg.y = (startY : F) ∧
        seg.px = seg.x ∧ seg.py = seg.y ∧ seg.legs.map (fun l => l.side) = [-1, 1]) ∧
    ((Centipede.create 40 10 14 : Centipede F).segments.map fun s => (s.x, s.y))[0]? =
      some (40, 10) ∧
    ((Centipede.create 40 10 14 : Centipede F).segments.map fun s => (s.x, s.y))[13]? =
      some (40 - 13 * 3, 10) ∧
    ((40 - 13 * 3 : F), (10 : F)) = (1, 10) := by
  refine ⟨?_, ?_, ?_, ?_, ?_⟩
  · simp [Centipede.create, Int.toNat_of_nonneg hlen]
  · intro i hi
    have hi' : i < length.toNat := by omega
    refine ⟨mkSegment startX startY i, ?_, ?_, rfl, rfl, rfl, ?_⟩
    · simp [Centipede.create, List.getElem?_range hi']
    · simp [mkSegment]; ring
    · simp [mkSegment, mkLeg]
  · simp [Centipede.create, List.getElem?_range, mkSegment]
  · simp [Centipede.create, List.getElem?_range, mkSegment]; norm_num
  · norm_num

/-! ### Throttling -/

theorem moveBy_moveCounter (M : MathFns F) (c : Centipede F) (dx dy : F) :
    (Centipede.moveBy M c dx dy).moveCounter = c.moveCounter := by
  unfold Centipede.moveBy
  split_ifs <;> rfl

theorem tryMoveRun_spec (M : MathFns F) : ∀ (ds : List (F × F)) (c : Centipede F) (b : Nat),
    c.moveCounter = (b : Int) → b ≤ 1 →
    (tryMoveRun M c ds).length = ds.length ∧
    ((tryMoveRun M c ds).filter fun r => r.2).length = (ds.length + b) / 2 ∧
    ∀ (k : Nat) (before : Centipede F) (after : Centipede F × Bool),
      (c :: (tryMoveRun M c ds).map Prod.fst)[k]? = some before →
      (tryMoveRun M c ds)[k]? = some after →
      after = Centipede.tryMoveTraced M before (ds.getD k (0, 0)).1 (ds.getD k (0, 0)).2 ∧
      after.2 = decide ((k + b) % 2 = 1) ∧
      (after.2 = false → after.1 = { before with moveCounter := before.moveCounter + 1 }) := by
  intro ds
  induction ds with
  | nil =>
    intro c b _ hb
    refine ⟨rfl, ?_, ?_⟩
    · simp [tryMoveRun]; omega
    · intro k before after _ h; simp [tryMoveRun] at h
  | cons d ds ih =>
    intro c b hc hb
    have hb' : b = 0 ∨ b = 1 := by omega
    rcases hb' with rfl | rfl
    · have hr : Centipede.tryMoveTraced M c d.1 d.2 =
          ({ c with moveCounter := c.moveCounter + 1 }, false) := by
        simp [Centipede.tryMoveTraced, hc, moveDelay]
      obtain ⟨h1, h2, h3⟩ := ih (Centipede.tryMoveTraced M c d.1 d.2).1 1
        (by rw [hr]; simp [hc]) le_rfl
      refine ⟨by simp [tryMoveRun, h1], ?_, ?_⟩
      · simp only [tryMoveRun, List.filter_cons, List.length_cons]
        rw [hr] at h2 ⊢
        simp only [Bool.false_eq_true, if_false]
        rw [h2]
      · intro k before after hbef haft
        cases k with
        | zero =>
          simp only [List.getElem?_cons_zero, Option.some.injEq] at hbef
          simp only [tryMoveRun, List.getElem?_cons_zero, Option.some.injEq] at haft
          subst hbef; subst haft
          refine ⟨by simp, ?_, ?_⟩
          · rw [hr]; simp
          · intro _; rw [hr]
        | succ k =>
          simp only [tryMoveRun, List.map_cons, List.getElem?_cons_succ] at hbef haft
          obtain ⟨hl, ha, hb2⟩ := h3 k before after hbef haft
          refine ⟨by simpa using hl, ?_, hb2⟩
          rw [ha]
    · have hr1 : (Centipede.tryMoveTraced M c d.1 d.2).2 = true := by
        simp [Centipede.tryMoveTraced, hc, moveDelay]
      have hr2 : (Centipede.tryMoveTraced M c d.1 d.2).1.moveCounter = 0 := by
        simp [Centipede.tryMoveTraced, hc, moveDelay, moveBy_moveCounter]
      obtain ⟨h1, h2, h3⟩ := ih (Centipede.tryMoveTraced M c d.1 d.2).1 0
        (by rw [hr2]; simp) (by omega)
      refine ⟨by simp [tryMoveRun, h1], ?_, ?_⟩
      · simp only [tryMoveRun, List.filter_cons, List.length_cons, hr1, if_true]
        rw [h2]; omega
      · intro k before after hbef haft
        cases k with
        | zero =>
          simp only [List.getElem?_cons_zero, Option.some.injEq] at hbef
          simp only [tryMoveRun, List.getElem?_cons_zero, Option.some.injEq] at haft
          subst hbef; subst haft
          refine ⟨by simp, ?_, ?_⟩
          · simp [hr1]
          · intro h; rw [hr1] at h; exact absurd h (by decide)
        | succ k =>
          simp only [tryMoveRun, List.map_cons, List.getElem?_cons_succ] at hbef haft
          obtain ⟨hl, ha, hb2⟩ := h3 k before after hbef haft
          refine ⟨by simpa using hl, ?_, hb2⟩
          rw [ha]; congr 1; apply propext; omega

/-- C4. With `moveDelay = 2` and starting from `moveCounter = 0`, in every run of `N`
consecutive `tryMove` calls (any requested deltas) exactly `N / 2` calls reach `moveBy`,
namely the 2nd, 4th, ... (0-based index `k` odd); every other call returns the state it
received with only `moveCounter` incremented, so segments, voxels and legs are unchanged. -/
theorem tryMove_throttle (M : MathFns F) (c : Centipede F) (ds : List (F × F))
    (h0 : c.moveCounter = 0) :
    (moveDelay = 2) ∧
    (tryMoveRun M c ds).length = ds.length ∧
    ((tryMoveRun M c ds).filter fun r => r.2).length = ds.length / 2 ∧
    ∀ (k : Nat) (before : Centipede F) (after : Centipede F × Bool),
      (c :: (tryMoveRun M c ds).map Prod.fst)[k]? = some before →
      (tryMoveRun M c ds)[k]? = some after →
      after.1 = Centipede.tryMove M before (ds.getD k (0, 0)).1 (ds.getD k (0, 0)).2 ∧
      after.2 = decide (k % 2 = 1) ∧
      (after.2 = false → after.1 = { before with moveCounter := before.moveCounter + 1 }) := by
  obtain ⟨h1, h2, h3⟩ := tryMoveRun_spec M ds c 0 (by simp [h0]) (by omega)
  refine ⟨rfl, h1, by simpa using h2, ?_⟩
  intro k before after hbef haft
  obtain ⟨hl, ha, hb⟩ := h3 k before after hbef haft
  refine ⟨?_, by simpa using ha, hb⟩
  rw [hl]; rfl

/-! ### What collision resolution and chain propagation leave alone -/

theorem foldl_inv {α β : Type} (P : β → Prop) (f : β → α → β)
    (h : ∀ b a, P b → P (f b a)) : ∀ (l : List α) (b : β), P b → P (l.foldl f b)
  | [], _, hb => hb
  | a :: l, b, hb => foldl_inv P f h l (f b a) (h b a hb)

/-- The part of the segment vector that only the head update may change: every leg, and the
whole head segment. -/
theorem updateAt_frame (segments : List (Segment F)) (i : Nat) (f : Segment F → Segment F)
    (hi : i ≠ 0) (hf : ∀ s, (f s).legs = s.legs) :
    (updateAt segments i f).map (fun s => s.legs) = segments.map (fun s => s.legs) ∧
    (updateAt segments i f)[0]? = segments[0]? := by
  refine ⟨updateAt_map_congr f _ hf segments i, ?_⟩
  rw [updateAt_getElem?, if_neg (Ne.symm hi)]

theorem relocateVoxel_frame (segments : List (Segment F)) (occ : Occ) (os ov : Nat)
    (hos : os ≠ 0) :
    (relocateVoxel segments occ os ov).1.map (fun s => s.legs) =
      segments.map (fun s => s.legs) ∧
    (relocateVoxel segments occ os ov).1[0]? = segments[0]? := by
  unfold relocateVoxel
  simp only
  split
  · exact ⟨rfl, rfl⟩
  · exact updateAt_frame segments os _ hos (fun _ => rfl)

theorem pushSegment_frame (M : MathFns F) (iter : Nat) (segments : List (Segment F))
    (occ : Occ) (osi : Nat) (hos : osi ≠ 0) :
    (pushSegment M iter segments occ osi).1.map (fun s => s.legs) =
      segments.map (fun s => s.legs) ∧
    (pushSegment M iter segments occ osi).1[0]? = segments[0]? := by
  unfold pushSegment
  exact updateAt_frame segments osi _ hos (fun _ => rfl)

theorem resolveTarget_frame (M : MathFns F) (iter : Nat) (segments : List (Segment F))
    (st : List (Segment F) × Occ × Bool) (tk : Int × Int)
    (h : st.1.map (fun s => s.legs) = segments.map (fun s => s.legs) ∧
      st.1[0]? = segments[0]?) :
    (resolveTarget M iter st tk).1.map (fun s => s.legs) = segments.map (fun s => s.legs) ∧
    (resolveTarget M iter st tk).1[0]? = segments[0]? := by
  unfold resolveTarget
  split
  · exact h
  · rename_i o _
    by_cases ho : o.1 = 0
    · rw [if_pos ho]; exact h
    · rw [if_neg ho]
      simp only
      split_ifs
      · have := relocateVoxel_frame st.1 st.2.1 o.1 o.2 ho
        exact ⟨this.1.trans h.1, this.2.trans h.2⟩
      · have := pushSegment_frame M iter st.1 st.2.1 o.1 ho
        exact ⟨this.1.trans h.1, this.2.trans h.2⟩

theorem resolveLoop_frame (M : MathFns F) (targets : List (Int × Int)) :
    ∀ (fuel iter : Nat) (segments : List (Segment F)) (occ : Occ),
    (resolveLoop M targets fuel iter segments occ).1.map (fun s => s.legs) =
      segments.map (fun s => s.legs) ∧
    (resolveLoop M targets fuel iter segments occ).1[0]? = segments[0]? := by
  intro fuel
  induction fuel with
  | zero => intro iter segments occ; exact ⟨rfl, rfl⟩
  | succ fuel ih =>
    intro iter segments occ
    have hpass := foldl_inv
      (fun st : List (Segment F) × Occ × Bool =>
        st.1.map (fun s => s.legs) = segments.map (fun s => s.legs) ∧
        st.1[0]? = segments[0]?)
      (resolveTarget M iter) (fun st tk h => resolveTarget_frame M iter segments st tk h)
      targets (segments, buildOcc segments, true) ⟨rfl, rfl⟩
    unfold resolveLoop
    simp only
    split_ifs
    · exact hpass
    · have := ih (iter + 1) (List.foldl (resolveTarget M iter)
        (segments, buildOcc segments, true) targets).1 (List.foldl (resolveTarget M iter)
        (segments, buildOcc segments, true) targets).2.1
      exact ⟨this.1.trans hpass.1, this.2.trans hpass.2⟩

theorem chainStep_frame (M : MathFns F) (prev : List (F × F)) (segments : List (Segment F))
    (i : Nat) (hi : i ≠ 0) :
    (chainStep M prev segments i).map (fun s => s.legs) = segments.map (fun s => s.legs) ∧
    (chainStep M prev segments i)[0]? = segments[0]? := by
  unfold chainStep
  split_ifs
  · exact updateAt_frame segments i _ hi (fun _ => rfl)
  · have h1 : (followStep M prev segments i).map (fun s => s.legs) =
        segments.map (fun s => s.legs) ∧ (followStep M prev segments i)[0]? = segments[0]? := by
      unfold followStep
      exact updateAt_frame segments i _ hi (fun _ => rfl)
    have h2 : (pushOff (followStep M prev segments i) i).map (fun s => s.legs) =
        (followStep M prev segments i).map (fun s => s.legs) ∧
        (pushOff (followStep M prev segments i) i)[0]? = (followStep M prev segments i)[0]? := by
      unfold pushOff
      split
      · exact ⟨rfl, rfl⟩
      · exact updateAt_frame _ i _ hi (fun _ => rfl)
    exact ⟨h2.1.trans h1.1, h2.2.trans h1.2⟩

theorem chainLoop_frame (M : MathFns F) (prev : List (F × F)) (segments : List (Segment F))
    (k : Nat) :
    (chainLoop M prev segments k).map (fun s => s.legs) = segments.map (fun s => s.legs) ∧
    (chainLoop M prev segments k)[0]? = segments[0]? := by
  unfold chainLoop
  exact foldl_inv
    (fun segs : List (Segment F) =>
      segs.map (fun s => s.legs) = segments.map (fun s => s.legs) ∧ segs[0]? = segments[0]?)
    (fun segs j => chainStep M prev segs (j + 1))
    (fun segs j h => by
      have := chainStep_frame M prev segs (j + 1) (Nat.succ_ne_zero j)
      exact ⟨this.1.trans h.1, this.2.trans h.2⟩)
    (List.range k) segments ⟨rfl, rfl⟩

/-- The segments after collision resolution: legs and head are those the call received (with
the head's `moved` flag cleared). -/
theorem resolveMove_frame (M : MathFns F) (segments : List (Segment F)) (dx dy : F) :
    (resolveMove M segments dx dy).1.map (fun s => s.legs) = segments.map (fun s => s.legs) ∧
    (resolveMove M segments dx dy).1[0]? =
      segments[0]?.map fun s => { s with moved := false } := by
  unfold resolveMove
  simp only
  have := resolveLoop_frame M (headTargets (clearMoved segments) dx dy) 5 0
    (clearMoved segments) (buildOcc (clearMoved segments))
  refine ⟨this.1.trans ?_, this.2.trans ?_⟩
  · simp [clearMoved, List.map_map, Function.comp_def]
  · simp [clearMoved]

/-- Each component of the delta finally applied to the head is the requested component
or zero. -/
theorem resolveMove_delta (M : MathFns F) (segments : List (Segment F)) (dx dy : F) :
    ((resolveMove M segments dx dy).2.1 = dx ∨ (resolveMove M segments dx dy).2.1 = 0) ∧
    ((resolveMove M segments dx dy).2.2 = dy ∨ (resolveMove M segments dx dy).2.2 = 0) := by
  have h0 : (0.0 : F) = 0 := by norm_num
  unfold resolveMove viewportClamp chooseDelta
  simp only [h0]
  split_ifs <;> simp

theorem moveBy_legs (M : MathFns F) (c : Centipede F) (dx dy : F) :
    (Centipede.moveBy M c dx dy).segments.map (fun s => s.legs) =
      c.segments.map (fun s => s.legs) := by
  unfold Centipede.moveBy
  split_ifs
  · rfl
  · simp only [List.map_map, Function.comp_def, chainEntry]
    rw [(chainLoop_frame M _ _ _).1]
    exact (updateAt_map_congr
      (fun head => applyHead M head (resolveMove M c.segments dx dy).2.1
        (resolveMove M c.segments dx dy).2.2)
      (fun s : Segment F => s.legs) (fun _ => rfl) _ 0).trans
      (resolveMove_frame M c.segments dx dy).1

/-- The head segment after `moveBy`: its logical position is shifted by exactly the applied
delta. -/
theorem moveBy_head (M : MathFns F) (c : Centipede F) (dx dy : F) (h : Segment F)
    (hh : c.segments[0]? = some h) :
    ∃ h' : Segment F, (Centipede.moveBy M c dx dy).segments[0]? = some h' ∧
      h'.x = h.x + (resolveMove M c.segments dx dy).2.1 ∧
      h'.y = h.y + (resolveMove M c.segments dx dy).2.2 := by
  have hne : c.segments.isEmpty = false := by
    cases hc : c.segments with
    | nil => rw [hc] at hh; simp at hh
    | cons a l => rfl
  unfold Centipede.moveBy
  rw [hne]
  simp only [Bool.false_eq_true, if_false, List.getElem?_map, chainEntry]
  rw [(chainLoop_frame M _ _ _).2, updateAt_getElem?, if_pos rfl,
    (resolveMove_frame M c.segments dx dy).2, hh]
  exact ⟨_, rfl, rfl, rfl⟩

/-- One `moveBy` call shifts the head by a vector no longer than the requested one. -/
theorem moveBy_head_displacement (M : MathFns F) (c : Centipede F) (dx dy : F) :
    (((Centipede.moveBy M c dx dy).segments.getD 0 default).x -
        (c.segments.getD 0 default).x) ^ 2 +
      (((Centipede.moveBy M c dx dy).segments.getD 0 default).y -
        (c.segments.getD 0 default).y) ^ 2 ≤ dx ^ 2 + dy ^ 2 := by
  cases hseg : c.segments[0]? with
  | none =>
    have hemp : c.segments = [] := by
      cases hl : c.segments with
      | nil => rfl
      | cons a l => rw [hl] at hseg; simp at hseg
    simp only [Centipede.moveBy, hemp, List.isEmpty_nil, if_true, sub_self]
    nlinarith [sq_nonneg dx, sq_nonneg dy]
  | some h =>
    obtain ⟨h', hh', hx, hy⟩ := moveBy_head M c dx dy h hseg
    obtain ⟨hdx, hdy⟩ := resolveMove_delta M c.segments dx dy
    simp only [List.getD_eq_getElem?_getD, hh', hseg, Option.getD_some, hx, hy]
    rcases hdx with hdx | hdx <;> rcases hdy with hdy | hdy <;> rw [hdx, hdy] <;>
      nlinarith [sq_nonneg dx, sq_nonneg dy]

/-- C3. For every creature state and every requested vector `(dx, dy)`, however large, one
`tryMove` call changes the head's logical position by a vector of Euclidean length at most
`maxMovePerTry = 1.2` (stated on the squared length), provided the `sqrt` that `tryMove`
calls returns the Euclidean norm of `(dx, dy)`. -/
theorem tryMove_head_displacement_le (M : MathFns F) (c : Centipede F) (dx dy : F)
    (hmag : 0 ≤ M.sqrt (dx * dx + dy * dy) ∧
      M.sqrt (dx * dx + dy * dy) * M.sqrt (dx * dx + dy * dy) = dx * dx + dy * dy) :
    (((Centipede.tryMove M c dx dy).segments.getD 0 default).x -
        (c.segments.getD 0 default).x) ^ 2 +
      (((Centipede.tryMove M c dx dy).segments.getD 0 default).y -
        (c.segments.getD 0 default).y) ^ 2 ≤ (1.2 : F) ^ 2 ∧
    (maxMovePerTry : F) = 1.2 := by
  refine ⟨?_, rfl⟩
  unfold Centipede.tryMove Centipede.tryMoveTraced
  simp only
  by_cases hc1 : c.moveCounter + 1 < moveDelay
  · rw [if_pos hc1]
    simp only [sub_self]
    norm_num
  · rw [if_neg hc1]
    simp only
    set mag := M.sqrt (dx * dx + dy * dy) with hmagdef
    by_cases hc2 : mag > maxMovePerTry
    · rw [if_pos hc2]
      have hpos : 0 < mag := by
        have : (0 : F) < maxMovePerTry := by unfold maxMovePerTry; norm_num
        linarith
      have hne : mag ≠ 0 := ne_of_gt hpos
      have hsq : (dx / mag * maxMovePerTry) ^ 2 + (dy / mag * maxMovePerTry) ^ 2 =
          (1.2 : F) ^ 2 := by
        unfold maxMovePerTry
        have : dx * dx + dy * dy = mag * mag := hmag.2.symm
        field_simp
        nlinarith [this]
      have := moveBy_head_displacement M { c with moveCounter := 0 }
        (dx / mag * maxMovePerTry) (dy / mag * maxMovePerTry)
      simp only at this ⊢
      linarith
    · rw [if_neg hc2]
      have hle : mag ≤ 1.2 := by
        have := not_lt.mp hc2
        unfold maxMovePerTry at this
        exact this
      have hsq : dx ^ 2 + dy ^ 2 ≤ (1.2 : F) ^ 2 := by
        have : dx * dx + dy * dy = mag * mag := hmag.2.symm
        nlinarith [hmag.1]
      have := moveBy_head_displacement M { c with moveCounter := 0 } dx dy
      simp only at this ⊢
      linarith

/-! ### Planted feet -/

theorem solveLeg_onGround (M : MathFns F) (leg : Leg F) (cx cy bodyZ yawRef : F) :
    (ik.solveLeg M leg cx cy bodyZ yawRef).onGround = leg.onGround := rfl

theorem solveLeg_planted_anchor (M : MathFns F) (leg : Leg F) (cx cy bodyZ yawRef : F)
    (h : leg.onGround = true) :
    (ik.solveLeg M leg cx cy bodyZ yawRef).footHoldX = leg.footHoldX ∧
    (ik.solveLeg M leg cx cy bodyZ yawRef).footHoldY = leg.footHoldY := by
  have hg : (ik.reachGuard M leg cx cy bodyZ).footHoldX = leg.footHoldX ∧
      (ik.reachGuard M leg cx cy bodyZ).footHoldY = leg.footHoldY := by
    simp only [ik.reachGuard, h, Bool.not_true, Bool.false_eq_true, if_false]
    split_ifs <;> exact ⟨rfl, rfl⟩
  exact hg

theorem updateLeg_planted_anchor (M : MathFns F) (gaitTime bodyZ : F)
    (forward spine mid : F × F) (leg : Leg F) (h : leg.onGround = true)
    (h' : (gait.updateLeg M gaitTime bodyZ forward spine mid leg).onGround = true) :
    (gait.updateLeg M gaitTime bodyZ forward spine mid leg).footHoldX = leg.footHoldX ∧
    (gait.updateLeg M gaitTime bodyZ forward spine mid leg).footHoldY = leg.footHoldY := by
  simp only [gait.updateLeg, h, Bool.not_true, Bool.false_eq_true, if_false] at h' ⊢
  split_ifs at h' ⊢
  exact ⟨rfl, rfl⟩

theorem deOverlapFrom_legs : ∀ (segs : List (Segment F)) (si : Nat) (occ : Occ),
    (deOverlapFrom si segs occ).1.map (fun s => s.legs) = segs.map (fun s => s.legs)
  | [], _, _ => rfl
  | seg :: segs, si, occ => by
    simp only [deOverlapFrom, List.map_cons]
    rw [deOverlapFrom_legs segs]

theorem ikPass_getElem? (M : MathFns F) (segments : List (Segment F)) (bodyZ : F) (i : Nat) :
    (ikPass M segments bodyZ)[i]? =
      segments[i]?.map fun seg =>
        { seg with legs := seg.legs.map (fun leg =>
            ik.solveLeg M leg
              (coxaAttach (spineDir M segments i (1.0, 0.0) 0.001) (spineMid segments i) leg).1
              (coxaAttach (spineDir M segments i (1.0, 0.0) 0.001) (spineMid segments i) leg).2
              bodyZ
              (M.atan2 ((spineDir M segments i (1.0, 0.0) 0.001).1 * (leg.side : F))
                (-(spineDir M segments i (1.0, 0.0) 0.001).2 * (leg.side : F)))) } := by
  unfold ikPass
  simp only [List.getElem?_map, List.getElem?_enum]
  cases segments[i]? <;> simp

/-- The legs of segment `i` after `update`: each leg has gone through `updateLeg` and then
`solveLeg`, and nothing else. -/
theorem update_legs (M : MathFns F) (c : Centipede F) (i : Nat) (seg : Segment F)
    (h : c.segments[i]? = some seg) :
    ∃ (seg' : Segment F) (f : Leg F → Leg F),
      (Centipede.update M c).segments[i]? = some seg' ∧ seg'.legs = seg.legs.map f ∧
      ∀ leg : Leg F, ∃ (t z : F) (fwd sp mid : F × F) (cx cy z' yr : Leg F → F),
        f leg = ik.solveLeg M (gait.updateLeg M t z fwd sp mid leg)
          (cx (gait.updateLeg M t z fwd sp mid leg)) (cy (gait.updateLeg M t z fwd sp mid leg))
          (z' (gait.updateLeg M t z fwd sp mid leg)) (yr (gait.updateLeg M t z fwd sp mid leg)) := by
  unfold Centipede.update
  simp only
  generalize hT : c.gaitTime + _ = gaitTime
  set gs := gait.updateGait M c.segments gaitTime c.bodyZ c.lastMoveDx c.lastMoveDy with hgs
  set bz := nextBodyZ M gs c.bodyZ with hbz
  have hg : gs[i]? = _ := updateGait_getElem? M c.segments gaitTime c.bodyZ c.lastMoveDx
    c.lastMoveDy i
  rw [h] at hg
  have hik := ikPass_getElem? M gs bz i
  rw [hg] at hik
  have hlegs := deOverlapFrom_legs ((ikPass M gs bz).map relaxSegment) 0 []
  have hget := congrArg (fun l => l[i]?) hlegs
  simp only [List.getElem?_map, hik, Option.map_some'] at hget
  cases hfin : (deOverlapFrom 0 ((ikPass M gs bz).map relaxSegment) []).1[i]? with
  | none => rw [hfin] at hget; simp at hget
  | some seg' =>
    rw [hfin] at hget
    simp only [Option.map_some', Option.some.injEq] at hget
    refine ⟨seg', fun leg => ik.solveLeg M
        (gait.updateLeg M gaitTime c.bodyZ (gait.forwardDir M c.segments c.lastMoveDx c.lastMoveDy)
          (spineDir M c.segments i (gait.forwardDir M c.segments c.lastMoveDx c.lastMoveDy) 1e-4)
          (spineMid c.segments i) leg)
        (coxaAttach (spineDir M gs i (1.0, 0.0) 0.001) (spineMid gs i)
          (gait.updateLeg M gaitTime c.bodyZ
            (gait.forwardDir M c.segments c.lastMoveDx c.lastMoveDy)
            (spineDir M c.segments i (gait.forwardDir M c.segments c.lastMoveDx c.lastMoveDy) 1e-4)
            (spineMid c.segments i) leg)).1
        (coxaAttach (spineDir M gs i (1.0, 0.0) 0.001) (spineMid gs i)
          (gait.updateLeg M gaitTime c.bodyZ
            (gait.forwardDir M c.segments c.lastMoveDx c.lastMoveDy)
            (spineDir M c.segments i (gait.forwardDir M c.segments c.lastMoveDx c.lastMoveDy) 1e-4)
            (spineMid c.segments i) leg)).2
        bz
        (M.atan2 ((spineDir M gs i (1.0, 0.0) 0.001).1 *
            ((gait.updateLeg M gaitTime c.bodyZ
              (gait.forwardDir M c.segments c.lastMoveDx c.lastMoveDy)
              (spineDir M c.segments i (gait.forwardDir M c.segments c.lastMoveDx c.lastMoveDy)
                1e-4)
              (spineMid c.segments i) leg).side : F))
          (-(spineDir M gs i (1.0, 0.0) 0.001).2 *
            ((gait.updateLeg M gaitTime c.bodyZ
              (gait.forwardDir M c.segments c.lastMoveDx c.lastMoveDy)
              (spineDir M c.segments i (gait.forwardDir M c.segments c.lastMoveDx c.lastMoveDy)
                1e-4)
              (spineMid c.segments i) leg).side : F))), rfl, ?_, ?_⟩
    · rw [hget]
      simp only [relaxSegment, List.map_map]
      rfl
    · intro leg
      exact ⟨_, _, _, _, _, fun l => (coxaAttach (spineDir M gs i (1.0, 0.0) 0.001)
          (spineMid gs i) l).1, fun l => (coxaAttach (spineDir M gs i (1.0, 0.0) 0.001)
          (spineMid gs i) l).2, fun _ => bz,
        fun l => M.atan2 ((spineDir M gs i (1.0, 0.0) 0.001).1 * (l.side : F))
          (-(spineDir M gs i (1.0, 0.0) 0.001).2 * (l.side : F)), rfl⟩

/-- C6. A planted foot never slides.  `moveBy` leaves every leg of every segment unchanged;
`updateGait` leaves the anchor `(footHoldX, footHoldY)` of a leg that was `onGround` and is
still in stance exactly unchanged; `solveLeg` never writes the anchor of an `onGround` leg,
even when it is out of reach, and never changes `onGround`; hence a whole `update` tick leaves
the anchor of every leg that is `onGround` before and after it unchanged. -/
theorem planted_foot_fixed (M : MathFns F) :
    (∀ (c : Centipede F) (dx dy : F),
      (Centipede.moveBy M c dx dy).segments.map (fun s => s.legs) =
        c.segments.map (fun s => s.legs)) ∧
    (∀ (segments : List (Segment F)) (gaitTime bodyZ lastMoveDx lastMoveDy : F) (i j : Nat)
      (seg : Segment F) (leg : Leg F),
      segments[i]? = some seg → seg.legs[j]? = some leg → leg.onGround = true →
      ∃ (seg' : Segment F) (leg' : Leg F),
        (gait.updateGait M segments gaitTime bodyZ lastMoveDx lastMoveDy)[i]? = some seg' ∧
        seg'.legs[j]? = some leg' ∧
        (leg'.onGround = true →
          leg'.footHoldX = leg.footHoldX ∧ leg'.footHoldY = leg.footHoldY)) ∧
    (∀ (leg : Leg F) (coxaAttachX coxaAttachY bodyZ yawRef : F), leg.onGround = true →
      (ik.solveLeg M leg coxaAttachX coxaAttachY bodyZ yawRef).onGround = true ∧
      (ik.solveLeg M leg coxaAttachX coxaAttachY bodyZ yawRef).footHoldX = leg.footHoldX ∧
      (ik.solveLeg M leg coxaAttachX coxaAttachY bodyZ yawRef).footHoldY = leg.footHoldY) ∧
    (∀ (c : Centipede F) (i j : Nat) (seg : Segment F) (leg : Leg F),
      c.segments[i]? = some seg → seg.legs[j]? = some leg → leg.onGround = true →
      ∃ (seg' : Segment F) (leg' : Leg F),
        (Centipede.update M c).segments[i]? = some seg' ∧ seg'.legs[j]? = some leg' ∧
        (leg'.onGround = true →
          leg'.footHoldX = leg.footHoldX ∧ leg'.footHoldY = leg.footHoldY)) := by
  refine ⟨moveBy_legs M, ?_, ?_, ?_⟩
  · intro segments gaitTime bodyZ mx my i j seg leg hseg hleg hon
    obtain ⟨seg', fwd, sp, mid, hs', hl'⟩ :=
      updateGait_leg M segments gaitTime bodyZ mx my i j seg leg hseg hleg
    exact ⟨seg', _, hs', hl',
      fun h' => updateLeg_planted_anchor M gaitTime bodyZ fwd sp mid leg hon h'⟩
  · intro leg cx cy bodyZ yawRef hon
    exact ⟨hon, solveLeg_planted_anchor M leg cx cy bodyZ yawRef hon⟩
  · intro c i j seg leg hseg hleg hon
    obtain ⟨seg', f, hs', hl', hf⟩ := update_legs M c i seg hseg
    refine ⟨seg', f leg, hs', ?_, ?_⟩
    · rw [hl']; simp [hleg]
    · obtain ⟨t, z, fwd, sp, mid, cx, cy, z', yr, hfl⟩ := hf leg
      intro h'
      rw [hfl] at h' ⊢
      rw [solveLeg_onGround] at h'
      have h1 := updateLeg_planted_anchor M t z fwd sp mid leg hon h'
      have h2 := solveLeg_planted_anchor M (gait.updateLeg M t z fwd sp mid leg)
        (cx (gait.updateLeg M t z fwd sp mid leg)) (cy (gait.updateLeg M t z fwd sp mid leg))
        (z' (gait.updateLeg M t z fwd sp mid leg)) (yr (gait.updateLeg M t z fwd sp mid leg)) h'
      exact ⟨h2.1.trans h1.1, h2.2.trans h1.2⟩

/-! ### Follow-the-leader -/

theorem resolveTarget_id (M : MathFns F) (iter : Nat) (st : List (Segment F) × Occ × Bool)
    (tk : Int × Int)
    (h : (match Occ.find st.2.1 tk with
      | none => false
      | some o => decide (o.1 ≠ 0)) = false) :
    resolveTarget M iter st tk = st := by
  unfold resolveTarget
  split
  · rfl
  · rename_i o ho
    rw [ho] at h
    simp only [ne_eq, decide_not, Bool.not_eq_false', decide_eq_true_eq] at h
    rw [if_pos h]

theorem resolvePass_id (M : MathFns F) (iter : Nat) (segments : List (Segment F)) (occ : Occ)
    (b : Bool) : ∀ (targets : List (Int × Int)), isBlocked occ targets = false →
    targets.foldl (resolveTarget M iter) (segments, occ, b) = (segments, occ, b)
  | [], _ => rfl
  | tk :: targets, h => by
    unfold isBlocked at h
    rw [List.any_cons, Bool.or_eq_false_iff] at h
    rw [List.foldl_cons, resolveTarget_id M iter (segments, occ, b) tk h.1]
    exact resolvePass_id M iter segments occ b targets h.2

/-- An isolated head move: when no head-target cell is mapped to another segment, collision
resolution relocates and pushes nothing. -/
theorem resolveMove_isolated (M : MathFns F) (segments : List (Segment F)) (dx dy : F)
    (hiso : isBlocked (buildOcc (clearMoved segments))
      (headTargets (clearMoved segments) dx dy) = false) :
    (resolveMove M segments dx dy).1 = clearMoved segments := by
  unfold resolveMove
  simp only
  unfold resolveLoop
  rw [resolvePass_id M 0 _ _ true _ hiso]
  rfl

theorem chainStep_other (M : MathFns F) (prev : List (F × F)) (segments : List (Segment F))
    (i j : Nat) (h : i ≠ j) : (chainStep M prev segments j)[i]? = segments[i]? := by
  unfold chainStep
  split_ifs
  · rw [updateAt_getElem?, if_neg h]
  · have h1 : (followStep M prev segments j)[i]? = segments[i]? := by
      unfold followStep
      rw [updateAt_getElem?, if_neg h]
    unfold pushOff
    split
    · exact h1
    · rw [updateAt_getElem?, if_neg h]; exact h1

theorem chainLoop_succ (M : MathFns F) (prev : List (F × F)) (segments : List (Segment F))
    (k : Nat) :
    chainLoop M prev segments (k + 1) = chainStep M prev (chainLoop M prev segments k) (k + 1) := by
  unfold chainLoop
  rw [List.range_succ, List.foldl_append]
  rfl

theorem chainLoop_getElem?_of_lt (M : MathFns F) (prev : List (F × F))
    (segments : List (Segment F)) (i : Nat) : ∀ k : Nat, k < i →
    (chainLoop M prev segments k)[i]? = segments[i]?
  | 0, _ => rfl
  | k + 1, h => by
    rw [chainLoop_succ, chainStep_other M prev _ i (k + 1) (by omega)]
    exact chainLoop_getElem?_of_lt M prev segments i k (by omega)

theorem chainLoop_getElem?_of_ge (M : MathFns F) (prev : List (F × F))
    (segments : List (Segment F)) (i : Nat) : ∀ k : Nat, i ≤ k →
    (chainLoop M prev segments k)[i]? = (chainLoop M prev segments i)[i]?
  | 0, h => by
    have : i = 0 := by omega
    subst this; rfl
  | k + 1, h => by
    by_cases hik : i = k + 1
    · subst hik; rfl
    · rw [chainLoop_succ, chainStep_other M prev _ i (k + 1) hik]
      exact chainLoop_getElem?_of_ge M prev segments i k (by omega)

theorem chainStep_length (M : MathFns F) (prev : List (F × F)) (segments : List (Segment F))
    (i : Nat) : (chainStep M prev segments i).length = segments.length := by
  unfold chainStep
  split_ifs
  · exact updateAt_length _ _ _
  · unfold pushOff
    split
    · unfold followStep; exact updateAt_length _ _ _
    · rw [updateAt_length]; unfold followStep; exact updateAt_length _ _ _

theorem chainEntry_length (M : MathFns F) (segments : List (Segment F)) (dx dy : F) :
    (chainEntry M segments dx dy).length = segments.length := by
  unfold chainEntry
  simp only
  rw [updateAt_length]
  have := congrArg List.length (resolveMove_frame M segments dx dy).1
  simpa using this

/-- Segment `j` on return from `moveBy` is what the chain loop had left at index `j` after
its iteration `j`, with the render position synchronised. -/
theorem moveBy_getElem? (M : MathFns F) (c : Centipede F) (dx dy : F) (j : Nat)
    (hlt : j < c.segments.length) :
    (Centipede.moveBy M c dx dy).segments[j]? =
      ((chainLoop M (prevPositions c.segments) (chainEntry M c.segments dx dy) j)[j]?).map
        fun s => { s with px := s.x, py := s.y } := by
  have hne : c.segments.isEmpty = false := by
    cases hc : c.segments with
    | nil => rw [hc] at hlt; simp at hlt
    | cons a l => rfl
  unfold Centipede.moveBy
  rw [hne]
  simp only [Bool.false_eq_true, if_false, List.getElem?_map]
  rw [chainLoop_getElem?_of_ge M _ _ j _ (by rw [chainEntry_length]; omega)]

/-- C7. In `moveBy`, for an isolated head move (no head-target cell is mapped to another
segment, so resolution relocates and pushes nothing) and a trailing segment `i >= 1` whose
predecessor has its `moved` flag set and on which the overlap push-off does not fire: the
offset of segment `i` from its predecessor's pre-move position is multiplied, in each
coordinate, by the follow factor `1 - 0.9 * followSpeed` with `followSpeed = 0.28`.  Hence
if `d` is the old distance, the new distance is `(1 - 0.9 * followSpeed) * d`, strictly
smaller than `d` whenever `d` is positive. -/
theorem follow_contracts (M : MathFns F) (c : Centipede F) (dx dy : F) (i : Nat)
    (s p : Segment F) (hi : 1 ≤ i)
    (hs : c.segments[i]? = some s) (hp : c.segments[i - 1]? = some p)
    (hiso : isBlocked (buildOcc (clearMoved c.segments))
      (headTargets (clearMoved c.segments) dx dy) = false)
    (hpred : ∃ p' : Segment F,
      (Centipede.moveBy M c dx dy).segments[i - 1]? = some p' ∧ p'.moved = true)
    (hpush : pushOffFires M c.segments dx dy i = false) :
    ∃ s' : Segment F, (Centipede.moveBy M c dx dy).segments[i]? = some s' ∧
      s'.x - p.x = (1 - 0.9 * followSpeed) * (s.x - p.x) ∧
      s'.y - p.y = (1 - 0.9 * followSpeed) * (s.y - p.y) ∧
      (followSpeed : F) = 0.28 ∧
      ∀ d : F, 0 ≤ d → d * d = (s.x - p.x) ^ 2 + (s.y - p.y) ^ 2 →
        0 ≤ (1 - 0.9 * followSpeed) * d ∧
        ((1 - 0.9 * followSpeed) * d) * ((1 - 0.9 * followSpeed) * d) =
          (s'.x - p.x) ^ 2 + (s'.y - p.y) ^ 2 ∧
        (0 < d → (1 - 0.9 * followSpeed) * d < d) := by
  obtain ⟨k, rfl⟩ : ∃ k, i = k + 1 := ⟨i - 1, by omega⟩
  simp only [Nat.add_sub_cancel] at hp hpred
  have hlt : k + 1 < c.segments.length := by
    rcases Nat.lt_or_ge (k + 1) c.segments.length with h | h
    · exact h
    · rw [List.getElem?_eq_none h] at hs; simp at hs
  -- the state at the start of iteration `k + 1`
  set prev := prevPositions c.segments with hprev
  set B := chainLoop M prev (chainEntry M c.segments dx dy) k with hB
  have hBdef : chainBefore M c.segments dx dy (k + 1) = B := rfl
  -- the predecessor's flag
  obtain ⟨p', hp', hmoved⟩ := hpred
  rw [moveBy_getElem? M c dx dy k (by omega)] at hp'
  have hBk : (B.getD k default).moved = true := by
    rw [List.getD_eq_getElem?_getD]
    cases hbk : B[k]? with
    | none => rw [← hB] at hp'; rw [hbk] at hp'; simp at hp'
    | some b =>
      rw [← hB] at hp'
      rw [hbk] at hp'
      simp only [Option.map_some', Option.some.injEq] at hp'
      rw [← hp'] at hmoved
      exact hmoved
  -- segment `k + 1` itself has not been touched yet
  have hBi : B[k + 1]? = some { s with moved := false } := by
    rw [hB, chainLoop_getElem?_of_lt M prev _ (k + 1) k (by omega)]
    unfold chainEntry
    simp only
    rw [updateAt_getElem?, if_neg (Nat.succ_ne_zero k), resolveMove_isolated M c.segments dx dy hiso]
    simp [clearMoved, hs]
  have hprevk : prev.getD k (0, 0) = (p.x, p.y) := by
    rw [List.getD_eq_getElem?_getD, hprev]
    simp [prevPositions, hp]
  -- the push-off does nothing
  have hpo : pushOffSource (followStep M prev B (k + 1)) (k + 1) = none := by
    unfold pushOffFires at hpush
    rw [hBdef] at hpush
    cases h : pushOffSource (followStep M prev B (k + 1)) (k + 1) with
    | none => rfl
    | some v => rw [h] at hpush; simp at hpush
  have hchain : chainStep M prev B (k + 1) = followStep M prev B (k + 1) := by
    unfold chainStep
    simp only [Nat.add_sub_cancel, hBk, Bool.not_true, Bool.false_eq_true, if_false]
    unfold pushOff
    rw [hpo]
  have hfin : (Centipede.moveBy M c dx dy).segments[k + 1]? =
      some { s with
        x := s.x + (p.x - s.x) * followSpeed * 0.9
        y := s.y + (p.y - s.y) * followSpeed * 0.9
        px := s.x + (p.x - s.x) * followSpeed * 0.9
        py := s.y + (p.y - s.y) * followSpeed * 0.9
        angle := ((followStep M prev B (k + 1))[k + 1]?.getD default).angle
        moved := ((followStep M prev B (k + 1))[k + 1]?.getD default).moved
        voxels := ((followStep M prev B (k + 1))[k + 1]?.getD default).voxels } := by
    rw [moveBy_getElem? M c dx dy (k + 1) hlt, chainLoop_succ, ← hprev, ← hB, hchain]
    unfold followStep
    rw [updateAt_getElem?, if_pos rfl, hBi]
    simp only [Nat.add_sub_cancel, hprevk, Option.map_some', Option.getD_some]
  have hk1 : (0 : F) ≤ 1 - 0.9 * followSpeed := by unfold followSpeed; norm_num
  have hk2 : (1 : F) - 0.9 * followSpeed < 1 := by unfold followSpeed; norm_num
  refine ⟨_, hfin, by simp only; ring, by simp only; ring, rfl, ?_⟩
  intro d hd hdd
  refine ⟨mul_nonneg hk1 hd, ?_, fun hpos => ?_⟩
  · simp only
    have e1 : s.x + (p.x - s.x) * followSpeed * 0.9 - p.x =
        (1 - 0.9 * followSpeed) * (s.x - p.x) := by ring
    have e2 : s.y + (p.y - s.y) * followSpeed * 0.9 - p.y =
        (1 - 0.9 * followSpeed) * (s.y - p.y) := by ring
    rw [e1, e2]
    have : (1 - 0.9 * followSpeed) * d * ((1 - 0.9 * followSpeed) * d) =
        (1 - 0.9 * followSpeed) ^ 2 * (d * d) := by ring
    rw [this, hdd]; ring
  · nlinarith

/-! ### Concrete runs -/

/-- A run of C3: the second request `(30, 40)`, of length 50, on a two-segment creature. -/
theorem tryMove_head_displacement_le_witness :
    (0 ≤ ratFns.sqrt (30 * 30 + 40 * 40) ∧
      ratFns.sqrt (30 * 30 + 40 * 40) * ratFns.sqrt (30 * 30 + 40 * 40) = 30 * 30 + 40 * 40) ∧
    (((Centipede.tryMove ratFns
          (Centipede.tryMove ratFns (Centipede.create 40 10 2) 1 0) 30 40).segments.getD 0
            default).x -
        ((Centipede.tryMove ratFns (Centipede.create 40 10 2) 1 0).segments.getD 0 default).x)
          ^ 2 +
      (((Centipede.tryMove ratFns
          (Centipede.tryMove ratFns (Centipede.create 40 10 2) 1 0) 30 40).segments.getD 0
            default).y -
        ((Centipede.tryMove ratFns (Centipede.create 40 10 2) 1 0).segments.getD 0 default).y)
          ^ 2 ≤ (1.2 : ℚ) ^ 2 :=
  ⟨by decide!,
    (tryMove_head_displacement_le ratFns
      (Centipede.tryMove ratFns (Centipede.create 40 10 2) 1 0) 30 40 (by decide!)).1⟩

/-- A run of C4: five consecutive requests on the freshly built game creature. -/
theorem tryMove_throttle_witness :
    (Centipede.create 40 10 14 : Centipede ℚ).moveCounter = 0 ∧
    ((tryMoveRun ratFns (Centipede.create 40 10 14)
      [(1, 0), (1, 0), (1, 0), (1, 0), (1, 0)]).filter fun r => r.2).length = 5 / 2 :=
  ⟨rfl, (tryMove_throttle ratFns (Centipede.create 40 10 14)
    [(1, 0), (1, 0), (1, 0), (1, 0), (1, 0)] rfl).2.2.1⟩

/-- A run of C5: a constructor leg (`L1 = L2 = 2.75`) whose anchor is 5 away horizontally
from a hip at height 0.6. -/
theorem solveLeg_anchor_fixed_in_reach_witness :
    (|(mkLeg 40 10 3 3 0 1 : Leg ℚ).hipLength -
        ((mkLeg 40 10 3 3 0 1 : Leg ℚ).kneeLength + (mkLeg 40 10 3 3 0 1 : Leg ℚ).footLength)|
        + 0.05 ≤
      ik.footDist ratFns
        { (mkLeg 40 10 3 3 0 1 : Leg ℚ) with footHoldX := 3, footHoldY := 4 } 0 0 0.6) ∧
    (ik.solveLeg ratFns { (mkLeg 40 10 3 3 0 1 : Leg ℚ) with footHoldX := 3, footHoldY := 4 }
      0 0 0.6 0).footHoldX = 3 ∧
    (ik.solveLeg ratFns { (mkLeg 40 10 3 3 0 1 : Leg ℚ) with footHoldX := 3, footHoldY := 4 }
      0 0 0.6 0).footHoldY = 4 :=
  ⟨by decide!,
    solveLeg_anchor_fixed_in_reach ratFns
      { (mkLeg 40 10 3 3 0 1 : Leg ℚ) with footHoldX := 3, footHoldY := 4 } 0 0 0.6 0
      (by decide!) (by decide!)⟩

/-- A run of C8: the game creature `Centipede(40, 10, 14)`. -/
theorem create_segments_witness :
    (0 : Int) ≤ 14 ∧ (((Centipede.create 40 10 14 : Centipede ℚ).segments.length : Int) = 14) :=
  ⟨by decide, (create_segments 40 10 14 (by decide)).1⟩

/-- A run of C7: the last segment of `Centipede(40, 10, 3)` under `moveBy(1, 0)`. -/
theorem follow_contracts_witness :
    isBlocked (buildOcc (clearMoved (Centipede.create 40 10 3 : Centipede ℚ).segments))
      (headTargets (clearMoved (Centipede.create 40 10 3 : Centipede ℚ).segments) 1 0) = false ∧
    pushOffFires ratFns (Centipede.create 40 10 3 : Centipede ℚ).segments 1 0 2 = false ∧
    ∃ s' : Segment ℚ,
      (Centipede.moveBy ratFns (Centipede.create 40 10 3) 1 0).segments[2]? = some s' ∧
      s'.x - (mkSegment 40 10 1 : Segment ℚ).x =
        (1 - 0.9 * followSpeed) *
          ((mkSegment 40 10 2 : Segment ℚ).x - (mkSegment 40 10 1 : Segment ℚ).x) :=
  ⟨by decide!, by decide!,
    (follow_contracts ratFns (Centipede.create 40 10 3) 1 0 2
      (mkSegment 40 10 2) (mkSegment 40 10 1) (by decide) (by decide!) (by decide!)
      (by decide!)
      ⟨(Centipede.moveBy ratFns (Centipede.create 40 10 3) 1 0).segments.getD 1 default,
        by decide!, by decide!⟩
      (by decide!)).imp fun _ h => ⟨h.1, h.2.1⟩⟩

/-- C9, refuted as stated: for `Centipede(40, 10, 14)` the second `tryMove(1, 0)` does not
leave segment 13 at `(1, 10)`. -/
theorem tryMove_twice_segment13_not_fixed :
    ¬ (((Centipede.tryMove ratFns
        (Centipede.tryMove ratFns (Centipede.create 40 10 14) 1 0) 1 0).segments.map
          fun s => (s.x, s.y))[13]? = some ((1 : ℚ), (10 : ℚ))) := by
  decide!

/-- C9, amended.  For `Centipede(40, 10, 14)`: the first `tryMove(1, 0)` only increments the
call counter; the second applies the displacement `(1, 0)` to segment 0, which ends at
`(41, 10)`, and in that same call the motion runs down the whole chain, each follower
covering the fraction `0.9 * 0.28` of the gap 3 to its predecessor's old position, so
segment 13 ends at `(1 + 3 * 0.9 * 0.28, 10) = (1.756, 10)`. -/
theorem tryMove_twice_chain_cascade :
    Centipede.tryMove ratFns (Centipede.create 40 10 14) 1 0 =
      { (Centipede.create 40 10 14 : Centipede ℚ) with moveCounter := 1 } ∧
    ((Centipede.tryMove ratFns
        (Centipede.tryMove ratFns (Centipede.create 40 10 14) 1 0) 1 0).segments.map
          fun s => (s.x, s.y)) =
      [(41, 10), (37.756, 10), (34.756, 10), (31.756, 10), (28.756, 10), (25.756, 10),
        (22.756, 10), (19.756, 10), (16.756, 10), (13.756, 10), (10.756, 10), (7.756, 10),
        (4.756, 10), (1.756, 10)] ∧
    (1.756 : ℚ) = 1 + 3 * 0.9 * 0.28 := by
  decide!

/-- C10, the failing run.  The creature `Centipede(80, 4, 14)` has its head projected at
`(780, 260)`, inside the viewport `[20, 780] x [20, 780]`; after `moveBy(0, -1)` the head is
at `(80, 3)`, projected at `(785, 257.5)`: the boundary check, finding screen x out of bounds
and screen y in bounds, zeroes the grid x component (already 0) and applies the grid y
component, which is the one that pushes screen x past the right edge. -/
theorem moveBy_head_leaves_viewport :
    (20 ≤ (headScreen (Centipede.create 80 4 14 : Centipede ℚ)).1 ∧
      (headScreen (Centipede.create 80 4 14 : Centipede ℚ)).1 ≤ 780 ∧
      20 ≤ (headScreen (Centipede.create 80 4 14 : Centipede ℚ)).2 ∧
      (headScreen (Centipede.create 80 4 14 : Centipede ℚ)).2 ≤ 780) ∧
    headScreen (Centipede.moveBy ratFns (Centipede.create 80 4 14) 0 (-1)) = (785, 257.5) ∧
    ¬ ((headScreen (Centipede.moveBy ratFns (Centipede.create 80 4 14) 0 (-1))).1 ≤ 780) := by
  decide!

/-! ### Empty creature -/

/-- C11, refuted as stated: on the creature with zero segments `tryMove` changes the call
counter and `update` changes the gait time, so neither returns the state it received. -/
theorem empty_tryMove_update_change_state :
    Centipede.tryMove ratFns (Centipede.create 40 10 0) 1 0 ≠
      (Centipede.create 40 10 0 : Centipede ℚ) ∧
    Centipede.update ratFns (Centipede.create 40 10 0) ≠
      (Centipede.create 40 10 0 : Centipede ℚ) := by
  decide!

/-- C11, amended.  For a creature with zero segments: `moveBy` returns the state unchanged;
`tryMove` changes nothing but the call counter (incremented, or reset to 0 when the
increment reaches `moveDelay`); `update` leaves the segment list, the call counter, the last
head position and the last movement direction unchanged, advances the gait time by the idle
cadence `0.015`, and moves the body height 12% of the way to the rest height `0.6`, clamped
to `[0.15, 2.0]`. -/
theorem empty_creature_ops (M : MathFns F) (c : Centipede F) (dx dy : F)
    (h : c.segments = []) :
    Centipede.moveBy M c dx dy = c ∧
    Centipede.tryMove M c dx dy =
      { c with moveCounter := if c.moveCounter + 1 < moveDelay then c.moveCounter + 1 else 0 } ∧
    Centipede.update M c =
      { c with
        gaitTime := c.gaitTime + 0.015
        bodyZ := clamp (c.bodyZ + (0.6 - c.bodyZ) * 0.12) 0.15 2.0 } := by
  have hm : ∀ c' : Centipede F, c'.segments = [] → ∀ a b : F, Centipede.moveBy M c' a b = c' := by
    intro c' hc' a b
    simp [Centipede.moveBy, hc']
  refine ⟨hm c h dx dy, ?_, ?_⟩
  · unfold Centipede.tryMove Centipede.tryMoveTraced
    simp only
    by_cases hc : c.moveCounter + 1 < moveDelay
    · rw [if_pos hc, if_pos hc]
    · rw [if_neg hc, if_neg hc]
      exact hm { c with moveCounter := 0 } h _ _
  · unfold Centipede.update
    simp only [h, List.isEmpty_nil, if_true]
    have h1 : gait.updateGait M ([] : List (Segment F)) (c.gaitTime + (0.015 + 0.0 * 5.55))
        c.bodyZ c.lastMoveDx c.lastMoveDy = [] := rfl
    rw [h1]
    have h2 : (0.015 : F) + 0.0 * 5.55 = 0.015 := by norm_num
    have h3 : nextBodyZ M ([] : List (Segment F)) c.bodyZ =
        clamp (c.bodyZ + (0.6 - c.bodyZ) * 0.12) 0.15 2.0 := by
      simp [nextBodyZ, supportedZ, kBodyRestZ]
    rw [h2, h3]
    simp [ikPass, deOverlapFrom, ← h]

/-- A run of C11 (amended): the creature `Centipede(40, 10, 0)`. -/
theorem empty_creature_ops_witness :
    (Centipede.create 40 10 0 : Centipede ℚ).segments = [] ∧
    Centipede.moveBy ratFns (Centipede.create 40 10 0 : Centipede ℚ) 1 0 =
      Centipede.create 40 10 0 :=
  ⟨rfl, (empty_creature_ops ratFns (Centipede.create 40 10 0) 1 0 rfl).1⟩

/-! ### Axis fallback -/

theorem wouldCollide_iff (segments : List (Segment F)) (ox oy : F) :
    wouldCollide segments ox oy = true ↔
      ∃ hv ∈ (segments.getD 0 default).voxels, hv.filled = true ∧
        ∃ other ∈ segments.drop 1, ∃ ov ∈ other.voxels, ov.filled = true ∧
          ov.cell = cellAt (hv.wx + ox) (hv.wy + oy) := by
  unfold wouldCollide
  simp only [List.any_eq_true, Bool.and_eq_true, decide_eq_true_eq]

/-- C17. In `moveBy(dx, dy)` the delta chosen before the boundary check is `(dx, dy)` when
the final check does not mark the move blocked; when it does, it is `(dx, 0)` if the
X-only displacement collides with nothing, otherwise `(0, dy)` if the Y-only displacement
collides with nothing, otherwise `(0, 0)`; so the X-only one wins when both are free.  A
displacement collides exactly when some filled head voxel, shifted by it, rounds to the cell
of a filled voxel of another segment.  The delta applied to the head is this one passed
through the boundary check. -/
theorem blocked_axis_fallback (M : MathFns F) (segments : List (Segment F)) (dx dy : F) :
    (moveBlocked M segments dx dy = false → preClampDelta M segments dx dy = (dx, dy)) ∧
    (moveBlocked M segments dx dy = true →
      (wouldCollide (resolved M segments dx dy).1 dx 0 = false →
        preClampDelta M segments dx dy = (dx, 0)) ∧
      (wouldCollide (resolved M segments dx dy).1 dx 0 = true →
        wouldCollide (resolved M segments dx dy).1 0 dy = false →
        preClampDelta M segments dx dy = (0, dy)) ∧
      (wouldCollide (resolved M segments dx dy).1 dx 0 = true →
        wouldCollide (resolved M segments dx dy).1 0 dy = true →
        preClampDelta M segments dx dy = (0, 0))) ∧
    (∀ (segs : List (Segment F)) (ox oy : F),
      wouldCollide segs ox oy = true ↔
        ∃ hv ∈ (segs.getD 0 default).voxels, hv.filled = true ∧
          ∃ other ∈ segs.drop 1, ∃ ov ∈ other.voxels, ov.filled = true ∧
            ov.cell = cellAt (hv.wx + ox) (hv.wy + oy)) ∧
    (resolveMove M segments dx dy).1 = (resolved M segments dx dy).1 ∧
    (resolveMove M segments dx dy).2 =
      viewportClamp ((resolved M segments dx dy).1.getD 0 default).x
        ((resolved M segments dx dy).1.getD 0 default).y
        (preClampDelta M segments dx dy).1 (preClampDelta M segments dx dy).2 := by
  have h0 : (0.0 : F) = 0 := by norm_num
  refine ⟨?_, ?_, wouldCollide_iff, rfl, rfl⟩
  · intro hb
    simp [preClampDelta, chooseDelta, hb]
  · intro hb
    refine ⟨?_, ?_, ?_⟩
    · intro hx
      simp [preClampDelta, chooseDelta, hb, h0, hx]
    · intro hx hy
      simp [preClampDelta, chooseDelta, hb, h0, hx, hy]
    · intro hx hy
      simp [preClampDelta, chooseDelta, hb, h0, hx, hy]

/-! ### Swing -/

theorem stanceEnd_eq : (gait.stanceEnd : F) = 0.55 * (2 * PI) := by
  unfold gait.stanceEnd; norm_num; ring

/-- The leg after `updateLeg` when its phase is in swing. -/
theorem updateLeg_swing (M : MathFns F) (gaitTime bodyZ : F) (forward spine mid : F × F)
    (leg : Leg F) (hswing : gait.stanceEnd ≤ gait.legPhase gaitTime leg.phaseOffset) :
    gait.updateLeg M gaitTime bodyZ forward spine mid leg =
      { leg with
        onGround := false
        swingStartX := if leg.onGround then leg.footHoldX else leg.swingStartX
        swingStartY := if leg.onGround then leg.footHoldY else leg.swingStartY
        swingPhase := (gait.legPhase gaitTime leg.phaseOffset - gait.stanceEnd) /
          (2 * PI - gait.stanceEnd)
        footHoldX := (if leg.onGround then leg.footHoldX else leg.swingStartX) +
          ((gait.landing M bodyZ forward spine mid leg).1 -
            (if leg.onGround then leg.footHoldX else leg.swingStartX)) *
          (((gait.legPhase gaitTime leg.phaseOffset - gait.stanceEnd) /
              (2 * PI - gait.stanceEnd)) *
            ((gait.legPhase gaitTime leg.phaseOffset - gait.stanceEnd) /
              (2 * PI - gait.stanceEnd)) *
            (3 - 2 * ((gait.legPhase gaitTime leg.phaseOffset - gait.stanceEnd) /
              (2 * PI - gait.stanceEnd))))
        footHoldY := (if leg.onGround then leg.footHoldY else leg.swingStartY) +
          ((gait.landing M bodyZ forward spine mid leg).2 -
            (if leg.onGround then leg.footHoldY else leg.swingStartY)) *
          (((gait.legPhase gaitTime leg.phaseOffset - gait.stanceEnd) /
              (2 * PI - gait.stanceEnd)) *
            ((gait.legPhase gaitTime leg.phaseOffset - gait.stanceEnd) /
              (2 * PI - gait.stanceEnd)) *
            (3 - 2 * ((gait.legPhase gaitTime leg.phaseOffset - gait.stanceEnd) /
              (2 * PI - gait.stanceEnd)))) } ∧
    0 ≤ (gait.legPhase gaitTime leg.phaseOffset - gait.stanceEnd) / (2 * PI - gait.stanceEnd) ∧
    (gait.legPhase gaitTime leg.phaseOffset - gait.stanceEnd) / (2 * PI - gait.stanceEnd) < 1 := by
  have hpi := PI_pos (F := F)
  have hb := stanceEnd_eq (F := F)
  have hden : (0 : F) < 2 * PI - gait.stanceEnd := by rw [hb]; linarith
  have hr := legPhase_range gaitTime leg.phaseOffset
  have h0 : 0 ≤ (gait.legPhase gaitTime leg.phaseOffset - gait.stanceEnd) /
      (2 * PI - gait.stanceEnd) := div_nonneg (by linarith) hden.le
  have h1 : (gait.legPhase gaitTime leg.phaseOffset - gait.stanceEnd) /
      (2 * PI - gait.stanceEnd) < 1 := by
    rw [div_lt_one hden]; linarith [hr.2]
  refine ⟨?_, h0, h1⟩
  have e2 : (2.0 : F) = 2 := by norm_num
  have e3 : (3.0 : F) = 3 := by norm_num
  have e0 : (0.0 : F) = 0 := by norm_num
  have e1 : (1.0 : F) = 1 := by norm_num
  simp only [gait.updateLeg, ge_iff_le, hswing, decide_True, if_true, e2, e3, e0, e1]
  rw [clamp_of_mem _ _ _ h0 h1.le]

/-- C19. For every leg whose phase is in swing (`phase >= b`, `b = 0.55 * 2*PI`), after
`updateGait`: `onGround` is false; `swingPhase` equals `t = (phase - b) / (2*PI - b)`, which
lies in `[0, 1)`; the foot anchor equals `swingStart + s * (landing - swingStart)` with
`s = 3 t^2 - 2 t^3` in `[0, 1]`; `swingStart` is the anchor the leg had when it was still
`onGround` before the call (captured on the first swing frame) and is unchanged when the leg
was already airborne; so on a first swing frame with `t = 0` the anchor is exactly the
anchor held in stance. -/
theorem swing_interpolation (M : MathFns F) (segments : List (Segment F))
    (gaitTime bodyZ lastMoveDx lastMoveDy : F) (i j : Nat) (seg : Segment F) (leg : Leg F)
    (hseg : segments[i]? = some seg) (hleg : seg.legs[j]? = some leg)
    (hswing : 0.55 * (2 * PI) ≤ gait.legPhase gaitTime leg.phaseOffset) :
    ∃ (seg' : Segment F) (leg' : Leg F),
      (gait.updateGait M segments gaitTime bodyZ lastMoveDx lastMoveDy)[i]? = some seg' ∧
      seg'.legs[j]? = some leg' ∧
      leg'.onGround = false ∧
      leg'.swingPhase =
        (gait.legPhase gaitTime leg.phaseOffset - 0.55 * (2 * PI)) / (2 * PI - 0.55 * (2 * PI)) ∧
      0 ≤ leg'.swingPhase ∧ leg'.swingPhase < 1 ∧
      0 ≤ 3 * leg'.swingPhase ^ 2 - 2 * leg'.swingPhase ^ 3 ∧
      3 * leg'.swingPhase ^ 2 - 2 * leg'.swingPhase ^ 3 ≤ 1 ∧
      leg'.footHoldX = leg'.swingStartX +
        (3 * leg'.swingPhase ^ 2 - 2 * leg'.swingPhase ^ 3) *
          ((gait.landing M bodyZ (gait.forwardDir M segments lastMoveDx lastMoveDy)
            (spineDir M segments i (gait.forwardDir M segments lastMoveDx lastMoveDy) 1e-4)
            (spineMid segments i) leg).1 - leg'.swingStartX) ∧
      leg'.footHoldY = leg'.swingStartY +
        (3 * leg'.swingPhase ^ 2 - 2 * leg'.swingPhase ^ 3) *
          ((gait.landing M bodyZ (gait.forwardDir M segments lastMoveDx lastMoveDy)
            (spineDir M segments i (gait.forwardDir M segments lastMoveDx lastMoveDy) 1e-4)
            (spineMid segments i) leg).2 - leg'.swingStartY) ∧
      (leg.onGround = true →
        leg'.swingStartX = leg.footHoldX ∧ leg'.swingStartY = leg.footHoldY) ∧
      (leg.onGround = false →
        leg'.swingStartX = leg.swingStartX ∧ leg'.swingStartY = leg.swingStartY) ∧
      (leg.onGround = true → leg'.swingPhase = 0 →
        leg'.footHoldX = leg.footHoldX ∧ leg'.footHoldY = leg.footHoldY) := by
  rw [← stanceEnd_eq] at hswing ⊢
  obtain ⟨heq, h0, h1⟩ := updateLeg_swing M gaitTime bodyZ
    (gait.forwardDir M segments lastMoveDx lastMoveDy)
    (spineDir M segments i (gait.forwardDir M segments lastMoveDx lastMoveDy) 1e-4)
    (spineMid segments i) leg hswing
  refine ⟨{ seg with legs := seg.legs.map (gait.updateLeg M gaitTime bodyZ
      (gait.forwardDir M segments lastMoveDx lastMoveDy)
      (spineDir M segments i (gait.forwardDir M segments lastMoveDx lastMoveDy) 1e-4)
      (spineMid segments i)) },
    gait.updateLeg M gaitTime bodyZ (gait.forwardDir M segments lastMoveDx lastMoveDy)
      (spineDir M segments i (gait.forwardDir M segments lastMoveDx lastMoveDy) 1e-4)
      (spineMid segments i) leg, ?_, ?_, ?_⟩
  · rw [updateGait_getElem?, hseg]; rfl
  · simp only [List.getElem?_map, hleg]; rfl
  · rw [heq]
    set t := (gait.legPhase gaitTime leg.phaseOffset - gait.stanceEnd) /
      (2 * PI - gait.stanceEnd) with ht
    simp only
    refine ⟨trivial, trivial, h0, h1, ?_, ?_, by ring, by ring, ?_, ?_, ?_⟩
    · nlinarith [mul_nonneg h0 h0]
    · nlinarith [mul_nonneg h0 h0, mul_nonneg (mul_nonneg h0 h0) h0, sq_nonneg (1 - t),
        mul_nonneg (sq_nonneg (1 - t)) h0]
    · intro h; simp [h]
    · intro h; simp [h]
    · intro h ht0
      simp [h, ht0]

/-- A run of C19: the left leg of the head of `Centipede(40, 10, 2)` at gait time 4. -/
theorem swing_interpolation_witness :
    (0.55 * (2 * PI) ≤ gait.legPhase (4 : ℚ) (mkLeg (40 : ℚ) 10 3 3 0 (-1)).phaseOffset) ∧
    ∃ (seg' : Segment ℚ) (leg' : Leg ℚ),
      (gait.updateGait ratFns (Centipede.create 40 10 2 : Centipede ℚ).segments 4 0.6 0 0)[0]? =
        some seg' ∧
      seg'.legs[0]? = some leg' ∧ leg'.onGround = false := by
  refine ⟨by decide!, ?_⟩
  obtain ⟨seg', leg', h1, h2, h3, _⟩ := swing_interpolation ratFns
    (Centipede.create 40 10 2 : Centipede ℚ).segments 4 0.6 0 0 0 0
    (mkSegment 40 10 0) (mkLeg (40 : ℚ) 10 3 3 0 (-1)) (by decide!) (by decide!) (by decide!)
  exact ⟨seg', leg', h1, h2, h3⟩

/-! ### Body height -/

theorem supportedZ_inner (z : Leg F → F) : ∀ (legs : List (Leg F)) (acc : F × Nat),
    legs.foldl (fun acc leg => if !leg.onGround then acc else (acc.1 + z leg, acc.2 + 1)) acc =
      (acc.1 + ((legs.filter fun leg => leg.onGround).map z).sum,
        acc.2 + (legs.filter fun leg => leg.onGround).length)
  | [], acc => by simp
  | leg :: legs, acc => by
    rw [List.foldl_cons, supportedZ_inner z legs]
    cases h : leg.onGround
    · simp [h]
    · simp [h, add_assoc, Nat.add_assoc, Nat.add_comm]

theorem supportedZ_outer (g : Nat × Segment F → Leg F → F) :
    ∀ (l : List (Nat × Segment F)) (acc : F × Nat),
    l.foldl (fun acc p => p.2.legs.foldl
        (fun acc leg => if !leg.onGround then acc else (acc.1 + g p leg, acc.2 + 1)) acc) acc =
      (acc.1 + (l.flatMap fun p => (p.2.legs.filter fun leg => leg.onGround).map (g p)).sum,
        acc.2 + (l.flatMap fun p => (p.2.legs.filter fun leg => leg.onGround).map (g p)).length)
  | [], acc => by simp
  | p :: l, acc => by
    rw [List.foldl_cons, supportedZ_inner (g p), supportedZ_outer g l]
    simp [add_assoc, Nat.add_assoc]

/-- The accumulators of the first pass are the sum and the number of the planted legs'
estimates. -/
theorem supportedZ_eq (M : MathFns F) (segments : List (Segment F)) :
    supportedZ M segments =
      ((plantedEstimates M segments).sum, (plantedEstimates M segments).length) := by
  unfold supportedZ plantedEstimates
  have h0 : (0.0 : F) = 0 := by norm_num
  rw [supportedZ_outer (fun p => zFromLeg M (spineDir M segments p.1 (1.0, 0.0) 0.001)
    (spineMid segments p.1)) segments.enum (0.0, 0)]
  simp [h0]

theorem zFromLeg_range (M : MathFns F) (spine mid : F × F) (leg : Leg F) :
    0.15 ≤ zFromLeg M spine mid leg ∧ zFromLeg M spine mid leg ≤ 2.0 := by
  unfold zFromLeg
  exact clamp_mem _ _ _ (by norm_num)

theorem sum_bounds (lo hi : F) : ∀ (l : List F), (∀ z ∈ l, lo ≤ z ∧ z ≤ hi) →
    (l.length : F) * lo ≤ l.sum ∧ l.sum ≤ (l.length : F) * hi
  | [], _ => by simp
  | a :: l, h => by
    have ih := sum_bounds lo hi l (fun z hz => h z (List.mem_cons_of_mem a hz))
    have ha := h a (List.mem_cons_self a l)
    simp only [List.length_cons, List.sum_cons, Nat.cast_add, Nat.cast_one]
    constructor <;> nlinarith [ih.1, ih.2, ha.1, ha.2]

theorem plantedEstimates_range (M : MathFns F) (segments : List (Segment F)) :
    ∀ z ∈ plantedEstimates M segments, 0.15 ≤ z ∧ z ≤ 2.0 := by
  intro z hz
  unfold plantedEstimates at hz
  simp only [List.mem_flatMap, List.mem_map] at hz
  obtain ⟨p, _, leg, _, rfl⟩ := hz
  exact zFromLeg_range M _ _ leg

theorem targetBodyZ_eq (M : MathFns F) (segments : List (Segment F)) :
    targetBodyZ M segments =
      if plantedEstimates M segments = [] then 0.6
      else (plantedEstimates M segments).sum / ((plantedEstimates M segments).length : F) := by
  unfold targetBodyZ
  rw [supportedZ_eq]
  simp only
  cases h : plantedEstimates M segments with
  | nil => simp [kBodyRestZ]
  | cons a l => simp

theorem targetBodyZ_range (M : MathFns F) (segments : List (Segment F)) :
    0.15 ≤ targetBodyZ M segments ∧ targetBodyZ M segments ≤ 2.0 := by
  rw [targetBodyZ_eq]
  split_ifs with h
  · constructor <;> norm_num
  · have hb := sum_bounds (0.15 : F) 2.0 _ (plantedEstimates_range M segments)
    have hlen : (0 : F) < ((plantedEstimates M segments).length : F) := by
      have : 0 < (plantedEstimates M segments).length := List.length_pos.mpr h
      exact_mod_cast this
    constructor
    · rw [le_div_iff₀ hlen]; linarith [hb.1]
    · rw [div_le_iff₀ hlen]; linarith [hb.2]

/-- C16. The shared body height starts at the rest height `0.6`; after every `update` it
lies in `[0.15, 2.0]`; and when the old value lies in `[0.15, 2.0]` the new value is exactly
`old + 0.12 * (target - old)`, where `target` is the average of the height estimates of the
planted legs (each in `[0.15, 2.0]`), or `0.6` when no leg is planted. -/
theorem body_height_range (M : MathFns F) (c : Centipede F) (startX startY length : Int) :
    (Centipede.create startX startY length : Centipede F).bodyZ = 0.6 ∧
    0.15 ≤ (Centipede.update M c).bodyZ ∧ (Centipede.update M c).bodyZ ≤ 2.0 ∧
    (0.15 ≤ c.bodyZ → c.bodyZ ≤ 2.0 →
      (Centipede.update M c).bodyZ =
        c.bodyZ + 0.12 * (targetBodyZ M (Centipede.gaitSegments M c) - c.bodyZ)) ∧
    targetBodyZ M (Centipede.gaitSegments M c) =
      (if plantedEstimates M (Centipede.gaitSegments M c) = [] then 0.6
       else (plantedEstimates M (Centipede.gaitSegments M c)).sum /
        ((plantedEstimates M (Centipede.gaitSegments M c)).length : F)) ∧
    (∀ z ∈ plantedEstimates M (Centipede.gaitSegments M c), 0.15 ≤ z ∧ z ≤ 2.0) := by
  have hupd : (Centipede.update M c).bodyZ =
      clamp (c.bodyZ + (targetBodyZ M (Centipede.gaitSegments M c) - c.bodyZ) * 0.12)
        0.15 2.0 := rfl
  refine ⟨rfl, ?_, ?_, ?_, targetBodyZ_eq M _, plantedEstimates_range M _⟩
  · rw [hupd]; exact (clamp_mem _ _ _ (by norm_num)).1
  · rw [hupd]; exact (clamp_mem _ _ _ (by norm_num)).2
  · intro h1 h2
    have ht := targetBodyZ_range M (Centipede.gaitSegments M c)
    rw [hupd, clamp_of_mem]
    · ring
    · nlinarith [ht.1]
    · nlinarith [ht.2]

/-! ### Topology -/

theorem updateAt_voxels_shape (voxels : List (Voxel F)) (i : Nat) (f : Voxel F → Voxel F)
    (hf : ∀ v, (f v).shape = v.shape) :
    (updateAt voxels i f).map Voxel.shape = voxels.map Voxel.shape :=
  updateAt_map_congr f Voxel.shape hf voxels i

theorem map_voxels_shape (voxels : List (Voxel F)) (f : Voxel F → Voxel F)
    (hf : ∀ v, (f v).shape = v.shape) :
    (voxels.map f).map Voxel.shape = voxels.map Voxel.shape := by
  rw [List.map_map]
  exact List.map_congr_left (fun v _ => hf v)

theorem updateAt_topology (segments : List (Segment F)) (i : Nat) (f : Segment F → Segment F)
    (hf : ∀ s, (f s).topology = s.topology) :
    (updateAt segments i f).map Segment.topology = segments.map Segment.topology :=
  updateAt_map_congr f Segment.topology hf segments i

theorem relocateVoxel_topology (segments : List (Segment F)) (occ : Occ) (os ov : Nat) :
    (relocateVoxel segments occ os ov).1.map Segment.topology =
      segments.map Segment.topology := by
  unfold relocateVoxel
  simp only
  split
  · rfl
  · apply updateAt_topology
    intro s
    simp only [Segment.topology, Prod.mk.injEq, and_true]
    exact updateAt_voxels_shape _ _ _ (fun _ => rfl)

theorem pushSegment_topology (M : MathFns F) (iter : Nat) (segments : List (Segment F))
    (occ : Occ) (osi : Nat) :
    (pushSegment M iter segments occ osi).1.map Segment.topology =
      segments.map Segment.topology := by
  unfold pushSegment
  apply updateAt_topology
  intro s
  simp only [Segment.topology, Prod.mk.injEq, and_true]
  exact map_voxels_shape _ _ (fun _ => rfl)

theorem resolveTarget_topology (M : MathFns F) (iter : Nat)
    (st : List (Segment F) × Occ × Bool) (tk : Int × Int) :
    (resolveTarget M iter st tk).1.map Segment.topology = st.1.map Segment.topology := by
  unfold resolveTarget
  split
  · rfl
  · rename_i o _
    simp only
    split_ifs
    · rfl
    · exact relocateVoxel_topology st.1 st.2.1 o.1 o.2
    · exact pushSegment_topology M iter st.1 st.2.1 o.1

theorem resolveLoop_topology (M : MathFns F) (targets : List (Int × Int)) :
    ∀ (fuel iter : Nat) (segments : List (Segment F)) (occ : Occ),
    (resolveLoop M targets fuel iter segments occ).1.map Segment.topology =
      segments.map Segment.topology := by
  intro fuel
  induction fuel with
  | zero => intro iter segments occ; rfl
  | succ fuel ih =>
    intro iter segments occ
    have hpass := foldl_inv
      (fun st : List (Segment F) × Occ × Bool =>
        st.1.map Segment.topology = segments.map Segment.topology)
      (resolveTarget M iter)
      (fun st tk h => (resolveTarget_topology M iter st tk).trans h)
      targets (segments, buildOcc segments, true) rfl
    unfold resolveLoop
    simp only
    split_ifs
    · exact hpass
    · exact (ih _ _ _).trans hpass

theorem chainStep_topology (M : MathFns F) (prev : List (F × F)) (segments : List (Segment F))
    (i : Nat) :
    (chainStep M prev segments i).map Segment.topology = segments.map Segment.topology := by
  unfold chainStep
  split_ifs
  · exact updateAt_topology _ _ _ (fun _ => rfl)
  · have h1 : (followStep M prev segments i).map Segment.topology =
        segments.map Segment.topology := by
      unfold followStep
      apply updateAt_topology
      intro s
      simp only [Segment.topology, Prod.mk.injEq, and_true]
      apply map_voxels_shape
      intro v
      split_ifs <;> rfl
    unfold pushOff
    split
    · exact h1
    · refine Eq.trans ?_ h1
      apply updateAt_topology
      intro s
      simp only [Segment.topology, Prod.mk.injEq, and_true]
      exact map_voxels_shape _ _ (fun _ => rfl)

theorem chainLoop_topology (M : MathFns F) (prev : List (F × F)) (segments : List (Segment F))
    (k : Nat) :
    (chainLoop M prev segments k).map Segment.topology = segments.map Segment.topology := by
  unfold chainLoop
  exact foldl_inv
    (fun segs : List (Segment F) => segs.map Segment.topology = segments.map Segment.topology)
    (fun segs j => chainStep M prev segs (j + 1))
    (fun segs j h => (chainStep_topology M prev segs (j + 1)).trans h)
    (List.range k) segments rfl

theorem chainEntry_topology (M : MathFns F) (segments : List (Segment F)) (dx dy : F) :
    (chainEntry M segments dx dy).map Segment.topology = segments.map Segment.topology := by
  unfold chainEntry
  simp only
  refine (updateAt_topology _ 0 _ ?_).trans ?_
  · intro s
    simp only [Segment.topology, applyHead, Prod.mk.injEq, and_true]
    exact map_voxels_shape _ _ (fun _ => rfl)
  · unfold resolveMove
    simp only
    rw [resolveLoop_topology]
    simp [clearMoved, List.map_map, Function.comp_def, Segment.topology]

theorem moveBy_topology (M : MathFns F) (c : Centipede F) (dx dy : F) :
    (Centipede.moveBy M c dx dy).topology = c.topology := by
  unfold Centipede.moveBy Centipede.topology
  split_ifs
  · rfl
  · simp only [List.map_map]
    have : (Segment.topology ∘ fun s : Segment F => { s with px := s.x, py := s.y }) =
        Segment.topology := rfl
    rw [this, chainLoop_topology, chainEntry_topology]

theorem tryMove_topology (M : MathFns F) (c : Centipede F) (dx dy : F) :
    (Centipede.tryMove M c dx dy).topology = c.topology := by
  unfold Centipede.tryMove Centipede.tryMoveTraced
  simp only
  by_cases hc : c.moveCounter + 1 < moveDelay
  · rw [if_pos hc]; rfl
  · rw [if_neg hc]
    exact moveBy_topology M { c with moveCounter := 0 } _ _

theorem enum_map_congr_snd {α β γ : Type} (l : List α) (f : Nat × α → β) (g : β → γ)
    (g' : α → γ) (h : ∀ p, g (f p) = g' p.2) : (l.enum.map f).map g = l.map g' := by
  rw [List.map_map]
  have : (g ∘ f) = (g' ∘ Prod.snd) := funext h
  rw [this, ← List.map_map, List.enum_map_snd]

theorem updateLeg_build (M : MathFns F) (gaitTime bodyZ : F) (forward spine mid : F × F)
    (leg : Leg F) :
    (gait.updateLeg M gaitTime bodyZ forward spine mid leg).build = leg.build := by
  simp only [gait.updateLeg]
  split_ifs <;> rfl

theorem updateGait_topology (M : MathFns F) (segments : List (Segment F))
    (gaitTime bodyZ lastMoveDx lastMoveDy : F) :
    (gait.updateGait M segments gaitTime bodyZ lastMoveDx lastMoveDy).map Segment.topology =
      segments.map Segment.topology := by
  unfold gait.updateGait
  apply enum_map_congr_snd
  intro p
  simp only [Segment.topology, Prod.mk.injEq, true_and, List.map_map]
  exact List.map_congr_left (fun leg _ => updateLeg_build M _ _ _ _ _ leg)

theorem ikPass_topology (M : MathFns F) (segments : List (Segment F)) (bodyZ : F) :
    (ikPass M segments bodyZ).map Segment.topology = segments.map Segment.topology := by
  unfold ikPass
  apply enum_map_congr_snd
  intro p
  simp only [Segment.topology, Prod.mk.injEq, true_and, List.map_map]
  exact List.map_congr_left (fun leg _ => rfl)

theorem relaxSegment_topology (seg : Segment F) :
    (relaxSegment seg).topology = seg.topology := by
  simp only [Segment.topology, relaxSegment, Prod.mk.injEq, and_true]
  apply map_voxels_shape
  intro v
  split_ifs <;> rfl

theorem nudgeLoop_shape (si vi : Nat) : ∀ (fuel : Nat) (v : Voxel F) (occ : Occ),
    (nudgeLoop si vi fuel v occ).1.shape = v.shape
  | 0, _, _ => rfl
  | fuel + 1, v, occ => by
    unfold nudgeLoop
    simp only
    split_ifs
    · rfl
    · rw [nudgeLoop_shape si vi fuel]; rfl

theorem deOverlapVoxel_shape (si vi : Nat) (v : Voxel F) (occ : Occ) :
    (deOverlapVoxel si vi v occ).1.shape = v.shape := by
  unfold deOverlapVoxel
  by_cases hf : (!v.filled) = true
  · rw [if_pos hf]
  · rw [if_neg hf]
    simp only
    by_cases hk : (Occ.find occ v.cell).isNone = true
    · rw [if_pos hk]
    · rw [if_neg hk]
      split
      · rfl
      · split_ifs <;> exact nudgeLoop_shape si vi 8 v occ

theorem deOverlapVoxels_shape (si : Nat) : ∀ (voxels : List (Voxel F)) (vi : Nat) (occ : Occ),
    (deOverlapVoxels si vi voxels occ).1.map Voxel.shape = voxels.map Voxel.shape
  | [], _, _ => rfl
  | v :: vs, vi, occ => by
    simp only [deOverlapVoxels, List.map_cons]
    rw [deOverlapVoxel_shape, deOverlapVoxels_shape si vs]

theorem deOverlapFrom_topology : ∀ (segs : List (Segment F)) (si : Nat) (occ : Occ),
    (deOverlapFrom si segs occ).1.map Segment.topology = segs.map Segment.topology
  | [], _, _ => rfl
  | seg :: segs, si, occ => by
    simp only [deOverlapFrom, List.map_cons]
    rw [deOverlapFrom_topology segs]
    simp only [Segment.topology, deOverlapVoxels_shape]

theorem update_topology (M : MathFns F) (c : Centipede F) :
    (Centipede.update M c).topology = c.topology := by
  unfold Centipede.update Centipede.topology
  simp only
  rw [deOverlapFrom_topology, List.map_map]
  have : (Segment.topology ∘ relaxSegment) = (Segment.topology : Segment F → _) :=
    funext relaxSegment_topology
  rw [this, ikPass_topology, updateGait_topology]

/-- C15. Topology is immutable after construction: `moveBy`, `tryMove` and `update` return a
creature with the same list of segment topologies, that is the same number of segments, and
for every segment the same number of voxels and legs, the same `filled` flag and rest offset
`(baseOx, baseOy)` of every voxel, and the same `side`, `phaseOffset`, `coxaLength`,
`hipLength`, `kneeLength` and `footLength` of every leg. -/
theorem topology_immutable (M : MathFns F) (c : Centipede F) (dx dy : F) :
    (Centipede.moveBy M c dx dy).topology = c.topology ∧
    (Centipede.tryMove M c dx dy).topology = c.topology ∧
    (Centipede.update M c).topology = c.topology ∧
    (∀ c' : Centipede F, c'.topology = c.topology →
      c'.segments.length = c.segments.length ∧
      ∀ (i : Nat) (s s' : Segment F), c.segments[i]? = some s → c'.segments[i]? = some s' →
        s'.voxels.length = s.voxels.length ∧ s'.legs.length = s.legs.length ∧
        (∀ (k : Nat) (v v' : Voxel F), s.voxels[k]? = some v → s'.voxels[k]? = some v' →
          v'.filled = v.filled ∧ v'.baseOx = v.baseOx ∧ v'.baseOy = v.baseOy) ∧
        (∀ (k : Nat) (l l' : Leg F), s.legs[k]? = some l → s'.legs[k]? = some l' →
          l'.side = l.side ∧ l'.phaseOffset = l.phaseOffset ∧ l'.coxaLength = l.coxaLength ∧
          l'.hipLength = l.hipLength ∧ l'.kneeLength = l.kneeLength ∧
          l'.footLength = l.footLength)) := by
  refine ⟨moveBy_topology M c dx dy, tryMove_topology M c dx dy, update_topology M c, ?_⟩
  intro c' hc'
  unfold Centipede.topology at hc'
  refine ⟨by simpa using congrArg List.length hc', ?_⟩
  intro i s s' hs hs'
  have hi := congrArg (fun l => l[i]?) hc'
  simp only [List.getElem?_map, hs, hs', Option.map_some', Option.some.injEq,
    Segment.topology, Prod.mk.injEq] at hi
  obtain ⟨hv, hl⟩ := hi
  refine ⟨by simpa using congrArg List.length hv, by simpa using congrArg List.length hl, ?_, ?_⟩
  · intro k v v' hk hk'
    have := congrArg (fun l => l[k]?) hv
    simp only [List.getElem?_map, hk, hk', Option.map_some', Option.some.injEq,
      Voxel.shape, Prod.mk.injEq] at this
    exact this
  · intro k l l' hk hk'
    have := congrArg (fun l => l[k]?) hl
    simp only [List.getElem?_map, hk, hk', Option.map_some', Option.some.injEq,
      Leg.build, Prod.mk.injEq] at this
    exact this

/-! ### Swing phase invariant -/

theorem updateLeg_swingPhase (M : MathFns F) (gaitTime bodyZ : F) (forward spine mid : F × F)
    (leg : Leg F) :
    ((gait.updateLeg M gaitTime bodyZ forward spine mid leg).onGround = true →
      (gait.updateLeg M gaitTime bodyZ forward spine mid leg).swingPhase = 0) ∧
    0 ≤ (gait.updateLeg M gaitTime bodyZ forward spine mid leg).swingPhase ∧
    (gait.updateLeg M gaitTime bodyZ forward spine mid leg).swingPhase ≤ 1 := by
  have h0 : (0.0 : F) = 0 := by norm_num
  have h1 : (1.0 : F) = 1 := by norm_num
  by_cases hs : gait.legPhase gaitTime leg.phaseOffset ≥ gait.stanceEnd
  · simp only [gait.updateLeg, hs, decide_True, if_true, h0, h1]
    refine ⟨fun h => by simp at h, ?_, ?_⟩
    · exact (clamp_mem _ (0 : F) 1 (by norm_num)).1
    · exact (clamp_mem _ (0 : F) 1 (by norm_num)).2
  · simp only [gait.updateLeg, hs, decide_False, Bool.false_eq_true, if_false, h0]
    norm_num

theorem update_length (M : MathFns F) (c : Centipede F) :
    (Centipede.update M c).segments.length = c.segments.length := by
  have := congrArg List.length (update_topology M c)
  simpa [Centipede.topology] using this

/-- Every leg after `update` is the `solveLeg` image of the `updateLeg` image of a leg the
call received. -/
theorem update_leg_form (M : MathFns F) (c : Centipede F) (seg' : Segment F)
    (hseg' : seg' ∈ (Centipede.update M c).segments) (leg' : Leg F) (hleg' : leg' ∈ seg'.legs) :
    ∃ (leg : Leg F) (t z : F) (fwd sp mid : F × F) (cx cy z' yr : F),
      leg' = ik.solveLeg M (gait.updateLeg M t z fwd sp mid leg) cx cy z' yr := by
  obtain ⟨i, hi⟩ := List.mem_iff_getElem?.mp hseg'
  have hlt : i < c.segments.length := by
    rw [← update_length M c]
    rcases Nat.lt_or_ge i (Centipede.update M c).segments.length with h | h
    · exact h
    · rw [List.getElem?_eq_none h] at hi; simp at hi
  obtain ⟨seg'', f, hs, hl, hf⟩ := update_legs M c i c.segments[i] (List.getElem?_eq_getElem hlt)
  rw [hi] at hs
  simp only [Option.some.injEq] at hs
  subst hs
  rw [hl, List.mem_map] at hleg'
  obtain ⟨leg, _, rfl⟩ := hleg'
  obtain ⟨t, z, fwd, sp, mid, cx, cy, z', yr, hfl⟩ := hf leg
  exact ⟨leg, t, z, fwd, sp, mid, _, _, _, _, hfl⟩

/-- C14. In every state reachable from the constructor by `tryMove`, `moveBy` and `update`
calls, every leg has `swingPhase = 0` whenever `onGround` is true, and `swingPhase` in
`[0, 1]`. -/
theorem swing_phase_invariant (M : MathFns F) (c : Centipede F) (hr : Reachable M c) :
    ∀ seg ∈ c.segments, ∀ leg ∈ seg.legs,
      (leg.onGround = true → leg.swingPhase = 0) ∧ 0 ≤ leg.swingPhase ∧ leg.swingPhase ≤ 1 := by
  have key : ∀ (a b : List (Segment F)),
      a.map (fun s => s.legs) = b.map (fun s => s.legs) →
      (∀ seg ∈ b, ∀ leg ∈ seg.legs,
        (leg.onGround = true → leg.swingPhase = 0) ∧ 0 ≤ leg.swingPhase ∧ leg.swingPhase ≤ 1) →
      ∀ seg ∈ a, ∀ leg ∈ seg.legs,
        (leg.onGround = true → leg.swingPhase = 0) ∧ 0 ≤ leg.swingPhase ∧ leg.swingPhase ≤ 1 := by
    intro a b hab hb seg hseg leg hleg
    have hm : seg.legs ∈ a.map (fun s => s.legs) := List.mem_map_of_mem _ hseg
    rw [hab, List.mem_map] at hm
    obtain ⟨seg2, hseg2, hl⟩ := hm
    exact hb seg2 hseg2 leg (hl ▸ hleg)
  induction hr with
  | create startX startY length =>
    intro seg hseg leg hleg
    simp only [Centipede.create, List.mem_map, List.mem_range] at hseg
    obtain ⟨i, _, rfl⟩ := hseg
    simp only [mkSegment, List.mem_cons, List.mem_singleton, List.not_mem_nil, or_false] at hleg
    rcases hleg with rfl | rfl <;> simp [mkLeg] <;> norm_num
  | tryMove c dx dy _ ih =>
    unfold Centipede.tryMove Centipede.tryMoveTraced
    simp only
    by_cases hc : c.moveCounter + 1 < moveDelay
    · rw [if_pos hc]; exact ih
    · rw [if_neg hc]
      exact key _ _ (moveBy_legs M { c with moveCounter := 0 } _ _) ih
  | moveBy c dx dy _ ih => exact key _ _ (moveBy_legs M c dx dy) ih
  | update c _ _ =>
    intro seg' hseg' leg' hleg'
    obtain ⟨leg, t, z, fwd, sp, mid, cx, cy, z', yr, rfl⟩ :=
      update_leg_form M c seg' hseg' leg' hleg'
    exact updateLeg_swingPhase M t z fwd sp mid leg

/-- A run of C14: the second segment's first leg of `Centipede(40, 10, 2)` after one throttled
request pair and one tick. -/
theorem swing_phase_invariant_witness :
    Reachable ratFns (Centipede.update ratFns (Centipede.tryMove ratFns
      (Centipede.tryMove ratFns (Centipede.create 40 10 2) 1 0) 1 0)) ∧
    (Centipede.update ratFns (Centipede.tryMove ratFns
      (Centipede.tryMove ratFns (Centipede.create 40 10 2) 1 0) 1 0)).segments.getD 1 default ∈
      (Centipede.update ratFns (Centipede.tryMove ratFns
        (Centipede.tryMove ratFns (Centipede.create 40 10 2) 1 0) 1 0)).segments ∧
    ((Centipede.update ratFns (Centipede.tryMove ratFns
      (Centipede.tryMove ratFns (Centipede.create 40 10 2) 1 0) 1 0)).segments.getD 1
        default).legs.getD 0 default ∈
      ((Centipede.update ratFns (Centipede.tryMove ratFns
        (Centipede.tryMove ratFns (Centipede.create 40 10 2) 1 0) 1 0)).segments.getD 1
          default).legs ∧
    ((((Centipede.update ratFns (Centipede.tryMove ratFns
      (Centipede.tryMove ratFns (Centipede.create 40 10 2) 1 0) 1 0)).segments.getD 1
        default).legs.getD 0 default).onGround = true →
      (((Centipede.update ratFns (Centipede.tryMove ratFns
        (Centipede.tryMove ratFns (Centipede.create 40 10 2) 1 0) 1 0)).segments.getD 1
          default).legs.getD 0 default).swingPhase = 0) ∧
    0 ≤ (((Centipede.update ratFns (Centipede.tryMove ratFns
      (Centipede.tryMove ratFns (Centipede.create 40 10 2) 1 0) 1 0)).segments.getD 1
        default).legs.getD 0 default).swingPhase ∧
    (((Centipede.update ratFns (Centipede.tryMove ratFns
      (Centipede.tryMove ratFns (Centipede.create 40 10 2) 1 0) 1 0)).segments.getD 1
        default).legs.getD 0 default).swingPhase ≤ 1 :=
  ⟨Reachable.update _ (Reachable.tryMove _ 1 0 (Reachable.tryMove _ 1 0
      (Reachable.create 40 10 2))),
    by decide!, by decide!,
    swing_phase_invariant ratFns _
      (Reachable.update _ (Reachable.tryMove _ 1 0 (Reachable.tryMove _ 1 0
        (Reachable.create 40 10 2))))
      ((Centipede.update ratFns (Centipede.tryMove ratFns
        (Centipede.tryMove ratFns (Centipede.create 40 10 2) 1 0) 1 0)).segments.getD 1 default)
      (by decide!) _ (by decide!)⟩

/-! ### Ring search -/

theorem ringOffsets_length : ringOffsets.length = 168 := by decide!

theorem ringOffsets_nodup : ringOffsets.Nodup := by decide!

theorem ringOffsets_range : ∀ d ∈ ringOffsets, 1 ≤ max |d.1| |d.2| ∧ max |d.1| |d.2| ≤ 6 := by
  decide!

theorem ringOffsets_complete : ∀ a ∈ intRange (-6) 6, ∀ b ∈ intRange (-6) 6,
    1 ≤ max |a| |b| → (a, b) ∈ ringOffsets := by
  decide!

theorem ringOffsets_sorted :
    ringOffsets.Pairwise fun a b => max |a.1| |a.2| ≤ max |b.1| |b.2| := by
  decide!

theorem mem_intRange (lo hi x : Int) : x ∈ intRange lo hi ↔ lo ≤ x ∧ x ≤ hi := by
  unfold intRange
  simp only [List.mem_map, List.mem_range]
  constructor
  · rintro ⟨k, hk, rfl⟩
    omega
  · rintro ⟨h1, h2⟩
    exact ⟨(x - lo).toNat, by omega, by omega⟩

/-- The ring search visits exactly the offsets at Chebyshev distance 1 to 6. -/
theorem mem_ringOffsets (d : Int × Int) :
    d ∈ ringOffsets ↔ 1 ≤ max |d.1| |d.2| ∧ max |d.1| |d.2| ≤ 6 := by
  constructor
  · exact ringOffsets_range d
  · rintro ⟨h1, h2⟩
    have ha : |d.1| ≤ 6 := le_trans (le_max_left _ _) h2
    have hb : |d.2| ≤ 6 := le_trans (le_max_right _ _) h2
    rw [abs_le] at ha hb
    exact ringOffsets_complete d.1 ((mem_intRange _ _ _).mpr ha) d.2
      ((mem_intRange _ _ _).mpr hb) h1

theorem Occ.find_erase (occ : Occ) (k k' : Int × Int) :
    Occ.find (Occ.erase occ k) k' = if k' = k then none else Occ.find occ k' := by
  unfold Occ.find Occ.erase
  induction occ with
  | nil => simp
  | cons e occ ih =>
    by_cases he : e.1 = k
    · rw [List.filter_cons_of_neg (by simpa using he), ih, List.lookup_cons]
      by_cases hk : k' = k
      · simp [hk]
      · have : (k' == e.1) = false := by rw [he]; simpa using hk
        simp [hk, this]
    · rw [List.filter_cons_of_pos (by simpa using he), List.lookup_cons, List.lookup_cons, ih]
      by_cases hk : k' = k
      · have : (k == e.1) = false := by
          simpa using fun h : k = e.1 => he h.symm
        simp [hk, this]
      · simp [hk]

theorem Occ.find_set (occ : Occ) (k k' : Int × Int) (v : Nat × Nat) :
    Occ.find (Occ.set occ k v) k' = if k' = k then some v else Occ.find occ k' := by
  have h := Occ.find_erase occ k k'
  unfold Occ.find at h ⊢
  unfold Occ.set
  rw [List.lookup_cons]
  by_cases hk : k' = k
  · simp [hk]
  · have : (k' == k) = false := by simpa using hk
    rw [this, h]
    simp [hk]

theorem cellAt_intCast (n : Int × Int) : cellAt (n.1 : F) (n.2 : F) = n := by
  have h : ∀ m : Int, ⌊(m : F) + 0.5⌋ = m := by
    intro m
    rw [Int.floor_eq_iff]
    constructor
    · linarith [show (0 : F) ≤ 0.5 by norm_num]
    · linarith [show (0.5 : F) < 1 by norm_num]
  unfold cellAt
  rw [h, h]

theorem cheb_translate (c d : Int × Int) : cheb (c.1 + d.1, c.2 + d.2) c = max |d.1| |d.2| := by
  simp [cheb]

theorem mem_ringCells (c cell : Int × Int) :
    cell ∈ (ringOffsets.map fun d => (c.1 + d.1, c.2 + d.2)) ↔
      1 ≤ cheb cell c ∧ cheb cell c ≤ 6 := by
  constructor
  · intro h
    obtain ⟨d, hd, rfl⟩ := List.mem_map.mp h
    rw [cheb_translate]
    exact (mem_ringOffsets d).mp hd
  · intro h
    refine List.mem_map.mpr ⟨(cell.1 - c.1, cell.2 - c.2), ?_, ?_⟩
    · rw [mem_ringOffsets]; exact h
    · ext <;> simp

theorem ringCells_sorted (c : Int × Int) :
    (ringOffsets.map fun d => (c.1 + d.1, c.2 + d.2)).Pairwise
      fun a b => cheb a c ≤ cheb b c := by
  rw [List.pairwise_map]
  refine ringOffsets_sorted.imp ?_
  intro a b h
  rw [cheb_translate, cheb_translate]
  exact h

/-- What the ring search returns: nothing exactly when every cell at Chebyshev distance 1 to 6
is in the map; otherwise a free cell at the least such distance. -/
theorem firstFreeRing_spec (occ : Occ) (c : Int × Int) :
    (firstFreeRing occ c = none ↔
      ∀ cell, 1 ≤ cheb cell c → cheb cell c ≤ 6 → Occ.find occ cell ≠ none) ∧
    (∀ n, firstFreeRing occ c = some n →
      Occ.find occ n = none ∧ 1 ≤ cheb n c ∧ cheb n c ≤ 6 ∧
      ∀ cell, 1 ≤ cheb cell c → cheb cell c < cheb n c → Occ.find occ cell ≠ none) := by
  unfold firstFreeRing
  constructor
  · rw [List.find?_eq_none]
    constructor
    · intro h cell h1 h2 hcon
      have := h cell ((mem_ringCells c cell).mpr ⟨h1, h2⟩)
      rw [hcon] at this
      simp at this
    · intro h cell hcell
      have hc := (mem_ringCells c cell).mp hcell
      have := h cell hc.1 hc.2
      cases hf : Occ.find occ cell with
      | none => exact absurd hf this
      | some o => simp
  · intro n hn
    have hmem := (mem_ringCells c n).mp (List.mem_of_find?_eq_some hn)
    obtain ⟨hp, as, bs, hlist, has⟩ := List.find?_eq_some.mp hn
    refine ⟨by simpa using hp, hmem.1, hmem.2, ?_⟩
    intro cell h1 h2 hcon
    have hcell : cell ∈ (ringOffsets.map fun d => (c.1 + d.1, c.2 + d.2)) :=
      (mem_ringCells c cell).mpr ⟨h1, by linarith [hmem.2]⟩
    have hsorted := ringCells_sorted c
    rw [hlist] at hcell hsorted
    rw [List.pairwise_append] at hsorted
    obtain ⟨_, hnb, _⟩ := hsorted
    rw [List.pairwise_cons] at hnb
    rcases List.mem_append.mp hcell with h | h
    · have := has cell h
      rw [hcon] at this
      simp at this
    · rcases List.mem_cons.mp h with h | h
      · rw [h] at h2; exact absurd h2 (lt_irrefl _)
      · exact absurd (hnb.1 cell h) (not_le.mpr h2)

/-- C18. For a voxel `(ownerSeg, ownerVox)` of the body, `relocateVoxel` succeeds exactly when
some cell at Chebyshev distance 1 to 6 from the voxel's rounded cell is absent from the
occupancy map.  On success the voxel sits exactly on a cell `n` that was absent from the map,
at the least such distance (every nearer ring cell was in the map); the old cell is no longer
in the map, `n` is mapped to this voxel and every other cell is mapped as before.  On failure
the segments and the map are returned unchanged. -/
theorem relocateVoxel_spec (segments : List (Segment F)) (occ : Occ) (ownerSeg ownerVox : Nat)
    (s : Segment F) (v : Voxel F)
    (hs : segments[ownerSeg]? = some s) (hv : s.voxels[ownerVox]? = some v) :
    ((relocateVoxel segments occ ownerSeg ownerVox).2.2 = true ↔
      ∃ cell, 1 ≤ cheb cell v.cell ∧ cheb cell v.cell ≤ 6 ∧ Occ.find occ cell = none) ∧
    ((relocateVoxel segments occ ownerSeg ownerVox).2.2 = true →
      ∃ n : Int × Int,
        Occ.find occ n = none ∧ 1 ≤ cheb n v.cell ∧ cheb n v.cell ≤ 6 ∧
        (∀ cell, 1 ≤ cheb cell v.cell → cheb cell v.cell < cheb n v.cell →
          Occ.find occ cell ≠ none) ∧
        (∃ (s' : Segment F) (v' : Voxel F),
          (relocateVoxel segments occ ownerSeg ownerVox).1[ownerSeg]? = some s' ∧
          s'.voxels[ownerVox]? = some v' ∧
          v'.wx = (n.1 : F) ∧ v'.wy = (n.2 : F) ∧ v'.cell = n) ∧
        Occ.find (relocateVoxel segments occ ownerSeg ownerVox).2.1 v.cell = none ∧
        Occ.find (relocateVoxel segments occ ownerSeg ownerVox).2.1 n =
          some (ownerSeg, ownerVox) ∧
        ∀ cell, cell ≠ v.cell → cell ≠ n →
          Occ.find (relocateVoxel segments occ ownerSeg ownerVox).2.1 cell =
            Occ.find occ cell) ∧
    ((relocateVoxel segments occ ownerSeg ownerVox).2.2 = false →
      (relocateVoxel segments occ ownerSeg ownerVox).1 = segments ∧
      (relocateVoxel segments occ ownerSeg ownerVox).2.1 = occ) := by
  have hov : (segments.getD ownerSeg default).voxels.getD ownerVox default = v := by
    simp [List.getD_eq_getElem?_getD, hs, hv]
  obtain ⟨hnone, hsome⟩ := firstFreeRing_spec occ v.cell
  unfold relocateVoxel
  simp only [hov]
  cases hfind : firstFreeRing occ v.cell with
  | none =>
    simp only [Bool.false_eq_true, false_iff, false_implies, true_and, not_exists, not_and,
      forall_true_left, and_self, and_true]
    intro cell h1 h2
    exact hnone.mp hfind cell h1 h2
  | some n =>
    obtain ⟨hfree, h1, h6, hmin⟩ := hsome n hfind
    have hne : n ≠ v.cell := by
      intro h
      rw [h] at h1
      simp [cheb] at h1
    simp only [true_iff, forall_true_left, Bool.true_eq_false, false_implies, and_true]
    refine ⟨⟨n, h1, h6, hfree⟩, n, hfree, h1, h6, hmin, ?_, ?_, ?_, ?_⟩
    · refine ⟨{ s with voxels := updateAt s.voxels ownerVox fun v0 =>
          { v0 with wx := (n.1 : F), wy := (n.2 : F) } },
        { v with wx := (n.1 : F), wy := (n.2 : F) }, ?_, ?_, rfl, rfl, cellAt_intCast n⟩
      · rw [updateAt_getElem?, if_pos rfl, hs]; rfl
      · simp only
        rw [updateAt_getElem?, if_pos rfl, hv]; rfl
    · rw [Occ.find_set, if_neg (Ne.symm hne), Occ.find_erase, if_pos rfl]
    · rw [Occ.find_set, if_pos rfl]
    · intro cell hc1 hc2
      rw [Occ.find_set, if_neg hc2, Occ.find_erase, if_neg hc1]

/-- A run of C18: the centre voxel of the second segment of `Centipede(40, 10, 2)` against the
occupancy map of that creature. -/
theorem relocateVoxel_spec_witness :
    ((Centipede.create 40 10 2 : Centipede ℚ).segments[1]? = some (mkSegment 40 10 1) ∧
      (mkSegment 40 10 1 : Segment ℚ).voxels[4]? = some (mkVoxel 37 10 3 3 1 1)) ∧
    ((relocateVoxel (Centipede.create 40 10 2 : Centipede ℚ).segments
        (buildOcc (Centipede.create 40 10 2 : Centipede ℚ).segments) 1 4).2.2 = true ↔
      ∃ cell, 1 ≤ cheb cell (mkVoxel 37 10 3 3 1 1 : Voxel ℚ).cell ∧
        cheb cell (mkVoxel 37 10 3 3 1 1 : Voxel ℚ).cell ≤ 6 ∧
        Occ.find (buildOcc (Centipede.create 40 10 2 : Centipede ℚ).segments) cell = none) :=
  ⟨⟨by decide!, by decide!⟩,
    (relocateVoxel_spec (Centipede.create 40 10 2 : Centipede ℚ).segments
      (buildOcc (Centipede.create 40 10 2 : Centipede ℚ).segments) 1 4
      (mkSegment 40 10 1) (mkVoxel 37 10 3 3 1 1) (by decide!) (by decide!)).1⟩

/-! ### Two-bone solution -/

/-- The functions of `ℝ` satisfy the laws `MathFns.Exact`. -/
theorem real_exact :
    MathFns.Exact (⟨Real.sqrt, fun y x => Complex.arg ⟨x, y⟩, Real.arccos, Real.sin,
      Real.cos⟩ : MathFns ℝ) where
  sqrt_nonneg := fun x _ => Real.sqrt_nonneg x
  sqrt_mul_self := fun x hx => Real.mul_self_sqrt hx
  cos_acos := fun x h1 h2 => Real.cos_arccos h1 h2
  acos_nonneg := fun x => Real.arccos_nonneg x
  sin_sq_add_cos_sq := fun a => by
    have := Real.sin_sq_add_cos_sq a
    nlinarith [this]
  cos_neg := Real.cos_neg
  sin_neg := Real.sin_neg
  cos_add := Real.cos_add
  sin_add := Real.sin_add
  atan2_polar := fun x y h => by
    have hz : (⟨x, y⟩ : ℂ) ≠ 0 := by
      intro hcon
      have h1 := congrArg Complex.re hcon
      have h2 := congrArg Complex.im hcon
      simp at h1 h2
      rcases h with h | h
      · exact h h1
      · exact h h2
    refine ⟨Complex.abs ⟨x, y⟩, Complex.abs.pos hz, ?_, ?_, ?_⟩
    · rw [Complex.mul_self_abs, Complex.normSq_apply]
    · exact (Complex.abs_mul_cos_arg ⟨x, y⟩).symm
    · exact (Complex.abs_mul_sin_arg ⟨x, y⟩).symm

/-- C20. The closed-form two-bone solution of `solveLeg` is exact for reachable targets: for
link lengths `L1, L2 > 0`, horizontal reach `r` (any sign, so also `r >= 0`) and vertical
offset `dz` with
`(r^2 + dz^2 - L1^2 - L2^2) / (2 L1 L2)` in `[-0.999, 0.999]`, the raw angles
`knee = -acos(that value)` and
`hipPitch = atan2(dz, r) - atan2(L2 sin(knee), L1 + L2 cos(knee))` satisfy the renderer's
forward kinematics, `L1 cos(hipPitch) + L2 cos(hipPitch + knee) = r` and
`L1 sin(hipPitch) + L2 sin(hipPitch + knee) = dz`, with `knee <= 0`; for any libm functions
that obey the laws of the real ones. -/
theorem two_bone_exact (M : MathFns F) (hM : M.Exact) (L1 L2 r dz : F)
    (hL1 : 0 < L1) (hL2 : 0 < L2)
    (hlo : -0.999 ≤ (r * r + dz * dz - L1 * L1 - L2 * L2) / (2 * L1 * L2))
    (hhi : (r * r + dz * dz - L1 * L1 - L2 * L2) / (2 * L1 * L2) ≤ 0.999) :
    ik.rawKnee M L1 L2 r dz =
      -M.acos ((r * r + dz * dz - L1 * L1 - L2 * L2) / (2 * L1 * L2)) ∧
    ik.rawHipPitch M L1 L2 r dz =
      M.atan2 dz r - M.atan2 (L2 * M.sin (ik.rawKnee M L1 L2 r dz))
        (L1 + L2 * M.cos (ik.rawKnee M L1 L2 r dz)) ∧
    fkReach M L1 L2 (ik.rawHipPitch M L1 L2 r dz) (ik.rawKnee M L1 L2 r dz) = r ∧
    fkHeight M L1 L2 (ik.rawHipPitch M L1 L2 r dz) (ik.rawKnee M L1 L2 r dz) = dz ∧
    ik.rawKnee M L1 L2 r dz ≤ 0 := by
  have h2 : (2.0 : F) = 2 := by norm_num
  have hk : ik.rawKnee M L1 L2 r dz =
      -M.acos ((r * r + dz * dz - L1 * L1 - L2 * L2) / (2 * L1 * L2)) := by
    unfold ik.rawKnee
    simp only [h2]
    rw [clamp_of_mem _ _ _ hlo hhi]
  set c := (r * r + dz * dz - L1 * L1 - L2 * L2) / (2 * L1 * L2) with hc
  set k := ik.rawKnee M L1 L2 r dz with hkdef
  have hLL : 0 < 2 * L1 * L2 := by positivity
  have hc2 : 2 * L1 * L2 * c = r * r + dz * dz - L1 * L1 - L2 * L2 := by
    rw [hc]; field_simp
  have hcosk : M.cos k = c := by
    rw [hk, hM.cos_neg, hM.cos_acos c (by linarith) (by linarith)]
  have hpyth := hM.sin_sq_add_cos_sq k
  rw [hcosk] at hpyth
  have hAB : (L1 + L2 * c) * (L1 + L2 * c) + (L2 * M.sin k) * (L2 * M.sin k) =
      r * r + dz * dz := by
    have : (L1 + L2 * c) * (L1 + L2 * c) + (L2 * M.sin k) * (L2 * M.sin k) =
        L1 * L1 + 2 * L1 * L2 * c + L2 * L2 * (M.sin k * M.sin k + c * c) := by ring
    rw [this, hpyth]; linarith
  have hpos : 0 < r * r + dz * dz := by
    have : r * r + dz * dz = L1 * L1 + L2 * L2 + 2 * L1 * L2 * c := by linarith
    rw [this]
    nlinarith [sq_nonneg (L1 - L2), mul_pos hL1 hL2]
  have hne1 : r ≠ 0 ∨ dz ≠ 0 := by
    by_contra hcon
    push_neg at hcon
    rw [hcon.1, hcon.2] at hpos
    simp at hpos
  have hne2 : (L1 + L2 * c) ≠ 0 ∨ L2 * M.sin k ≠ 0 := by
    by_contra hcon
    push_neg at hcon
    rw [hcon.1, hcon.2] at hAB
    rw [← hAB] at hpos
    simp at hpos
  obtain ⟨D, hD, hDD, hrD, hdzD⟩ := hM.atan2_polar r dz hne1
  obtain ⟨D', hD', hDD', hAD, hBD⟩ := hM.atan2_polar (L1 + L2 * c) (L2 * M.sin k) hne2
  have hDeq : D' = D := by
    have : (D' - D) * (D' + D) = 0 := by
      have e : (D' - D) * (D' + D) = D' * D' - D * D := by ring
      rw [e, hDD', hDD, hAB]; ring
    rcases mul_eq_zero.mp this with h | h
    · linarith
    · linarith
  rw [hDeq] at hAD hBD
  have hp : ik.rawHipPitch M L1 L2 r dz =
      M.atan2 dz r - M.atan2 (L2 * M.sin k) (L1 + L2 * M.cos k) := rfl
  refine ⟨hk, hp, ?_, ?_, ?_⟩
  · unfold fkReach
    rw [hp, hcosk]
    set φ := M.atan2 dz r with hφ
    set ψ := M.atan2 (L2 * M.sin k) (L1 + L2 * c) with hψ
    have e1 : M.cos φ = M.cos (φ - ψ) * M.cos ψ - M.sin (φ - ψ) * M.sin ψ := by
      rw [← hM.cos_add]; congr 1; ring
    rw [hM.cos_add, hcosk]
    have : L1 * M.cos (φ - ψ) + L2 * (M.cos (φ - ψ) * c - M.sin (φ - ψ) * M.sin k) =
        M.cos (φ - ψ) * (L1 + L2 * c) - M.sin (φ - ψ) * (L2 * M.sin k) := by ring
    rw [this, hrD, e1]
    nth_rewrite 1 [hAD]
    nth_rewrite 1 [hBD]
    ring
  · unfold fkHeight
    rw [hp, hcosk]
    set φ := M.atan2 dz r with hφ
    set ψ := M.atan2 (L2 * M.sin k) (L1 + L2 * c) with hψ
    have e1 : M.sin φ = M.sin (φ - ψ) * M.cos ψ + M.cos (φ - ψ) * M.sin ψ := by
      rw [← hM.sin_add]; congr 1; ring
    rw [hM.sin_add, hcosk]
    have : L1 * M.sin (φ - ψ) + L2 * (M.sin (φ - ψ) * c + M.cos (φ - ψ) * M.sin k) =
        M.sin (φ - ψ) * (L1 + L2 * c) + M.cos (φ - ψ) * (L2 * M.sin k) := by ring
    rw [this, hdzD, e1]
    nth_rewrite 1 [hAD]
    nth_rewrite 1 [hBD]
    ring
  · rw [hk]
    linarith [hM.acos_nonneg c]

/-- A run of C20 over `ℝ` with the real `acos`, `atan2`, `sin`, `cos`: a constructor leg
(`L1 = L2 = 2.75`) reaching `r = 3` from a hip at height 0.6. -/
theorem two_bone_exact_witness :
    (MathFns.Exact (⟨Real.sqrt, fun y x => Complex.arg ⟨x, y⟩, Real.arccos, Real.sin,
        Real.cos⟩ : MathFns ℝ) ∧
      (0 : ℝ) < 2.75 ∧
      (-0.999 : ℝ) ≤ (3 * 3 + (-0.6) * (-0.6) - 2.75 * 2.75 - 2.75 * 2.75) / (2 * 2.75 * 2.75) ∧
      ((3 : ℝ) * 3 + (-0.6) * (-0.6) - 2.75 * 2.75 - 2.75 * 2.75) / (2 * 2.75 * 2.75) ≤ 0.999) ∧
    fkReach (⟨Real.sqrt, fun y x => Complex.arg ⟨x, y⟩, Real.arccos, Real.sin, Real.cos⟩ :
        MathFns ℝ) 2.75 2.75
      (ik.rawHipPitch ⟨Real.sqrt, fun y x => Complex.arg ⟨x, y⟩, Real.arccos, Real.sin,
        Real.cos⟩ 2.75 2.75 3 (-0.6))
      (ik.rawKnee ⟨Real.sqrt, fun y x => Complex.arg ⟨x, y⟩, Real.arccos, Real.sin,
        Real.cos⟩ 2.75 2.75 3 (-0.6)) = 3 ∧
    fkHeight (⟨Real.sqrt, fun y x => Complex.arg ⟨x, y⟩, Real.arccos, Real.sin, Real.cos⟩ :
        MathFns ℝ) 2.75 2.75
      (ik.rawHipPitch ⟨Real.sqrt, fun y x => Complex.arg ⟨x, y⟩, Real.arccos, Real.sin,
        Real.cos⟩ 2.75 2.75 3 (-0.6))
      (ik.rawKnee ⟨Real.sqrt, fun y x => Complex.arg ⟨x, y⟩, Real.arccos, Real.sin,
        Real.cos⟩ 2.75 2.75 3 (-0.6)) = -0.6 :=
  ⟨⟨real_exact, by norm_num, by norm_num, by norm_num⟩,
    (two_bone_exact _ real_exact 2.75 2.75 3 (-0.6) (by norm_num) (by norm_num)
      (by norm_num) (by norm_num)).2.2.1,
    (two_bone_exact _ real_exact 2.75 2.75 3 (-0.6) (by norm_num) (by norm_num)
      (by norm_num) (by norm_num)).2.2.2.1⟩

/-! ### De-overlap pass -/

theorem Occ.find_eq_none_iff (occ : Occ) (k : Int × Int) :
    Occ.find occ k = none ↔ k ∉ Occ.keys occ := by
  unfold Occ.find Occ.keys
  induction occ with
  | nil => simp
  | cons e occ ih =>
    rw [List.lookup_cons]
    by_cases h : k = e.1
    · simp [h]
    · have : (k == e.1) = false := by simpa using h
      rw [this]
      simp only [List.map_cons, List.mem_cons, not_or]
      rw [ih]
      exact ⟨fun hh => ⟨h, hh⟩, fun hh => hh.2⟩

theorem Occ.keys_set (occ : Occ) (k : Int × Int) (v : Nat × Nat) (h : k ∉ Occ.keys occ) :
    Occ.keys (Occ.set occ k v) = k :: Occ.keys occ := by
  unfold Occ.set Occ.erase
  unfold Occ.keys at h ⊢
  rw [List.map_cons, List.filter_eq_self.mpr]
  intro e he
  simp only [ne_eq, decide_not, Bool.not_eq_eq_eq_not, Bool.not_true, decide_eq_false_iff_not]
  intro hcon
  exact h (List.mem_map.mpr ⟨e, he, hcon⟩)

/-- With at most 168 keys in the map, one of them `k`, the ring search around `k` finds a free
cell: `k` and the 168 ring cells are 169 distinct cells. -/
theorem firstFreeRing_of_small (occ : Occ) (k : Int × Int)
    (hlen : (Occ.keys occ).length ≤ 168) (hk : k ∈ Occ.keys occ) :
    ∃ n, firstFreeRing occ k = some n := by
  cases h : firstFreeRing occ k with
  | some n => exact ⟨n, rfl⟩
  | none =>
    exfalso
    have hall := (firstFreeRing_spec occ k).1.mp h
    have hnd : (k :: ringOffsets.map fun d => (k.1 + d.1, k.2 + d.2)).Nodup := by
      rw [List.nodup_cons]
      constructor
      · intro hmem
        have := (mem_ringCells k k).mp hmem
        simp [cheb] at this
      · refine ringOffsets_nodup.map ?_
        intro a b hab
        simp only [Prod.mk.injEq, add_right_inj] at hab
        exact Prod.ext hab.1 hab.2
    have hsub : (k :: ringOffsets.map fun d => (k.1 + d.1, k.2 + d.2)) ⊆ Occ.keys occ := by
      intro c hc
      rcases List.mem_cons.mp hc with rfl | hc
      · exact hk
      · have := (mem_ringCells k c).mp hc
        by_contra hn
        exact hall c this.1 this.2 ((Occ.find_eq_none_iff occ c).mpr hn)
    have := (hnd.subperm hsub).length_le
    simp only [List.length_cons, List.length_map, ringOffsets_length] at this
    omega

theorem deOverlapVoxel_unfilled (si vi : Nat) (v : Voxel F) (occ : Occ)
    (hf : v.filled = false) : deOverlapVoxel si vi v occ = (v, occ) := by
  unfold deOverlapVoxel
  simp [hf]

theorem deOverlapVoxel_filled (si vi : Nat) (v : Voxel F) (occ : Occ)
    (hf : v.filled = true) (hlen : (Occ.keys occ).length ≤ 168) :
    (deOverlapVoxel si vi v occ).1.filled = true ∧
    (deOverlapVoxel si vi v occ).1.cell ∉ Occ.keys occ ∧
    Occ.keys (deOverlapVoxel si vi v occ).2 =
      (deOverlapVoxel si vi v occ).1.cell :: Occ.keys occ := by
  unfold deOverlapVoxel
  simp only [hf, Bool.not_true, Bool.false_eq_true, if_false]
  by_cases hfree : (Occ.find occ v.cell).isNone = true
  · rw [if_pos hfree]
    have hn : v.cell ∉ Occ.keys occ :=
      (Occ.find_eq_none_iff _ _).mp (Option.isNone_iff_eq_none.mp hfree)
    exact ⟨hf, hn, Occ.keys_set _ _ _ hn⟩
  · rw [if_neg hfree]
    have hk : v.cell ∈ Occ.keys occ := by
      by_contra hn
      exact hfree (Option.isNone_iff_eq_none.mpr ((Occ.find_eq_none_iff _ _).mpr hn))
    obtain ⟨n, hn⟩ := firstFreeRing_of_small occ v.cell hlen hk
    rw [hn]
    have hsp := ((firstFreeRing_spec occ v.cell).2 n hn).1
    have hnk : n ∉ Occ.keys occ := (Occ.find_eq_none_iff _ _).mp hsp
    have hcell : ∀ w : Voxel F, w.wx = (n.1 : F) → w.wy = (n.2 : F) → w.cell = n := by
      intro w h1 h2
      unfold Voxel.cell
      rw [h1, h2]
      exact cellAt_intCast n
    simp only
    rw [hcell _ rfl rfl]
    exact ⟨trivial, hnk, Occ.keys_set _ _ _ hnk⟩

theorem deOverlapVoxels_cells (si : Nat) : ∀ (vs : List (Voxel F)) (vi : Nat) (occ : Occ),
    (Occ.keys occ).length + (vs.filter fun v => v.filled).length ≤ 169 →
    Occ.keys (deOverlapVoxels si vi vs occ).2 =
      (((deOverlapVoxels si vi vs occ).1.filter fun v => v.filled).map Voxel.cell).reverse ++
        Occ.keys occ ∧
    ((deOverlapVoxels si vi vs occ).1.filter fun v => v.filled).length =
      (vs.filter fun v => v.filled).length ∧
    ((Occ.keys occ).Nodup → (Occ.keys (deOverlapVoxels si vi vs occ).2).Nodup)
  | [], vi, occ, _ => by simp [deOverlapVoxels]
  | v :: vs, vi, occ, h => by
    simp only [deOverlapVoxels]
    by_cases hf : v.filled = true
    · rw [List.filter_cons_of_pos (by simpa using hf)] at h
      simp only [List.length_cons] at h
      obtain ⟨h1, h2, h3⟩ := deOverlapVoxel_filled si vi v occ hf (by omega)
      obtain ⟨i1, i2, i3⟩ := deOverlapVoxels_cells si vs (vi + 1) (deOverlapVoxel si vi v occ).2
        (by rw [h3]; simp only [List.length_cons]; omega)
      refine ⟨?_, ?_, ?_⟩
      · rw [i1, h3, List.filter_cons_of_pos (by simpa using h1)]
        simp
      · rw [List.filter_cons_of_pos (by simpa using h1),
          List.filter_cons_of_pos (by simpa using hf)]
        simp [i2]
      · intro hnd
        apply i3
        rw [h3]
        exact List.nodup_cons.mpr ⟨h2, hnd⟩
    · have hf' : v.filled = false := by simpa using hf
      rw [List.filter_cons_of_neg (by simpa using hf')] at h
      rw [deOverlapVoxel_unfilled si vi v occ hf']
      obtain ⟨i1, i2, i3⟩ := deOverlapVoxels_cells si vs (vi + 1) occ h
      refine ⟨?_, ?_, i3⟩
      · rw [i1, List.filter_cons_of_neg (by simpa using hf')]
      · rw [List.filter_cons_of_neg (by simpa using hf'),
          List.filter_cons_of_neg (by simpa using hf')]
        exact i2

theorem deOverlapFrom_cells : ∀ (segs : List (Segment F)) (si : Nat) (occ : Occ),
    (Occ.keys occ).length + (filledCells segs).length ≤ 169 →
    Occ.keys (deOverlapFrom si segs occ).2 =
      (filledCells (deOverlapFrom si segs occ).1).reverse ++ Occ.keys occ ∧
    ((Occ.keys occ).Nodup → (Occ.keys (deOverlapFrom si segs occ).2).Nodup)
  | [], si, occ, _ => by simp [deOverlapFrom, filledCells]
  | seg :: segs, si, occ, h => by
    simp only [deOverlapFrom]
    have hcons : ∀ (s : Segment F) (l : List (Segment F)), filledCells (s :: l) =
        (s.voxels.filter fun v => v.filled).map Voxel.cell ++ filledCells l := by
      intro s l
      simp [filledCells]
    rw [hcons, List.length_append, List.length_map] at h
    obtain ⟨h1, h2, h3⟩ := deOverlapVoxels_cells si seg.voxels 0 occ (by omega)
    have hl : (Occ.keys (deOverlapVoxels si 0 seg.voxels occ).2).length =
        (seg.voxels.filter fun v => v.filled).length + (Occ.keys occ).length := by
      rw [h1, List.length_append, List.length_reverse, List.length_map, h2]
    obtain ⟨i1, i2⟩ := deOverlapFrom_cells segs (si + 1) (deOverlapVoxels si 0 seg.voxels occ).2
      (by rw [hl]; omega)
    refine ⟨?_, fun hnd => i2 (h3 hnd)⟩
    rw [i1, h1, hcons]
    simp

theorem filledCells_length (segs : List (Segment F)) :
    (filledCells segs).length =
      ((segs.map Segment.topology).map fun t => (t.1.filter fun sh => sh.1).length).sum := by
  induction segs with
  | nil => simp [filledCells]
  | cons s l ih =>
    have hcons : filledCells (s :: l) =
        (s.voxels.filter fun v => v.filled).map Voxel.cell ++ filledCells l := by
      simp [filledCells]
    rw [hcons, List.length_append, ih]
    simp only [List.map_cons, List.sum_cons, List.length_map, Segment.topology]
    congr 1
    rw [List.filter_map, List.length_map]
    rfl

theorem filledCells_length_congr (segs segs' : List (Segment F))
    (h : segs.map Segment.topology = segs'.map Segment.topology) :
    (filledCells segs).length = (filledCells segs').length := by
  rw [filledCells_length, filledCells_length, h]

theorem deOverlap_nodup (segs : List (Segment F)) (h : (filledCells segs).length ≤ 169) :
    (filledCells (deOverlapFrom 0 segs []).1).Nodup := by
  obtain ⟨h1, h2⟩ := deOverlapFrom_cells segs 0 [] (by simpa [Occ.keys] using h)
  have := h2 (by simp [Occ.keys])
  rw [h1] at this
  simpa [Occ.keys] using this

/-- C12. For every creature state with at most 169 filled voxels, when `update` returns the
rounded grid cells `(floor(wx + 0.5), floor(wy + 0.5))` of the filled voxels of the whole body
are pairwise distinct: the list with one entry per filled voxel has no duplicate. -/
theorem update_cells_distinct (M : MathFns F) (c : Centipede F)
    (h : (filledCells c.segments).length ≤ 169) :
    (filledCells (Centipede.update M c).segments).Nodup := by
  unfold Centipede.update
  simp only
  apply deOverlap_nodup
  have ht : (Segment.topology ∘ relaxSegment) = (Segment.topology : Segment F → _) :=
    funext relaxSegment_topology
  rw [filledCells_length_congr _ c.segments
    (by rw [List.map_map, ht, ikPass_topology, updateGait_topology])]
  exact h

theorem mkSegment_filled (startX startY : Int) (i : Nat) :
    (((mkSegment startX startY i : Segment F).voxels.filter fun v => v.filled).length) = 5 := by
  simp [mkSegment, mkVoxel, List.range_succ, List.filter_cons]

theorem mkSegments_filledCells_length (startX startY : Int) (l : List Nat) :
    (filledCells (l.map (mkSegment startX startY) : List (Segment F))).length =
      5 * l.length := by
  induction l with
  | nil => simp [filledCells]
  | cons i l ih =>
    have hcons : ∀ (s : Segment F) (l : List (Segment F)), filledCells (s :: l) =
        (s.voxels.filter fun v => v.filled).map Voxel.cell ++ filledCells l := by
      intro s l
      simp [filledCells]
    rw [List.map_cons, hcons, List.length_append, List.length_map, mkSegment_filled, ih,
      List.length_cons]
    ring

/-- The constructor fills five voxels per segment, so a creature of length at most 33 has at
most 165 filled voxels. -/
theorem create_filledCells_length (startX startY length : Int) :
    (filledCells (Centipede.create startX startY length : Centipede F).segments).length =
      5 * length.toNat := by
  unfold Centipede.create
  simp only
  rw [mkSegments_filledCells_length, List.length_range]

/-- A run of C12: the game creature `Centipede(40, 10, 14)` with its 70 filled voxels. -/
theorem update_cells_distinct_witness :
    (filledCells (Centipede.create 40 10 14 : Centipede ℚ).segments).length ≤ 169 ∧
    (filledCells (Centipede.update ratFns (Centipede.create 40 10 14)).segments).Nodup :=
  ⟨by decide!, update_cells_distinct ratFns (Centipede.create 40 10 14) (by decide!)⟩

/-! ### Exact occupancy -/

theorem foldl_flatMap_eq {α β γ : Type} (f : α → List β) (g : γ → β → γ) :
    ∀ (l : List α) (init : γ),
    (l.flatMap f).foldl g init = l.foldl (fun acc a => (f a).foldl g acc) init
  | [], _ => rfl
  | a :: l, init => by
    rw [List.flatMap_cons, List.foldl_append, List.foldl_cons, foldl_flatMap_eq f g l]

theorem foldl_filterMap_eq {α β γ : Type} (f : α → Option β) (g : γ → β → γ) :
    ∀ (l : List α) (init : γ),
    (l.filterMap f).foldl g init =
      l.foldl (fun acc a => match f a with
        | some b => g acc b
        | none => acc) init
  | [], _ => rfl
  | a :: l, init => by
    cases h : f a with
    | none =>
      rw [List.filterMap_cons_none h, List.foldl_cons, foldl_filterMap_eq f g l]
      simp only [h]
    | some b =>
      rw [List.filterMap_cons_some h, List.foldl_cons, List.foldl_cons,
        foldl_filterMap_eq f g l]
      simp only [h]

theorem buildOcc_eq (segments : List (Segment F)) :
    buildOcc segments = (ownedCells segments).foldl (fun occ e => Occ.set occ e.1 e.2) [] := by
  unfold buildOcc ownedCells
  rw [foldl_flatMap_eq]
  congr 1
  funext occ ps
  rw [foldl_filterMap_eq]
  congr 1
  funext occ pv
  cases h : pv.2.filled <;> simp

theorem setFold_find_of_not_mem : ∀ (L : List ((Int × Int) × (Nat × Nat))) (init : Occ)
    (k : Int × Int), k ∉ L.map Prod.fst →
    Occ.find (L.foldl (fun occ e => Occ.set occ e.1 e.2) init) k = Occ.find init k
  | [], _, _, _ => rfl
  | e :: L, init, k, h => by
    rw [List.map_cons, List.mem_cons, not_or] at h
    rw [List.foldl_cons, setFold_find_of_not_mem L _ k h.2, Occ.find_set, if_neg h.1]

theorem setFold_find_of_mem : ∀ (L : List ((Int × Int) × (Nat × Nat))) (init : Occ)
    (k : Int × Int) (o : Nat × Nat), (k, o) ∈ L → (L.map Prod.fst).Nodup →
    Occ.find (L.foldl (fun occ e => Occ.set occ e.1 e.2) init) k = some o
  | [], _, _, _, h, _ => by simp at h
  | e :: L, init, k, o, h, hnd => by
    rw [List.map_cons, List.nodup_cons] at hnd
    rw [List.foldl_cons]
    rcases List.mem_cons.mp h with h | h
    · subst h
      rw [setFold_find_of_not_mem L _ k hnd.1, Occ.find_set, if_pos rfl]
    · exact setFold_find_of_mem L _ k o h hnd.2

theorem setFold_find_some : ∀ (L : List ((Int × Int) × (Nat × Nat))) (init : Occ)
    (k : Int × Int) (o : Nat × Nat),
    Occ.find (L.foldl (fun occ e => Occ.set occ e.1 e.2) init) k = some o →
    (k, o) ∈ L ∨ Occ.find init k = some o
  | [], _, _, _, h => Or.inr h
  | e :: L, init, k, o, h => by
    rw [List.foldl_cons] at h
    rcases setFold_find_some L _ k o h with h | h
    · exact Or.inl (List.mem_cons_of_mem _ h)
    · rw [Occ.find_set] at h
      by_cases hk : k = e.1
      · rw [if_pos hk] at h
        left
        rw [List.mem_cons]
        left
        exact Prod.ext hk (Option.some.inj h).symm
      · rw [if_neg hk] at h
        exact Or.inr h

theorem mem_ownedCells (segments : List (Segment F)) (cell : Int × Int) (o : Nat × Nat) :
    (cell, o) ∈ ownedCells segments ↔
      ∃ (s : Segment F) (v : Voxel F), segments[o.1]? = some s ∧ s.voxels[o.2]? = some v ∧
        v.filled = true ∧ v.cell = cell := by
  unfold ownedCells
  simp only [List.mem_flatMap, List.mem_filterMap]
  constructor
  · rintro ⟨ps, hps, pv, hpv, h⟩
    have h1 := List.mk_mem_enum_iff_getElem?.mp (show (ps.1, ps.2) ∈ segments.enum from hps)
    have h2 := List.mk_mem_enum_iff_getElem?.mp (show (pv.1, pv.2) ∈ ps.2.voxels.enum from hpv)
    by_cases hf : pv.2.filled = true
    · rw [if_pos hf] at h
      have h := Option.some.inj h
      have hc := congrArg Prod.fst h
      have ho := congrArg Prod.snd h
      simp only at hc ho
      subst ho
      exact ⟨ps.2, pv.2, h1, h2, hf, hc⟩
    · rw [if_neg hf] at h
      exact absurd h (by simp)
  · rintro ⟨s, v, h1, h2, hf, hc⟩
    refine ⟨(o.1, s), List.mk_mem_enum_iff_getElem?.mpr h1, (o.2, v),
      List.mk_mem_enum_iff_getElem?.mpr h2, ?_⟩
    simp [hf, hc]

theorem filterMap_filled_cells : ∀ (vs : List (Voxel F)),
    vs.filterMap (fun v => if v.filled then some v.cell else none) =
      (vs.filter fun v => v.filled).map Voxel.cell
  | [] => rfl
  | v :: vs => by
    cases h : v.filled
    · rw [List.filterMap_cons_none (by simp [h]), List.filter_cons_of_neg (by simp [h]),
        filterMap_filled_cells vs]
    · rw [List.filterMap_cons_some (b := v.cell) (by simp [h]),
        List.filter_cons_of_pos (by simp [h]), List.map_cons, filterMap_filled_cells vs]

theorem ownedCells_keys (segments : List (Segment F)) :
    (ownedCells segments).map Prod.fst = filledCells segments := by
  unfold ownedCells filledCells
  rw [List.map_flatMap]
  have h1 : ∀ ps : Nat × Segment F,
      (ps.2.voxels.enum.filterMap fun pv =>
        if pv.2.filled then some (pv.2.cell, (ps.1, pv.1)) else none).map Prod.fst =
      (ps.2.voxels.filter fun v => v.filled).map Voxel.cell := by
    intro ps
    rw [List.map_filterMap, ← filterMap_filled_cells]
    conv_rhs => rw [← List.enum_map_snd ps.2.voxels, List.filterMap_map]
    congr 1
    funext pv
    cases h : pv.2.filled <;> simp [h]
  simp only [h1]
  conv_rhs => rw [← List.enum_map_snd segments, List.flatMap_map]

/-- With pairwise distinct cells of the filled voxels, the occupancy fill loop builds an exact
map. -/
theorem buildOcc_exact (segments : List (Segment F)) (hnd : (filledCells segments).Nodup) :
    OccExact segments (buildOcc segments) := by
  rw [buildOcc_eq]
  constructor
  · intro j vi s v hs hv hf
    apply setFold_find_of_mem
    · exact (mem_ownedCells segments v.cell (j, vi)).mpr ⟨s, v, hs, hv, hf, rfl⟩
    · rw [ownedCells_keys]; exact hnd
  · intro cell o h
    rcases setFold_find_some _ _ _ _ h with h | h
    · exact (mem_ownedCells segments cell o).mp h
    · simp [Occ.find] at h

theorem updateAt_voxel (segments : List (Segment F)) (os ov : Nat) (g : Voxel F → Voxel F)
    (j vi : Nat) (s' : Segment F) (v' : Voxel F)
    (hs : (updateAt segments os fun s =>
      { s with voxels := updateAt s.voxels ov g })[j]? = some s')
    (hv : s'.voxels[vi]? = some v') :
    ∃ (s : Segment F) (v : Voxel F), segments[j]? = some s ∧ s.voxels[vi]? = some v ∧
      v' = if j = os ∧ vi = ov then g v else v := by
  rw [updateAt_getElem?] at hs
  by_cases hj : j = os
  · rw [if_pos hj] at hs
    cases hseg : segments[j]? with
    | none => rw [hseg] at hs; simp at hs
    | some s =>
      rw [hseg] at hs
      have hs := Option.some.inj hs
      subst hs
      simp only at hv
      rw [updateAt_getElem?] at hv
      by_cases hvi : vi = ov
      · rw [if_pos hvi] at hv
        cases hvox : s.voxels[vi]? with
        | none => rw [hvox] at hv; simp at hv
        | some v =>
          rw [hvox] at hv
          exact ⟨s, v, rfl, hvox, by rw [if_pos ⟨hj, hvi⟩]; exact (Option.some.inj hv).symm⟩
      · rw [if_neg hvi] at hv
        exact ⟨s, v', rfl, hv, by rw [if_neg (fun h => hvi h.2)]⟩
  · rw [if_neg hj] at hs
    exact ⟨s', v', hs, hv, by rw [if_neg (fun h => hj h.1)]⟩

theorem updateAt_voxel_of (segments : List (Segment F)) (os ov : Nat) (g : Voxel F → Voxel F)
    (j vi : Nat) (s : Segment F) (v : Voxel F)
    (hs : segments[j]? = some s) (hv : s.voxels[vi]? = some v) :
    ∃ (s' : Segment F), (updateAt segments os fun s =>
        { s with voxels := updateAt s.voxels ov g })[j]? = some s' ∧
      s'.voxels[vi]? = some (if j = os ∧ vi = ov then g v else v) := by
  rw [updateAt_getElem?, hs]
  by_cases hj : j = os
  · rw [if_pos hj]
    refine ⟨_, rfl, ?_⟩
    simp only
    rw [updateAt_getElem?, hv]
    by_cases hvi : vi = ov
    · rw [if_pos hvi, if_pos ⟨hj, hvi⟩]; rfl
    · rw [if_neg hvi, if_neg (fun h => hvi h.2)]
  · rw [if_neg hj]
    exact ⟨s, rfl, by rw [if_neg (fun h => hj h.1)]; exact hv⟩

theorem cell_of_intCast (w : Voxel F) (n : Int × Int) (h1 : w.wx = (n.1 : F))
    (h2 : w.wy = (n.2 : F)) : w.cell = n := by
  unfold Voxel.cell
  rw [h1, h2]
  exact cellAt_intCast n

/-- Moving the owner of cell `tk` to a free cell `n`, with the map updated as `relocateVoxel`
does, keeps the map exact. -/
theorem relocate_exact (segments : List (Segment F)) (occ : Occ) (o : Nat × Nat)
    (tk n : Int × Int) (hex : OccExact segments occ) (ho : Occ.find occ tk = some o)
    (hn : Occ.find occ n = none) :
    OccExact
      (updateAt segments o.1 fun s =>
        { s with voxels := updateAt s.voxels o.2 fun v =>
            { v with wx := (n.1 : F), wy := (n.2 : F) } })
      (Occ.set (Occ.erase occ tk) n o) := by
  obtain ⟨s0, v0, hs0, hv0, hf0, hc0⟩ := hex.2 tk o ho
  constructor
  · intro j vi s' v' hs hv hf
    obtain ⟨s, v, hs1, hv1, hv'⟩ := updateAt_voxel segments o.1 o.2 _ j vi s' v' hs hv
    by_cases hjo : j = o.1 ∧ vi = o.2
    · rw [if_pos hjo] at hv'
      have hcell : v'.cell = n := cell_of_intCast v' n (by rw [hv']) (by rw [hv'])
      rw [hcell, Occ.find_set, if_pos rfl]
      exact congrArg some (Prod.ext hjo.1.symm hjo.2.symm)
    · rw [if_neg hjo] at hv'
      subst hv'
      have hold := hex.1 j vi s v' hs1 hv1 hf
      have hne1 : v'.cell ≠ n := by
        intro hcon
        rw [hcon, hn] at hold
        exact absurd hold (by simp)
      have hne2 : v'.cell ≠ tk := by
        intro hcon
        rw [hcon, ho] at hold
        have := Option.some.inj hold
        exact hjo ⟨(congrArg Prod.fst this).symm, (congrArg Prod.snd this).symm⟩
      rw [Occ.find_set, if_neg hne1, Occ.find_erase, if_neg hne2]
      exact hold
  · intro cell o' h
    rw [Occ.find_set] at h
    by_cases hc : cell = n
    · rw [if_pos hc] at h
      have ho' := Option.some.inj h
      subst ho'
      obtain ⟨s', hs', hv'⟩ := updateAt_voxel_of segments o.1 o.2
        (fun v => { v with wx := (n.1 : F), wy := (n.2 : F) }) o.1 o.2 s0 v0 hs0 hv0
      rw [if_pos ⟨rfl, rfl⟩] at hv'
      exact ⟨s', _, hs', hv', hf0, by rw [hc]; exact cell_of_intCast _ n rfl rfl⟩
    · rw [if_neg hc, Occ.find_erase] at h
      by_cases hct : cell = tk
      · rw [if_pos hct] at h
        exact absurd h (by simp)
      · rw [if_neg hct] at h
        obtain ⟨s, v, hs, hv, hf, hcv⟩ := hex.2 cell o' h
        obtain ⟨s', hs', hv'⟩ := updateAt_voxel_of segments o.1 o.2
          (fun v => { v with wx := (n.1 : F), wy := (n.2 : F) }) o'.1 o'.2 s v hs hv
        have hne : ¬ (o'.1 = o.1 ∧ o'.2 = o.2) := by
          intro hcon
          rw [hcon.1] at hs
          rw [hs0] at hs
          have hs := Option.some.inj hs
          subst hs
          rw [hcon.2, hv0] at hv
          have hv := Option.some.inj hv
          subst hv
          exact hct (hcv.symm.trans hc0)
        rw [if_neg hne] at hv'
        exact ⟨s', v, hs', hv', hf, hcv⟩

theorem exact_mem_filledCells (segments : List (Segment F)) (occ : Occ)
    (hex : OccExact segments occ) (cell : Int × Int) (h : Occ.find occ cell ≠ none) :
    cell ∈ filledCells segments := by
  cases hf : Occ.find occ cell with
  | none => exact absurd hf h
  | some o =>
    obtain ⟨s, v, hs, hv, hfv, hc⟩ := hex.2 cell o hf
    unfold filledCells
    rw [List.mem_flatMap]
    refine ⟨s, List.mem_iff_getElem?.mpr ⟨_, hs⟩, ?_⟩
    rw [List.mem_map]
    exact ⟨v, List.mem_filter.mpr ⟨List.mem_iff_getElem?.mpr ⟨_, hv⟩, hfv⟩, hc⟩

/-- With an exact map for at most 168 filled voxels, the ring search around an occupied cell
finds a free cell: the cell and the 168 ring cells are 169 distinct cells. -/
theorem firstFreeRing_of_exact (segments : List (Segment F)) (occ : Occ)
    (hex : OccExact segments occ) (hcount : (filledCells segments).length ≤ 168)
    (k : Int × Int) (hk : Occ.find occ k ≠ none) :
    ∃ n, firstFreeRing occ k = some n := by
  cases h : firstFreeRing occ k with
  | some n => exact ⟨n, rfl⟩
  | none =>
    exfalso
    have hall := (firstFreeRing_spec occ k).1.mp h
    have hnd : (k :: ringOffsets.map fun d => (k.1 + d.1, k.2 + d.2)).Nodup := by
      rw [List.nodup_cons]
      constructor
      · intro hmem
        have := (mem_ringCells k k).mp hmem
        simp [cheb] at this
      · refine ringOffsets_nodup.map ?_
        intro a b hab
        simp only [Prod.mk.injEq, add_right_inj] at hab
        exact Prod.ext hab.1 hab.2
    have hsub : (k :: ringOffsets.map fun d => (k.1 + d.1, k.2 + d.2)) ⊆
        filledCells segments := by
      intro c hc
      rcases List.mem_cons.mp hc with rfl | hc
      · exact exact_mem_filledCells segments occ hex _ hk
      · have := (mem_ringCells k c).mp hc
        exact exact_mem_filledCells segments occ hex c (hall c this.1 this.2)
    have := (hnd.subperm hsub).length_le
    simp only [List.length_cons, List.length_map, ringOffsets_length] at this
    omega

theorem relocateVoxel_exact (segments : List (Segment F)) (occ : Occ) (o : Nat × Nat)
    (tk : Int × Int) (hex : OccExact segments occ)
    (hcount : (filledCells segments).length ≤ 168) (ho : Occ.find occ tk = some o) :
    (relocateVoxel segments occ o.1 o.2).2.2 = true ∧
    OccExact (relocateVoxel segments occ o.1 o.2).1 (relocateVoxel segments occ o.1 o.2).2.1 := by
  obtain ⟨s0, v0, hs0, hv0, hf0, hc0⟩ := hex.2 tk o ho
  have hov : (segments.getD o.1 default).voxels.getD o.2 default = v0 := by
    simp [List.getD_eq_getElem?_getD, hs0, hv0]
  obtain ⟨n, hn⟩ := firstFreeRing_of_exact segments occ hex hcount tk (by rw [ho]; simp)
  have hfree := ((firstFreeRing_spec occ tk).2 n hn).1
  unfold relocateVoxel
  simp only [hov, hc0, hn]
  exact ⟨trivial, relocate_exact segments occ o tk n hex ho hfree⟩

theorem resolveTarget_exact (M : MathFns F) (iter : Nat) (st : List (Segment F) × Occ × Bool)
    (tk : Int × Int)
    (h : OccExact st.1 st.2.1 ∧ (filledCells st.1).length ≤ 168 ∧ st.2.2 = true) :
    OccExact (resolveTarget M iter st tk).1 (resolveTarget M iter st tk).2.1 ∧
    (filledCells (resolveTarget M iter st tk).1).length ≤ 168 ∧
    (resolveTarget M iter st tk).2.2 = true := by
  unfold resolveTarget
  split
  · exact h
  · rename_i o ho
    by_cases ho0 : o.1 = 0
    · rw [if_pos ho0]; exact h
    · rw [if_neg ho0]
      obtain ⟨h1, h2⟩ := relocateVoxel_exact st.1 st.2.1 o tk h.1 h.2.1 ho
      simp only [h1, if_true]
      refine ⟨h2, ?_, h.2.2⟩
      rw [filledCells_length_congr _ _ (relocateVoxel_topology st.1 st.2.1 o.1 o.2)]
      exact h.2.1

/-- With pairwise distinct cells of at most 168 filled voxels, the resolution loop ends after
one pass with an exact map. -/
theorem resolveLoop_exact (M : MathFns F) (targets : List (Int × Int)) (fuel : Nat)
    (segments : List (Segment F)) (occ : Occ) (hnd : (filledCells segments).Nodup)
    (hcount : (filledCells segments).length ≤ 168) :
    OccExact (resolveLoop M targets (fuel + 1) 0 segments occ).1
      (resolveLoop M targets (fuel + 1) 0 segments occ).2 := by
  have hpass := foldl_inv
    (fun st : List (Segment F) × Occ × Bool =>
      OccExact st.1 st.2.1 ∧ (filledCells st.1).length ≤ 168 ∧ st.2.2 = true)
    (resolveTarget M 0) (fun st tk h => resolveTarget_exact M 0 st tk h)
    targets (segments, buildOcc segments, true) ⟨buildOcc_exact segments hnd, hcount, rfl⟩
  unfold resolveLoop
  simp only [hpass.2.2, if_true]
  exact hpass.1

theorem filledCells_clearMoved (segments : List (Segment F)) :
    filledCells (clearMoved segments) = filledCells segments := by
  unfold filledCells clearMoved
  rw [List.flatMap_map]

/-- When the hypothetical offset `(a, b)` collides with nothing, the head displaced by it
shares no cell with another segment. -/
theorem applyHead_no_overlap (M : MathFns F) (segs : List (Segment F)) (a b : F)
    (hcol : wouldCollide segs a b = false)
    (h s : Segment F) (j : Nat) (hv ov : Voxel F)
    (hh : (updateAt segs 0 fun head => applyHead M head a b)[0]? = some h)
    (hs : (updateAt segs 0 fun head => applyHead M head a b)[j]? = some s) (hj : j ≠ 0)
    (hhv : hv ∈ h.voxels) (hfv : hv.filled = true) (hov : ov ∈ s.voxels)
    (hfo : ov.filled = true) : hv.cell ≠ ov.cell := by
  intro heq
  rw [updateAt_getElem?, if_pos rfl] at hh
  rw [updateAt_getElem?, if_neg hj] at hs
  cases hseg : segs[0]? with
  | none => rw [hseg] at hh; simp at hh
  | some h0 =>
    rw [hseg] at hh
    have hh := Option.some.inj hh
    subst hh
    simp only [applyHead, List.mem_map] at hhv
    obtain ⟨hv0, hm0, rfl⟩ := hhv
    have hcol' : ¬ (wouldCollide segs a b = true) := by rw [hcol]; simp
    apply hcol'
    rw [wouldCollide_iff]
    have hgd : segs.getD 0 default = h0 := by simp [List.getD_eq_getElem?_getD, hseg]
    rw [hgd]
    refine ⟨hv0, hm0, hfv, s, ?_, ov, hov, hfo, heq.symm⟩
    rw [List.mem_iff_getElem?]
    refine ⟨j - 1, ?_⟩
    rw [List.getElem?_drop]
    have : 1 + (j - 1) = j := by omega
    rw [this]
    exact hs

theorem wouldCollide_of_not_blocked (segs : List (Segment F)) (occ : Occ)
    (hex : OccExact segs occ) (dx dy : F)
    (hb : isBlocked occ (headTargets segs dx dy) = false) :
    wouldCollide segs dx dy = false := by
  by_contra hcon
  have hcon : wouldCollide segs dx dy = true := by simpa using hcon
  rw [wouldCollide_iff] at hcon
  obtain ⟨hv, hm, hf, other, hother, ov, hov, hfo, hcell⟩ := hcon
  obtain ⟨i, hi⟩ := List.mem_iff_getElem?.mp hother
  rw [List.getElem?_drop] at hi
  obtain ⟨vi, hvi⟩ := List.mem_iff_getElem?.mp hov
  have hfind := hex.1 (1 + i) vi other ov hi hvi hfo
  rw [hcell] at hfind
  unfold isBlocked at hb
  rw [List.any_eq_false] at hb
  have hmem : cellAt (hv.wx + dx) (hv.wy + dy) ∈ headTargets segs dx dy := by
    unfold headTargets
    rw [List.mem_map]
    exact ⟨hv, List.mem_filter.mpr ⟨hm, hf⟩, rfl⟩
  have := hb _ hmem
  rw [hfind] at this
  simp at this

theorem wouldCollide_zero_of_exact (segs : List (Segment F)) (occ : Occ)
    (hex : OccExact segs occ) : wouldCollide segs 0 0 = false := by
  by_contra hcon
  have hcon : wouldCollide segs 0 0 = true := by simpa using hcon
  rw [wouldCollide_iff] at hcon
  obtain ⟨hv, hm, hf, other, hother, ov, hov, hfo, hcell⟩ := hcon
  obtain ⟨i, hi⟩ := List.mem_iff_getElem?.mp hother
  rw [List.getElem?_drop] at hi
  obtain ⟨vi, hvi⟩ := List.mem_iff_getElem?.mp hov
  have hfind := hex.1 (1 + i) vi other ov hi hvi hfo
  cases hseg : segs[0]? with
  | none =>
    have : segs.getD 0 default = default := by simp [List.getD_eq_getElem?_getD, hseg]
    rw [this] at hm
    exact absurd hm (List.not_mem_nil _)
  | some h0 =>
    have : segs.getD 0 default = h0 := by simp [List.getD_eq_getElem?_getD, hseg]
    rw [this] at hm
    obtain ⟨vi0, hvi0⟩ := List.mem_iff_getElem?.mp hm
    have hfind0 := hex.1 0 vi0 h0 hv hseg hvi0 hf
    rw [add_zero, add_zero] at hcell
    rw [hcell] at hfind
    have hh : hv.cell = cellAt hv.wx hv.wy := rfl
    rw [hh, hfind] at hfind0
    have := congrArg Prod.fst (Option.some.inj hfind0)
    simp at this

/-- C13. In `moveBy(dx, dy)` on a body with at most 168 filled voxels whose filled voxels sit
on pairwise distinct rounded cells, and when the boundary check returns the delta it
received, the segments that enter the chain loop (collision resolution done, head displaced)
have no filled head voxel on the rounded cell of a filled voxel of another segment; the delta
applied is one of `(dx, dy)`, `(dx, 0)`, `(0, dy)`, `(0, 0)`. -/
theorem head_cells_disjoint (M : MathFns F) (segments : List (Segment F)) (dx dy : F)
    (hcount : (filledCells segments).length ≤ 168)
    (hnd : (filledCells segments).Nodup)
    (hclamp : (resolveMove M segments dx dy).2 = preClampDelta M segments dx dy) :
    (preClampDelta M segments dx dy = (dx, dy) ∨ preClampDelta M segments dx dy = (dx, 0) ∨
      preClampDelta M segments dx dy = (0, dy) ∨ preClampDelta M segments dx dy = (0, 0)) ∧
    ∀ (h s : Segment F) (j : Nat) (hv ov : Voxel F),
      (chainEntry M segments dx dy)[0]? = some h →
      (chainEntry M segments dx dy)[j]? = some s → j ≠ 0 →
      hv ∈ h.voxels → hv.filled = true → ov ∈ s.voxels → ov.filled = true →
      hv.cell ≠ ov.cell := by
  have h0 : (0.0 : F) = 0 := by norm_num
  have hex : OccExact (resolved M segments dx dy).1 (resolved M segments dx dy).2 :=
    resolveLoop_exact M (headTargets (clearMoved segments) dx dy) 4 (clearMoved segments)
      (buildOcc (clearMoved segments)) (by rw [filledCells_clearMoved]; exact hnd)
      (by rw [filledCells_clearMoved]; exact hcount)
  have hhead : (resolved M segments dx dy).1[0]? = (clearMoved segments)[0]? :=
    (resolveLoop_frame M (headTargets (clearMoved segments) dx dy) 5 0 (clearMoved segments)
      (buildOcc (clearMoved segments))).2
  have htargets : headTargets (clearMoved segments) dx dy =
      headTargets (resolved M segments dx dy).1 dx dy := by
    unfold headTargets
    rw [List.getD_eq_getElem?_getD, List.getD_eq_getElem?_getD, hhead]
  have hd : (preClampDelta M segments dx dy = (dx, dy) ∨
      preClampDelta M segments dx dy = (dx, 0) ∨
      preClampDelta M segments dx dy = (0, dy) ∨ preClampDelta M segments dx dy = (0, 0)) ∧
      wouldCollide (resolved M segments dx dy).1 (preClampDelta M segments dx dy).1
        (preClampDelta M segments dx dy).2 = false := by
    unfold preClampDelta chooseDelta
    simp only [h0]
    by_cases hb : moveBlocked M segments dx dy = true
    · simp only [hb, Bool.not_true, Bool.false_eq_true, if_false]
      by_cases hx : wouldCollide (resolved M segments dx dy).1 dx 0 = true
      · simp only [hx, Bool.not_true, Bool.false_eq_true, if_false]
        by_cases hy : wouldCollide (resolved M segments dx dy).1 0 dy = true
        · simp only [hy, Bool.not_true, Bool.false_eq_true, if_false]
          exact ⟨Or.inr (Or.inr (Or.inr trivial)), wouldCollide_zero_of_exact _ _ hex⟩
        · have hy : wouldCollide (resolved M segments dx dy).1 0 dy = false := by
            simpa using hy
          simp only [hy, Bool.not_false, if_true]
          exact ⟨Or.inr (Or.inr (Or.inl trivial)), trivial⟩
      · have hx : wouldCollide (resolved M segments dx dy).1 dx 0 = false := by simpa using hx
        simp only [hx, Bool.not_false, if_true]
        exact ⟨Or.inr (Or.inl trivial), trivial⟩
    · have hb : moveBlocked M segments dx dy = false := by simpa using hb
      simp only [hb, Bool.not_false, if_true]
      refine ⟨Or.inl trivial, wouldCollide_of_not_blocked _ _ hex dx dy ?_⟩
      rw [← htargets]
      exact hb
  refine ⟨hd.1, ?_⟩
  intro h s j hv ov hh hs hj hhv hfv hov hfo
  have hce : chainEntry M segments dx dy =
      updateAt (resolved M segments dx dy).1 0 fun head =>
        applyHead M head (preClampDelta M segments dx dy).1
          (preClampDelta M segments dx dy).2 := by
    rw [← hclamp]
    rfl
  rw [hce] at hh hs
  exact applyHead_no_overlap M _ _ _ hd.2 h s j hv ov hh hs hj hhv hfv hov hfo

/-- A run of C13: `moveBy(-3, 0)` on `Centipede(40, 10, 3)`, whose head targets are the five
cells of the second segment. -/
theorem head_cells_disjoint_witness :
    ((filledCells (Centipede.create 40 10 3 : Centipede ℚ).segments).length ≤ 168 ∧
      (filledCells (Centipede.create 40 10 3 : Centipede ℚ).segments).Nodup ∧
      (resolveMove ratFns (Centipede.create 40 10 3 : Centipede ℚ).segments (-3) 0).2 =
        preClampDelta ratFns (Centipede.create 40 10 3 : Centipede ℚ).segments (-3) 0) ∧
    ∀ (h s : Segment ℚ) (j : Nat) (hv ov : Voxel ℚ),
      (chainEntry ratFns (Centipede.create 40 10 3 : Centipede ℚ).segments (-3) 0)[0]? =
        some h →
      (chainEntry ratFns (Centipede.create 40 10 3 : Centipede ℚ).segments (-3) 0)[j]? =
        some s → j ≠ 0 →
      hv ∈ h.voxels → hv.filled = true → ov ∈ s.voxels → ov.filled = true →
      hv.cell ≠ ov.cell :=
  ⟨⟨by decide!, by decide!, by decide!⟩,
    (head_cells_disjoint ratFns (Centipede.create 40 10 3 : Centipede ℚ).segments (-3) 0
      (by decide!) (by decide!) (by decide!)).2⟩

/-! ### Projection and camera -/

/-- C25. `screenToGrid` is the inverse of the ground-level projection: for every tile size
`resf != 0`, window width and camera offset, `screenToGrid(gridToIso(gx, gy)) = (gx, gy)` for
all `gx, gy` and `gridToIso(screenToGrid(sx, sy)) = (sx, sy)` for all `sx, sy`. -/
theorem screenToGrid_inverse (resf : F) (winW : Nat) (camOffX camOffY : F) (hres : resf ≠ 0) :
    (∀ gx gy : F,
      screenToGrid (gridToIso gx gy resf winW camOffX camOffY).1
        (gridToIso gx gy resf winW camOffX camOffY).2 resf winW camOffX camOffY = (gx, gy)) ∧
    (∀ sx sy : F,
      gridToIso (screenToGrid sx sy resf winW camOffX camOffY).1
        (screenToGrid sx sy resf winW camOffX camOffY).2 resf winW camOffX camOffY =
        (sx, sy)) := by
  constructor
  · intro gx gy
    unfold screenToGrid gridToIso gridToIsoZ
    simp only [Prod.mk.injEq]
    constructor
    · field_simp
      ring
    · field_simp
      ring
  · intro sx sy
    unfold screenToGrid gridToIso gridToIsoZ
    simp only [Prod.mk.injEq]
    constructor
    · field_simp
      ring
    · field_simp
      ring

/-- A run of C25: the game's tile size `10` in its 800-pixel window. -/
theorem screenToGrid_inverse_witness :
    (10 : ℚ) ≠ 0 ∧
    screenToGrid (gridToIso (3 : ℚ) 7 10 800 0 0).1 (gridToIso (3 : ℚ) 7 10 800 0 0).2
      10 800 0 0 = (3, 7) ∧
    gridToIso (screenToGrid (123 : ℚ) 456 10 800 0 0).1
      (screenToGrid (123 : ℚ) 456 10 800 0 0).2 10 800 0 0 = (123, 456) :=
  ⟨by norm_num, (screenToGrid_inverse (10 : ℚ) 800 0 0 (by norm_num)).1 3 7,
    (screenToGrid_inverse (10 : ℚ) 800 0 0 (by norm_num)).2 123 456⟩

theorem wheel_zoom_range (delta : F) (mpos : Int × Int) (winW : Nat) (c : Camera F) :
    0.2 ≤ (handleCameraEvent (CamEvent.wheelScrolled true delta) mpos winW c).zoom ∧
    (handleCameraEvent (CamEvent.wheelScrolled true delta) mpos winW c).zoom ≤ 4.0 := by
  have key : ∀ z : F,
      0.2 ≤ (if (if z < 0.2 then (0.2 : F) else z) > 4.0 then (4.0 : F)
        else (if z < 0.2 then (0.2 : F) else z)) ∧
      (if (if z < 0.2 then (0.2 : F) else z) > 4.0 then (4.0 : F)
        else (if z < 0.2 then (0.2 : F) else z)) ≤ 4.0 := by
    intro z
    by_cases h1 : z < 0.2
    · rw [if_pos h1, if_neg (by norm_num)]
      constructor <;> norm_num
    · rw [if_neg h1]
      by_cases h2 : z > 4.0
      · rw [if_pos h2]
        constructor <;> norm_num
      · rw [if_neg h2]
        exact ⟨not_lt.mp h1, not_lt.mp h2⟩
  simp only [handleCameraEvent, if_true]
  exact key _

/-- The anchoring of the wheel zoom holds for any tile base `res != 0` of the caller. -/
theorem wheel_zoom_anchor_any_res (res delta : F) (mpos : Int × Int) (winW : Nat)
    (c : Camera F) (hres : res ≠ 0) (hz : c.zoom ≠ 0) :
    gridToIso
      (screenToGrid (mpos.1 : F) (mpos.2 : F) (res * c.zoom) winW c.camOffX c.camOffY).1
      (screenToGrid (mpos.1 : F) (mpos.2 : F) (res * c.zoom) winW c.camOffX c.camOffY).2
      (res * (handleCameraEvent (CamEvent.wheelScrolled true delta) mpos winW c).zoom) winW
      (handleCameraEvent (CamEvent.wheelScrolled true delta) mpos winW c).camOffX
      (handleCameraEvent (CamEvent.wheelScrolled true delta) mpos winW c).camOffY =
      ((mpos.1 : F), (mpos.2 : F)) := by
  simp only [handleCameraEvent, if_true]
  generalize (if (if (if delta > 0 then c.zoom * 1.05
    else if delta < 0 then c.zoom / 1.05 else c.zoom) < 0.2 then (0.2 : F)
    else (if delta > 0 then c.zoom * 1.05
      else if delta < 0 then c.zoom / 1.05 else c.zoom)) > 4.0 then (4.0 : F)
    else (if (if delta > 0 then c.zoom * 1.05
      else if delta < 0 then c.zoom / 1.05 else c.zoom) < 0.2 then (0.2 : F)
      else (if delta > 0 then c.zoom * 1.05
        else if delta < 0 then c.zoom / 1.05 else c.zoom))) = z1
  unfold screenToGrid gridToIso gridToIsoZ
  simp only [Prod.mk.injEq]
  constructor
  · field_simp
    ring
  · field_simp
    ring

/-- C26. Wheel zoom is anchored at the cursor: after `handleCameraEvent` processes a
vertical mouse-wheel event, started with a zoom other than 0, the zoom lies in `[0.2, 4.0]`,
and the grid point under the cursor before the event, computed as the caller `Game` does with
`resf = res * zoom` and `res = 10`, projects under `gridToIso` with the new zoom and the new
camera offsets to the cursor position. -/
theorem wheel_zoom_anchored (delta : F) (mpos : Int × Int) (winW : Nat) (c : Camera F)
    (hz : c.zoom ≠ 0) :
    0.2 ≤ (handleCameraEvent (CamEvent.wheelScrolled true delta) mpos winW c).zoom ∧
    (handleCameraEvent (CamEvent.wheelScrolled true delta) mpos winW c).zoom ≤ 4.0 ∧
    gridToIso
      (screenToGrid (mpos.1 : F) (mpos.2 : F) ((Game.res : F) * c.zoom) winW
        c.camOffX c.camOffY).1
      (screenToGrid (mpos.1 : F) (mpos.2 : F) ((Game.res : F) * c.zoom) winW
        c.camOffX c.camOffY).2
      ((Game.res : F) * (handleCameraEvent (CamEvent.wheelScrolled true delta) mpos winW c).zoom)
      winW
      (handleCameraEvent (CamEvent.wheelScrolled true delta) mpos winW c).camOffX
      (handleCameraEvent (CamEvent.wheelScrolled true delta) mpos winW c).camOffY =
      ((mpos.1 : F), (mpos.2 : F)) := by
  have hres : ((Game.res : Int) : F) ≠ 0 := by
    unfold Game.res
    norm_num
  exact ⟨(wheel_zoom_range delta mpos winW c).1, (wheel_zoom_range delta mpos winW c).2,
    wheel_zoom_anchor_any_res _ delta mpos winW c hres hz⟩

/-- A run of C26: one wheel notch up at the cursor `(300, 200)` of the 800-pixel window, from
the initial zoom 1 and camera offset 0. -/
theorem wheel_zoom_anchored_witness :
    (1 : ℚ) ≠ 0 ∧
    (handleCameraEvent (CamEvent.wheelScrolled true (1 : ℚ)) (300, 200) 800
      ⟨1, false, (0, 0), 0, 0⟩).zoom = 1.05 ∧
    gridToIso
      (screenToGrid (300 : ℚ) 200 (10 * 1) 800 0 0).1
      (screenToGrid (300 : ℚ) 200 (10 * 1) 800 0 0).2
      (10 * (handleCameraEvent (CamEvent.wheelScrolled true (1 : ℚ)) (300, 200) 800
        ⟨1, false, (0, 0), 0, 0⟩).zoom) 800
      (handleCameraEvent (CamEvent.wheelScrolled true (1 : ℚ)) (300, 200) 800
        ⟨1, false, (0, 0), 0, 0⟩).camOffX
      (handleCameraEvent (CamEvent.wheelScrolled true (1 : ℚ)) (300, 200) 800
        ⟨1, false, (0, 0), 0, 0⟩).camOffY = (300, 200) :=
  ⟨by norm_num, by decide!,
    (wheel_zoom_anchored (1 : ℚ) (300, 200) 800 ⟨1, false, (0, 0), 0, 0⟩ (by norm_num)).2.2⟩

/-! ### Render position -/

theorem deOverlapFrom_pos : ∀ (segs : List (Segment F)) (si : Nat) (occ : Occ),
    (deOverlapFrom si segs occ).1.map (fun s => (s.x, s.y, s.px, s.py)) =
      segs.map (fun s => (s.x, s.y, s.px, s.py))
  | [], _, _ => rfl
  | seg :: segs, si, occ => by
    simp only [deOverlapFrom, List.map_cons]
    rw [deOverlapFrom_pos segs]

/-- What `update` does to the logical and render positions: `x`, `y` are kept and `px`, `py`
move the fraction `followSpeed` of the way to them. -/
theorem update_positions (M : MathFns F) (c : Centipede F) :
    (Centipede.update M c).segments.map (fun s => (s.x, s.y, s.px, s.py)) =
      c.segments.map (fun s =>
        (s.x, s.y, s.px + (s.x - s.px) * followSpeed, s.py + (s.y - s.py) * followSpeed)) := by
  unfold Centipede.update
  simp only
  rw [deOverlapFrom_pos, List.map_map]
  unfold ikPass
  rw [enum_map_congr_snd _ _ _
    (fun s => (s.x, s.y, s.px + (s.x - s.px) * followSpeed, s.py + (s.y - s.py) * followSpeed))
    (fun p => rfl)]
  unfold gait.updateGait
  rw [enum_map_congr_snd _ _ _
    (fun s => (s.x, s.y, s.px + (s.x - s.px) * followSpeed, s.py + (s.y - s.py) * followSpeed))
    (fun p => rfl)]

/-- C29. In every state reachable from the constructor by `moveBy`, `tryMove` and `update`
calls, every segment has `px = x` and `py = y`, so the follow-speed step of `update`
(`px += (x - px) * followSpeed`, likewise `py`) adds zero. -/
theorem render_pos_eq_logical (M : MathFns F) (c : Centipede F) (hr : Reachable M c) :
    ∀ seg ∈ c.segments,
      seg.px = seg.x ∧ seg.py = seg.y ∧
      (seg.x - seg.px) * followSpeed = 0 ∧ (seg.y - seg.py) * followSpeed = 0 ∧
      (relaxSegment seg).px = seg.px ∧ (relaxSegment seg).py = seg.py := by
  have fin : ∀ seg : Segment F, seg.px = seg.x ∧ seg.py = seg.y →
      seg.px = seg.x ∧ seg.py = seg.y ∧
      (seg.x - seg.px) * followSpeed = 0 ∧ (seg.y - seg.py) * followSpeed = 0 ∧
      (relaxSegment seg).px = seg.px ∧ (relaxSegment seg).py = seg.py := by
    intro seg h
    refine ⟨h.1, h.2, ?_, ?_, ?_, ?_⟩
    · rw [h.1]; simp
    · rw [h.2]; simp
    · simp only [relaxSegment]; rw [h.1]; simp
    · simp only [relaxSegment]; rw [h.2]; simp
  suffices hinv : ∀ seg ∈ c.segments, seg.px = seg.x ∧ seg.py = seg.y from
    fun seg hseg => fin seg (hinv seg hseg)
  have hmove : ∀ (c : Centipede F) (dx dy : F),
      (∀ seg ∈ c.segments, seg.px = seg.x ∧ seg.py = seg.y) →
      ∀ seg ∈ (Centipede.moveBy M c dx dy).segments, seg.px = seg.x ∧ seg.py = seg.y := by
    intro c dx dy ih
    unfold Centipede.moveBy
    by_cases he : c.segments.isEmpty = true
    · rw [if_pos he]; exact ih
    · rw [if_neg he]
      intro seg hseg
      simp only [List.mem_map] at hseg
      obtain ⟨s, _, rfl⟩ := hseg
      exact ⟨rfl, rfl⟩
  induction hr with
  | create startX startY length =>
    intro seg hseg
    simp only [Centipede.create, List.mem_map, List.mem_range] at hseg
    obtain ⟨i, _, rfl⟩ := hseg
    exact ⟨rfl, rfl⟩
  | tryMove c dx dy _ ih =>
    unfold Centipede.tryMove Centipede.tryMoveTraced
    simp only
    by_cases hc : c.moveCounter + 1 < moveDelay
    · rw [if_pos hc]; exact ih
    · rw [if_neg hc]
      exact hmove { c with moveCounter := 0 } _ _ ih
  | moveBy c dx dy _ ih => exact hmove c dx dy ih
  | update c _ ih =>
    intro seg hseg
    have hm : (seg.x, seg.y, seg.px, seg.py) ∈
        (Centipede.update M c).segments.map (fun s => (s.x, s.y, s.px, s.py)) :=
      List.mem_map_of_mem _ hseg
    rw [update_positions, List.mem_map] at hm
    obtain ⟨s, hs, he⟩ := hm
    simp only [Prod.mk.injEq] at he
    obtain ⟨h1, h2, h3, h4⟩ := he
    have := ih s hs
    rw [← h3, ← h4, ← h1, ← h2, this.1, this.2]
    simp

/-- A run of C29: the second segment of `Centipede(40, 10, 2)` after one throttled request
pair and one tick. -/
theorem render_pos_eq_logical_witness :
    Reachable ratFns (Centipede.update ratFns (Centipede.tryMove ratFns
      (Centipede.tryMove ratFns (Centipede.create 40 10 2) 1 0) 1 0)) ∧
    (Centipede.update ratFns (Centipede.tryMove ratFns
      (Centipede.tryMove ratFns (Centipede.create 40 10 2) 1 0) 1 0)).segments.getD 1 default ∈
      (Centipede.update ratFns (Centipede.tryMove ratFns
        (Centipede.tryMove ratFns (Centipede.create 40 10 2) 1 0) 1 0)).segments ∧
    ((Centipede.update ratFns (Centipede.tryMove ratFns
      (Centipede.tryMove ratFns (Centipede.create 40 10 2) 1 0) 1 0)).segments.getD 1
        default).px =
      ((Centipede.update ratFns (Centipede.tryMove ratFns
        (Centipede.tryMove ratFns (Centipede.create 40 10 2) 1 0) 1 0)).segments.getD 1
          default).x :=
  ⟨Reachable.update _ (Reachable.tryMove _ 1 0 (Reachable.tryMove _ 1 0
      (Reachable.create 40 10 2))),
    by decide!,
    (render_pos_eq_logical ratFns _
      (Reachable.update _ (Reachable.tryMove _ 1 0 (Reachable.tryMove _ 1 0
        (Reachable.create 40 10 2))))
      ((Centipede.update ratFns (Centipede.tryMove ratFns
        (Centipede.tryMove ratFns (Centipede.create 40 10 2) 1 0) 1 0)).segments.getD 1 default)
      (by decide!)).1⟩

/-! ### Constructed voxel grid -/

theorem cellAt_intCast_add (a b c d : Int) :
    cellAt ((a : F) + (b : F)) ((c : F) + (d : F)) = (a + b, c + d) := by
  rw [← Int.cast_add, ← Int.cast_add]
  exact cellAt_intCast (a + b, c + d)

theorem mkSegment_voxels (startX startY : Int) (i : Nat) :
    (mkSegment startX startY i : Segment F).voxels =
      [mkVoxel ((startX - (i : Int) * 3 : Int) : F) (startY : F) 3 3 0 0,
       mkVoxel ((startX - (i : Int) * 3 : Int) : F) (startY : F) 3 3 1 0,
       mkVoxel ((startX - (i : Int) * 3 : Int) : F) (startY : F) 3 3 2 0,
       mkVoxel ((startX - (i : Int) * 3 : Int) : F) (startY : F) 3 3 0 1,
       mkVoxel ((startX - (i : Int) * 3 : Int) : F) (startY : F) 3 3 1 1,
       mkVoxel ((startX - (i : Int) * 3 : Int) : F) (startY : F) 3 3 2 1,
       mkVoxel ((startX - (i : Int) * 3 : Int) : F) (startY : F) 3 3 0 2,
       mkVoxel ((startX - (i : Int) * 3 : Int) : F) (startY : F) 3 3 1 2,
       mkVoxel ((startX - (i : Int) * 3 : Int) : F) (startY : F) 3 3 2 2] := rfl

theorem mkVoxel_cell (a b : Int) (xx yy : Int) :
    (mkVoxel (a : F) (b : F) 3 3 xx yy).cell = (a + xx, b + yy) :=
  cellAt_intCast_add a xx b yy

theorem mkSegment_filled_voxels (startX startY : Int) (i : Nat) :
    ((mkSegment startX startY i : Segment F).voxels.filter fun v => v.filled) =
      [mkVoxel ((startX - (i : Int) * 3 : Int) : F) (startY : F) 3 3 1 0,
       mkVoxel ((startX - (i : Int) * 3 : Int) : F) (startY : F) 3 3 0 1,
       mkVoxel ((startX - (i : Int) * 3 : Int) : F) (startY : F) 3 3 1 1,
       mkVoxel ((startX - (i : Int) * 3 : Int) : F) (startY : F) 3 3 2 1,
       mkVoxel ((startX - (i : Int) * 3 : Int) : F) (startY : F) 3 3 1 2] := rfl

theorem mkSegment_cells (startX startY : Int) (i : Nat) :
    ((mkSegment startX startY i : Segment F).voxels.filter fun v => v.filled).map Voxel.cell =
      [(startX - (i : Int) * 3 + 1, startY + 0), (startX - (i : Int) * 3 + 0, startY + 1),
       (startX - (i : Int) * 3 + 1, startY + 1), (startX - (i : Int) * 3 + 2, startY + 1),
       (startX - (i : Int) * 3 + 1, startY + 2)] := by
  rw [mkSegment_filled_voxels]
  simp only [List.map_cons, List.map_nil, mkVoxel_cell]

theorem create_cells_nodup (startX startY length : Int) :
    (filledCells (Centipede.create startX startY length : Centipede F).segments).Nodup := by
  unfold Centipede.create filledCells
  simp only
  rw [List.flatMap_map]
  simp only [mkSegment_cells]
  rw [List.nodup_flatMap]
  constructor
  · intro i _
    simp only [List.nodup_cons, List.mem_cons, List.mem_singleton, Prod.mk.injEq,
      List.not_mem_nil, List.nodup_nil, not_or, not_and, not_false_eq_true, and_true]
    omega
  · refine (List.pairwise_lt_range _).imp ?_
    intro i j hij
    simp only [Function.onFun, List.disjoint_left, List.mem_cons, List.mem_singleton,
      List.not_mem_nil, or_false]
    intro c hc hc2
    rcases hc with rfl | rfl | rfl | rfl | rfl <;>
      rcases hc2 with h | h | h | h | h <;>
      simp only [Prod.mk.injEq] at h <;> omega

/-- C30. Right after construction every segment has a 3 x 3 voxel grid, with rest offsets
`(xx, yy)` in row order, of which exactly the five of the plus shape `(1,0)`, `(0,1)`, `(1,1)`,
`(2,1)`, `(1,2)` are filled; every voxel sits at segment position plus rest offset with zero
velocity; and the rounded cells of the filled voxels of the whole creature are pairwise
distinct. -/
theorem create_voxel_grid (startX startY length : Int) :
    (∀ seg ∈ (Centipede.create startX startY length : Centipede F).segments,
      seg.voxW = 3 ∧ seg.voxH = 3 ∧
      seg.voxels.map (fun v => (v.baseOx, v.baseOy)) =
        [(0, 0), (1, 0), (2, 0), (0, 1), (1, 1), (2, 1), (0, 2), (1, 2), (2, 2)] ∧
      (seg.voxels.filter fun v => v.filled).map (fun v => (v.baseOx, v.baseOy)) =
        [(1, 0), (0, 1), (1, 1), (2, 1), (1, 2)] ∧
      ∀ v ∈ seg.voxels,
        v.wx = seg.x + v.baseOx ∧ v.wy = seg.y + v.baseOy ∧ v.vx = 0 ∧ v.vy = 0) ∧
    (filledCells (Centipede.create startX startY length : Centipede F).segments).Nodup := by
  refine ⟨?_, create_cells_nodup startX startY length⟩
  intro seg hseg
  simp only [Centipede.create, List.mem_map, List.mem_range] at hseg
  obtain ⟨i, _, rfl⟩ := hseg
  refine ⟨rfl, rfl, ?_, ?_, ?_⟩
  · rw [mkSegment_voxels]
    simp [mkVoxel]
  · rw [mkSegment_filled_voxels]
    simp [mkVoxel]
  · intro v hv
    rw [mkSegment_voxels] at hv
    simp only [List.mem_cons, List.mem_singleton, List.not_mem_nil, or_false] at hv
    have h0 : (0.0 : F) = 0 := by norm_num
    rcases hv with rfl | rfl | rfl | rfl | rfl | rfl | rfl | rfl | rfl <;>
      exact ⟨rfl, rfl, h0, h0⟩

/-! ### Frozen chain -/

/-- When the head did not move, the chain loop only clears `moved` flags. -/
theorem chainLoop_frozen (M : MathFns F) (prev : List (F × F)) (entry : List (Segment F))
    (h0 : (entry.getD 0 default).moved = false) : ∀ (k j : Nat),
    (chainLoop M prev entry k)[j]? =
      if 1 ≤ j ∧ j ≤ k then entry[j]?.map (fun s => { s with moved := false }) else entry[j]?
  | 0, j => by
    rw [if_neg (by omega)]
    rfl
  | k + 1, j => by
    have ih := chainLoop_frozen M prev entry h0 k
    have hk : ((chainLoop M prev entry k).getD k default).moved = false := by
      rw [List.getD_eq_getElem?_getD, ih k]
      by_cases hk0 : 1 ≤ k ∧ k ≤ k
      · rw [if_pos hk0]
        cases entry[k]? with
        | none => rfl
        | some s => rfl
      · rw [if_neg hk0]
        have : k = 0 := by omega
        subst this
        rw [← List.getD_eq_getElem?_getD]
        exact h0
    rw [chainLoop_succ]
    unfold chainStep
    simp only [Nat.add_sub_cancel, hk, Bool.not_false, if_true]
    rw [updateAt_getElem?, ih j]
    by_cases hj : j = k + 1
    · subst hj
      rw [if_pos rfl, if_neg (by omega), if_pos (by omega)]
    · rw [if_neg hj]
      by_cases hjk : 1 ≤ j ∧ j ≤ k
      · rw [if_pos hjk, if_pos (by omega)]
      · rw [if_neg hjk, if_neg (by omega)]

/-- C22. In `moveBy` on a non-empty body, if both components of the delta finally applied to
the head are at most `1e-6` in absolute value, then every segment `i >= 1` returns with the
logical position, heading and voxels it had after collision resolution, every segment's
`moved` flag is false on return, and the recorded last movement direction is `(0, 0)`. -/
theorem zero_delta_freezes_chain (M : MathFns F) (c : Centipede F) (dx dy : F)
    (hne : c.segments ≠ [])
    (h1 : |(resolveMove M c.segments dx dy).2.1| ≤ 1e-6)
    (h2 : |(resolveMove M c.segments dx dy).2.2| ≤ 1e-6) :
    (∀ (i : Nat) (s : Segment F), 1 ≤ i → (resolveMove M c.segments dx dy).1[i]? = some s →
      ∃ s' : Segment F, (Centipede.moveBy M c dx dy).segments[i]? = some s' ∧
        s'.x = s.x ∧ s'.y = s.y ∧ s'.angle = s.angle ∧ s'.voxels = s.voxels) ∧
    (∀ s' ∈ (Centipede.moveBy M c dx dy).segments, s'.moved = false) ∧
    (Centipede.moveBy M c dx dy).lastMoveDx = 0 ∧
    (Centipede.moveBy M c dx dy).lastMoveDy = 0 := by
  have hemp : c.segments.isEmpty = false := by
    cases hc : c.segments with
    | nil => exact absurd hc hne
    | cons a l => rfl
  have hz : (0.0 : F) = 0 := by norm_num
  have hmv : decide (|(resolveMove M c.segments dx dy).2.1| > 1e-6 ∨
      |(resolveMove M c.segments dx dy).2.2| > 1e-6) = false := by
    rw [decide_eq_false_iff_not]
    rintro (h | h)
    · exact absurd h1 (not_le.mpr h)
    · exact absurd h2 (not_le.mpr h)
  have hentry0 : (chainEntry M c.segments dx dy)[0]? =
      (resolveMove M c.segments dx dy).1[0]?.map fun head =>
        applyHead M head (resolveMove M c.segments dx dy).2.1
          (resolveMove M c.segments dx dy).2.2 := by
    unfold chainEntry
    simp only
    rw [updateAt_getElem?, if_pos rfl]
  have hentry : ∀ j : Nat, j ≠ 0 →
      (chainEntry M c.segments dx dy)[j]? = (resolveMove M c.segments dx dy).1[j]? := by
    intro j hj
    unfold chainEntry
    simp only
    rw [updateAt_getElem?, if_neg hj]
  have hhead : ((chainEntry M c.segments dx dy).getD 0 default).moved = false := by
    rw [List.getD_eq_getElem?_getD, hentry0]
    cases (resolveMove M c.segments dx dy).1[0]? with
    | none => rfl
    | some head =>
      simp only [Option.map_some', Option.getD_some, applyHead]
      exact hmv
  have hfin : ∀ j : Nat, (Centipede.moveBy M c dx dy).segments[j]? =
      ((chainLoop M (prevPositions c.segments) (chainEntry M c.segments dx dy)
        ((chainEntry M c.segments dx dy).length - 1))[j]?).map
        fun s => { s with px := s.x, py := s.y } := by
    intro j
    unfold Centipede.moveBy
    rw [hemp]
    simp only [Bool.false_eq_true, if_false, List.getElem?_map]
  have hlen : ∀ (j : Nat) (s : Segment F), (chainEntry M c.segments dx dy)[j]? = some s →
      j ≤ (chainEntry M c.segments dx dy).length - 1 := by
    intro j s hs
    have := (List.getElem?_eq_some_iff.mp hs).1
    omega
  refine ⟨?_, ?_, ?_, ?_⟩
  · intro i s hi hs
    have hs' : (chainEntry M c.segments dx dy)[i]? = some s := by
      rw [hentry i (by omega)]; exact hs
    rw [hfin, chainLoop_frozen M _ _ hhead, if_pos ⟨hi, hlen i s hs'⟩, hs']
    exact ⟨_, rfl, rfl, rfl, rfl, rfl⟩
  · intro s' hs'
    obtain ⟨j, hj⟩ := List.mem_iff_getElem?.mp hs'
    rw [hfin, chainLoop_frozen M _ _ hhead] at hj
    by_cases hjk : 1 ≤ j ∧ j ≤ (chainEntry M c.segments dx dy).length - 1
    · rw [if_pos hjk] at hj
      cases he : (chainEntry M c.segments dx dy)[j]? with
      | none => rw [he] at hj; simp at hj
      | some s =>
        rw [he] at hj
        simp only [Option.map_some', Option.some.injEq] at hj
        rw [← hj]
    · rw [if_neg hjk] at hj
      cases he : (chainEntry M c.segments dx dy)[j]? with
      | none => rw [he] at hj; simp at hj
      | some s =>
        have hj0 : j = 0 := by
          have := hlen j s he
          omega
        subst hj0
        rw [he] at hj
        simp only [Option.map_some', Option.some.injEq] at hj
        rw [← hj]
        have := hhead
        rw [List.getD_eq_getElem?_getD, he] at this
        exact this
  · unfold Centipede.moveBy
    rw [hemp]
    simp only [Bool.false_eq_true, if_false, hhead, hz]
  · unfold Centipede.moveBy
    rw [hemp]
    simp only [Bool.false_eq_true, if_false, hhead, hz]

/-- A run of C22: `moveBy(-3, 0)` on `Centipede(40, 10, 3)`, which is blocked on both axes. -/
theorem zero_delta_freezes_chain_witness :
    ((Centipede.create 40 10 3 : Centipede ℚ).segments ≠ [] ∧
      |(resolveMove ratFns (Centipede.create 40 10 3 : Centipede ℚ).segments (-3) 0).2.1| ≤
        1e-6 ∧
      |(resolveMove ratFns (Centipede.create 40 10 3 : Centipede ℚ).segments (-3) 0).2.2| ≤
        1e-6) ∧
    (∀ s' ∈ (Centipede.moveBy ratFns (Centipede.create 40 10 3) (-3) 0).segments,
      s'.moved = false) ∧
    (Centipede.moveBy ratFns (Centipede.create 40 10 3) (-3) 0).lastMoveDx = 0 ∧
    (Centipede.moveBy ratFns (Centipede.create 40 10 3) (-3) 0).lastMoveDy = 0 :=
  ⟨⟨by decide!, by decide!, by decide!⟩,
    (zero_delta_freezes_chain ratFns (Centipede.create 40 10 3) (-3) 0
      (by decide!) (by decide!) (by decide!)).2⟩

/-! ### Iterations of `wrapAngle` -/

theorem natCeil_sub_one (y : F) : ⌈y - 1⌉₊ = ⌈y⌉₊ - 1 := by
  by_cases h : 0 ≤ y - 1
  · have := Nat.ceil_add_one h
    rw [sub_add_cancel] at this
    omega
  · have h1 : ⌈y - 1⌉₊ = 0 := Nat.ceil_eq_zero.mpr (le_of_lt (not_le.mp h))
    have h2 : ⌈y⌉₊ ≤ 1 := Nat.ceil_le.mpr (by push_cast; linarith [not_le.mp h])
    omega

theorem wrapDown_eq_iters : ∀ (n : Nat) (a : F),
    ik.wrapDown n a = a - (ik.wrapDownIters n a : F) * (2 * PI)
  | 0, a => by simp [ik.wrapDown, ik.wrapDownIters]
  | n + 1, a => by
    have h2 : (2.0 : F) = 2 := by norm_num
    unfold ik.wrapDown ik.wrapDownIters
    by_cases h : a > PI
    · rw [if_pos h, if_pos h, wrapDown_eq_iters n, h2]
      push_cast
      ring
    · rw [if_neg h, if_neg h]
      simp

theorem wrapUp_eq_iters : ∀ (n : Nat) (a : F),
    ik.wrapUp n a = a + (ik.wrapUpIters n a : F) * (2 * PI)
  | 0, a => by simp [ik.wrapUp, ik.wrapUpIters]
  | n + 1, a => by
    have h2 : (2.0 : F) = 2 := by norm_num
    unfold ik.wrapUp ik.wrapUpIters
    by_cases h : a < -PI
    · rw [if_pos h, if_pos h, wrapUp_eq_iters n, h2]
      push_cast
      ring
    · rw [if_neg h, if_neg h]
      simp

/-- With enough fuel the first loop runs `ceil((a - PI) / (2 PI))` times. -/
theorem wrapDownIters_eq : ∀ (n : Nat) (a : F), ⌈(a - PI) / (2 * PI)⌉₊ ≤ n →
    ik.wrapDownIters n a = ⌈(a - PI) / (2 * PI)⌉₊
  | 0, a, h => by
    unfold ik.wrapDownIters
    omega
  | n + 1, a, h => by
    have h2 : (2.0 : F) = 2 := by norm_num
    have hpos : (0 : F) < 2 * PI := two_PI_pos
    unfold ik.wrapDownIters
    by_cases ha : a > PI
    · rw [if_pos ha, h2]
      have e : (a - 2 * PI - PI) / (2 * PI) = (a - PI) / (2 * PI) - 1 := by
        field_simp
        ring
      have hc : ⌈(a - 2 * PI - PI) / (2 * PI)⌉₊ = ⌈(a - PI) / (2 * PI)⌉₊ - 1 := by
        rw [e, natCeil_sub_one]
      have hp : 0 < ⌈(a - PI) / (2 * PI)⌉₊ :=
        Nat.ceil_pos.mpr (div_pos (by linarith) hpos)
      rw [wrapDownIters_eq n _ (by rw [hc]; omega), hc]
      omega
    · rw [if_neg ha]
      symm
      rw [Nat.ceil_eq_zero]
      exact div_nonpos_of_nonpos_of_nonneg (by linarith) hpos.le

/-- With enough fuel the second loop runs `ceil((-a - PI) / (2 PI))` times. -/
theorem wrapUpIters_eq : ∀ (n : Nat) (a : F), ⌈(-a - PI) / (2 * PI)⌉₊ ≤ n →
    ik.wrapUpIters n a = ⌈(-a - PI) / (2 * PI)⌉₊
  | 0, a, h => by
    unfold ik.wrapUpIters
    omega
  | n + 1, a, h => by
    have h2 : (2.0 : F) = 2 := by norm_num
    have hpos : (0 : F) < 2 * PI := two_PI_pos
    unfold ik.wrapUpIters
    by_cases ha : a < -PI
    · rw [if_pos ha, h2]
      have e : (-(a + 2 * PI) - PI) / (2 * PI) = (-a - PI) / (2 * PI) - 1 := by
        field_simp
        ring
      have hc : ⌈(-(a + 2 * PI) - PI) / (2 * PI)⌉₊ = ⌈(-a - PI) / (2 * PI)⌉₊ - 1 := by
        rw [e, natCeil_sub_one]
      have hp : 0 < ⌈(-a - PI) / (2 * PI)⌉₊ :=
        Nat.ceil_pos.mpr (div_pos (by linarith) hpos)
      rw [wrapUpIters_eq n _ (by rw [hc]; omega), hc]
      omega
    · rw [if_neg ha]
      symm
      rw [Nat.ceil_eq_zero]
      exact div_nonpos_of_nonpos_of_nonneg (by linarith) hpos.le

theorem wrapFuel_ge_down (a : F) : ⌈(a - PI) / (2 * PI)⌉₊ ≤ ik.wrapFuel a := by
  have h2 : (2.0 : F) = 2 := by norm_num
  unfold ik.wrapFuel
  rw [h2]
  apply Nat.ceil_mono
  apply div_le_div_of_nonneg_right _ two_PI_pos.le
  have := PI_pos (F := F)
  linarith [le_abs_self a]

theorem wrapFuel_ge_up (a : F) : ⌈(-a - PI) / (2 * PI)⌉₊ ≤ ik.wrapFuel a := by
  have h2 : (2.0 : F) = 2 := by norm_num
  unfold ik.wrapFuel
  rw [h2]
  apply Nat.ceil_mono
  apply div_le_div_of_nonneg_right _ two_PI_pos.le
  have := PI_pos (F := F)
  linarith [neg_abs_le a]

/-- The iteration counts of the two loops of `wrapAngle(a)`. -/
theorem wrapIters_eq (a : F) :
    ik.wrapIters a = (⌈(a - PI) / (2 * PI)⌉₊, ⌈(-a - PI) / (2 * PI)⌉₊) := by
  have hpos : (0 : F) < 2 * PI := two_PI_pos
  have hP := PI_pos (F := F)
  unfold ik.wrapIters
  simp only
  rw [wrapDownIters_eq _ a (wrapFuel_ge_down a), wrapUpIters_eq _ _ (wrapFuel_ge_up _)]
  congr 1
  rw [wrapDown_eq_iters, wrapDownIters_eq _ a (wrapFuel_ge_down a)]
  by_cases ha : a > PI
  · have h1 : ⌈(-a - PI) / (2 * PI)⌉₊ = 0 := by
      rw [Nat.ceil_eq_zero]
      exact div_nonpos_of_nonpos_of_nonneg (by linarith) hpos.le
    rw [h1, Nat.ceil_eq_zero]
    apply div_nonpos_of_nonpos_of_nonneg _ hpos.le
    have hlt := Nat.ceil_lt_add_one (div_nonneg (by linarith : (0 : F) ≤ a - PI) hpos.le)
    have : ((⌈(a - PI) / (2 * PI)⌉₊ : F)) * (2 * PI) < a - PI + 2 * PI := by
      have := mul_lt_mul_of_pos_right hlt hpos
      rw [add_mul, div_mul_cancel₀ _ hpos.ne', one_mul] at this
      exact this
    linarith
  · have h1 : ⌈(a - PI) / (2 * PI)⌉₊ = 0 := by
      rw [Nat.ceil_eq_zero]
      exact div_nonpos_of_nonpos_of_nonneg (by linarith) hpos.le
    rw [h1]
    simp

theorem abs_wrapAngle_le (a : F) : |ik.wrapAngle a| ≤ PI :=
  abs_le.mpr ⟨(wrapAngle_spec a).1, (wrapAngle_spec a).2.1⟩

theorem abs_clamp_yaw_le (x : F) :
    |clamp x (-kHipYawMaxDelta) kHipYawMaxDelta| ≤ (kHipYawMaxDelta : F) := by
  have hk : (-kHipYawMaxDelta : F) ≤ kHipYawMaxDelta := by unfold kHipYawMaxDelta; norm_num
  exact abs_le.mpr (clamp_mem x _ _ hk)

/-- Every call of `wrapAngle` in `solveLeg` has an argument of absolute value at most `3 PI`
when `yawRef` and the stored `hipAngle` are in `[-PI, PI]` and `atan2` returns values of
absolute value at most `2 PI`. -/
theorem wrapCalls_le (M : MathFns F) (leg : Leg F) (cx cy bodyZ yawRef : F)
    (hyr : |yawRef| ≤ PI) (hha : |leg.hipAngle| ≤ PI)
    (hat : ∀ y x : F, |M.atan2 y x| ≤ 2 * PI) :
    ∀ a ∈ ik.wrapCalls M leg cx cy bodyZ yawRef, |a| ≤ 3 * PI := by
  have hP := PI_pos (F := F)
  have hk : (kHipYawMaxDelta : F) ≤ 2 * PI := by unfold kHipYawMaxDelta PI; norm_num
  have hyaw : |(if (ik.reachGuard M leg cx cy bodyZ).r > 1e-6 then
      M.atan2 (ik.reachGuard M leg cx cy bodyZ).dy (ik.reachGuard M leg cx cy bodyZ).dx
      else leg.hipAngle)| ≤ 2 * PI := by
    by_cases h : (ik.reachGuard M leg cx cy bodyZ).r > 1e-6
    · rw [if_pos h]; exact hat _ _
    · rw [if_neg h]; linarith
  have tri : ∀ x y b c : F, |x| ≤ b → |y| ≤ c → b + c ≤ 3 * PI → |x + y| ≤ 3 * PI :=
    fun x y b c hx hy hbc => (abs_add x y).trans (by linarith)
  have tri' : ∀ x y b c : F, |x| ≤ b → |y| ≤ c → b + c ≤ 3 * PI → |x - y| ≤ 3 * PI :=
    fun x y b c hx hy hbc => (abs_sub x y).trans (by linarith)
  intro a ha
  unfold ik.wrapCalls at ha
  simp only [List.mem_cons, List.mem_singleton, List.not_mem_nil, or_false] at ha
  rcases ha with rfl | rfl | rfl | rfl | rfl | rfl
  · exact tri' _ _ _ _ hyaw hyr (by linarith)
  · exact tri _ _ _ _ hyr (abs_clamp_yaw_le _) (by linarith)
  · exact tri' _ _ _ _ (abs_wrapAngle_le _) hha (by linarith)
  · refine tri _ _ PI PI hha ?_ (by linarith)
    rw [abs_mul]
    have := abs_wrapAngle_le (F := F)
      ((ik.wrapAngle (yawRef + clamp (ik.wrapAngle ((if (ik.reachGuard M leg cx cy bodyZ).r > 1e-6
        then M.atan2 (ik.reachGuard M leg cx cy bodyZ).dy (ik.reachGuard M leg cx cy bodyZ).dx
        else leg.hipAngle) - yawRef)) (-kHipYawMaxDelta) kHipYawMaxDelta)) - leg.hipAngle)
    have h2 : |(0.20 : F)| = 0.20 := abs_of_pos (by norm_num)
    rw [h2]
    nlinarith [abs_nonneg (ik.wrapAngle ((ik.wrapAngle (yawRef + clamp (ik.wrapAngle
      ((if (ik.reachGuard M leg cx cy bodyZ).r > 1e-6
        then M.atan2 (ik.reachGuard M leg cx cy bodyZ).dy (ik.reachGuard M leg cx cy bodyZ).dx
        else leg.hipAngle) - yawRef)) (-kHipYawMaxDelta) kHipYawMaxDelta)) - leg.hipAngle))]
  · exact tri' _ _ _ _ (abs_wrapAngle_le _) hyr (by linarith)
  · exact tri _ _ _ _ hyr (abs_clamp_yaw_le _) (by linarith)

/-- The real `atan2` returns values of absolute value at most `2 * 3.14159265`. -/
theorem real_atan2_le (y x : ℝ) : |Complex.arg ⟨x, y⟩| ≤ 2 * (PI : ℝ) := by
  have h := Complex.abs_arg_le_pi ⟨x, y⟩
  have hpi := Real.pi_lt_d2
  unfold PI
  norm_num
  linarith

/-- Over exact arithmetic `wrapAngle` returns on every input `a`, with a value in
`[-PI, PI]` that differs from `a` by an integer multiple of `2 PI`: the first loop runs
`ceil((a - PI) / (2 PI))` times
and the second `ceil((-a - PI) / (2 PI))` times, and more fuel than `wrapFuel` changes
nothing.  For `|a| <= 3 PI` each loop runs at most once; this covers the six calls made in
`solveLeg` when `yawRef` and the stored `hipAngle` lie in `[-PI, PI]` (with `atan2` bounded by
`2 PI` in absolute value).  Beyond `3 PI` a loop runs at least twice, and the count exceeds
every fixed bound for some input. -/
theorem wrapAngle_iterations (M : MathFns F) (leg : Leg F) (cx cy bodyZ yawRef : F) (a : F) :
    (-PI ≤ ik.wrapAngle a ∧ ik.wrapAngle a ≤ PI ∧
      ∃ k : Int, ik.wrapAngle a = a + k * (2 * PI)) ∧
    (∀ n : Nat, ik.wrapFuel a ≤ n →
      ik.wrapDown n a = ik.wrapDown (ik.wrapFuel a) a ∧
      ik.wrapDownIters n a = ik.wrapDownIters (ik.wrapFuel a) a) ∧
    (∀ n : Nat, ik.wrapFuel (ik.wrapDown (ik.wrapFuel a) a) ≤ n →
      ik.wrapUp n (ik.wrapDown (ik.wrapFuel a) a) = ik.wrapAngle a ∧
      ik.wrapUpIters n (ik.wrapDown (ik.wrapFuel a) a) = (ik.wrapIters a).2) ∧
    ik.wrapIters a = (⌈(a - PI) / (2 * PI)⌉₊, ⌈(-a - PI) / (2 * PI)⌉₊) ∧
    (|a| ≤ 3 * PI → (ik.wrapIters a).1 ≤ 1 ∧ (ik.wrapIters a).2 ≤ 1) ∧
    (3 * PI < a → 2 ≤ (ik.wrapIters a).1) ∧ (a < -(3 * PI) → 2 ≤ (ik.wrapIters a).2) ∧
    (∀ N : Nat, ∃ b : F, N ≤ (ik.wrapIters b).1) ∧
    (∀ N : Nat, ∃ b : F, N ≤ (ik.wrapIters b).2) ∧
    (ik.solveLeg M leg cx cy bodyZ yawRef).hipAngle =
      ik.wrapAngle ((ik.wrapCalls M leg cx cy bodyZ yawRef).getD 5 0) ∧
    (|yawRef| ≤ PI → |leg.hipAngle| ≤ PI → (∀ y x : F, |M.atan2 y x| ≤ 2 * PI) →
      ∀ b ∈ ik.wrapCalls M leg cx cy bodyZ yawRef,
        |b| ≤ 3 * PI ∧ (ik.wrapIters b).1 ≤ 1 ∧ (ik.wrapIters b).2 ≤ 1) := by
  have hpos : (0 : F) < 2 * PI := two_PI_pos
  have hP := PI_pos (F := F)
  have small : ∀ b : F, |b| ≤ 3 * PI → (ik.wrapIters b).1 ≤ 1 ∧ (ik.wrapIters b).2 ≤ 1 := by
    intro b hb
    rw [wrapIters_eq]
    have hb' := abs_le.mp hb
    constructor
    · apply Nat.ceil_le.mpr
      rw [div_le_iff₀ hpos]
      push_cast
      linarith [hb'.2]
    · apply Nat.ceil_le.mpr
      rw [div_le_iff₀ hpos]
      push_cast
      linarith [hb'.1]
  refine ⟨wrapAngle_spec a, ?_, ?_, wrapIters_eq a, small a, ?_, ?_, ?_, ?_, rfl, ?_⟩
  · intro n hn
    have h1 := wrapDownIters_eq n a ((wrapFuel_ge_down a).trans hn)
    have h2 := wrapDownIters_eq _ a (wrapFuel_ge_down a)
    exact ⟨by rw [wrapDown_eq_iters, wrapDown_eq_iters, h1, h2], by rw [h1, h2]⟩
  · intro n hn
    have h1 := wrapUpIters_eq n _ ((wrapFuel_ge_up _).trans hn)
    have h2 := wrapUpIters_eq _ _ (wrapFuel_ge_up (ik.wrapDown (ik.wrapFuel a) a))
    constructor
    · unfold ik.wrapAngle
      simp only
      rw [wrapUp_eq_iters, wrapUp_eq_iters, h1, h2]
    · unfold ik.wrapIters
      simp only
      rw [h1, h2]
  · intro ha
    rw [wrapIters_eq]
    simp only
    rw [Nat.succ_le, Nat.lt_ceil]
    rw [lt_div_iff₀ hpos]
    push_cast
    linarith
  · intro ha
    rw [wrapIters_eq]
    simp only
    rw [Nat.succ_le, Nat.lt_ceil]
    rw [lt_div_iff₀ hpos]
    push_cast
    linarith
  · intro N
    refine ⟨PI + (N : F) * (2 * PI), ?_⟩
    rw [wrapIters_eq]
    simp only
    have e : (PI + (N : F) * (2 * PI) - PI) / (2 * PI) = (N : F) := by
      field_simp
    rw [e, Nat.ceil_natCast]
  · intro N
    refine ⟨-PI - (N : F) * (2 * PI), ?_⟩
    rw [wrapIters_eq]
    simp only
    have e : (-(-PI - (N : F) * (2 * PI)) - PI) / (2 * PI) = (N : F) := by
      field_simp
    rw [e, Nat.ceil_natCast]
  · intro hyr hha hat b hb
    have := wrapCalls_le M leg cx cy bodyZ yawRef hyr hha hat b hb
    exact ⟨this, small b this⟩

/-! ### Alternating legs -/

/-- Two legs whose phase offsets differ by `PI` are never both in swing. -/
theorem swing_exclusive (t o : F) :
    ¬ (gait.stanceEnd ≤ gait.legPhase t o ∧ gait.stanceEnd ≤ gait.legPhase t (o + PI)) := by
  rintro ⟨h1, h2⟩
  have hP := PI_pos (F := F)
  have r1 := legPhase_range t o
  have r2 := legPhase_range t (o + PI)
  rw [stanceEnd_eq] at h1 h2
  have e1 := legPhase_eq t o
  have e2 := legPhase_eq t (o + PI)
  set k1 : Int := ⌊(t + o) / (2 * PI)⌋
  set k2 : Int := ⌊(t + (o + PI)) / (2 * PI)⌋
  have hd : gait.legPhase t (o + PI) - gait.legPhase t o =
      PI - ((k2 - k1 : Int) : F) * (2 * PI) := by
    rw [e1, e2]
    push_cast
    ring
  have hlo : (-1 : F) < ((k2 - k1 : Int) : F) := by
    by_contra hcon
    have hcon := not_lt.mp hcon
    nlinarith
  have hhi : ((k2 - k1 : Int) : F) < 2 := by
    by_contra hcon
    have hcon := not_lt.mp hcon
    nlinarith
  have hlo' : (-1 : Int) < k2 - k1 := by exact_mod_cast hlo
  have hhi' : k2 - k1 < (2 : Int) := by exact_mod_cast hhi
  have hcases : k2 - k1 = 0 ∨ k2 - k1 = 1 := by omega
  rcases hcases with h | h
  · rw [h] at hd
    simp only [Int.cast_zero, zero_mul, sub_zero] at hd
    linarith
  · rw [h] at hd
    simp only [Int.cast_one, one_mul] at hd
    linarith

theorem mkSegment_legs_build (startX startY : Int) (i : Nat) (seg : Segment F)
    (h : seg.topology = (mkSegment startX startY i : Segment F).topology) :
    ∃ l1 l2 : Leg F, seg.legs = [l1, l2] ∧ l2.phaseOffset = l1.phaseOffset + PI := by
  have hl : seg.legs.map Leg.build =
      (mkSegment startX startY i : Segment F).legs.map Leg.build := congrArg Prod.snd h
  have h0 : (0.0 : F) = 0 := by norm_num
  cases hlegs : seg.legs with
  | nil => rw [hlegs] at hl; simp [mkSegment] at hl
  | cons l1 rest =>
    cases rest with
    | nil => rw [hlegs] at hl; simp [mkSegment] at hl
    | cons l2 rest2 =>
      cases rest2 with
      | cons l3 r => rw [hlegs] at hl; simp [mkSegment] at hl
      | nil =>
        refine ⟨l1, l2, rfl, ?_⟩
        rw [hlegs] at hl
        simp only [mkSegment, List.map_cons, List.map_nil, List.cons.injEq, and_true] at hl
        have e1 := congrArg (fun b => b.2.1) hl.1
        have e2 := congrArg (fun b => b.2.1) hl.2
        simp only [Leg.build, mkLeg] at e1 e2
        rw [e1, e2]
        simp [h0]

theorem reachable_topology (M : MathFns F) (c : Centipede F) (hr : Reachable M c) :
    ∃ startX startY length : Int,
      c.topology = (Centipede.create startX startY length : Centipede F).topology := by
  induction hr with
  | create startX startY length => exact ⟨startX, startY, length, rfl⟩
  | tryMove c dx dy _ ih =>
    obtain ⟨a, b, n, h⟩ := ih
    exact ⟨a, b, n, (tryMove_topology M c dx dy).trans h⟩
  | moveBy c dx dy _ ih =>
    obtain ⟨a, b, n, h⟩ := ih
    exact ⟨a, b, n, (moveBy_topology M c dx dy).trans h⟩
  | update c _ ih =>
    obtain ⟨a, b, n, h⟩ := ih
    exact ⟨a, b, n, (update_topology M c).trans h⟩

theorem reachable_legs (M : MathFns F) (c : Centipede F) (hr : Reachable M c) (i : Nat)
    (seg : Segment F) (hseg : c.segments[i]? = some seg) :
    ∃ l1 l2 : Leg F, seg.legs = [l1, l2] ∧ l2.phaseOffset = l1.phaseOffset + PI := by
  obtain ⟨a, b, n, h⟩ := reachable_topology M c hr
  unfold Centipede.topology Centipede.create at h
  simp only at h
  have hi := congrArg (fun l => l[i]?) h
  simp only [List.getElem?_map, hseg, Option.map_some'] at hi
  cases hr2 : (List.range n.toNat)[i]? with
  | none => rw [hr2] at hi; simp at hi
  | some j =>
    rw [hr2] at hi
    simp only [Option.map_some', Option.some.injEq] at hi
    exact mkSegment_legs_build a b j seg hi

/-- Over exact arithmetic, in every state reachable from the constructor, whose two legs per
segment have phase offsets `PI` apart, and for every `gaitTime`: after `updateGait` every
segment has its two
legs not both in swing, that is at least one with `onGround = true`; so for a non-empty
creature `update` finds a planted leg and takes the average of the height estimates, not the
rest-height fallback. -/
theorem one_leg_planted (M : MathFns F) (c : Centipede F) (hr : Reachable M c)
    (gaitTime bodyZ lastMoveDx lastMoveDy : F) :
    (∀ (i : Nat) (seg' : Segment F),
      (gait.updateGait M c.segments gaitTime bodyZ lastMoveDx lastMoveDy)[i]? = some seg' →
      ∃ l1 l2 : Leg F, seg'.legs = [l1, l2] ∧ l2.phaseOffset = l1.phaseOffset + PI ∧
        ¬ (l1.onGround = false ∧ l2.onGround = false) ∧
        (l1.onGround = true ∨ l2.onGround = true)) ∧
    (c.segments ≠ [] →
      plantedEstimates M (Centipede.gaitSegments M c) ≠ [] ∧
      0 < (supportedZ M (Centipede.gaitSegments M c)).2 ∧
      targetBodyZ M (Centipede.gaitSegments M c) =
        (plantedEstimates M (Centipede.gaitSegments M c)).sum /
          ((plantedEstimates M (Centipede.gaitSegments M c)).length : F)) := by
  have key : ∀ (t z lx ly : F) (i : Nat) (seg' : Segment F),
      (gait.updateGait M c.segments t z lx ly)[i]? = some seg' →
      ∃ l1 l2 : Leg F, seg'.legs = [l1, l2] ∧ l2.phaseOffset = l1.phaseOffset + PI ∧
        ¬ (l1.onGround = false ∧ l2.onGround = false) ∧
        (l1.onGround = true ∨ l2.onGround = true) := by
    intro t z lx ly i seg' hseg'
    rw [updateGait_getElem?] at hseg'
    cases hseg : c.segments[i]? with
    | none => rw [hseg] at hseg'; simp at hseg'
    | some seg =>
      rw [hseg] at hseg'
      simp only [Option.map_some', Option.some.injEq] at hseg'
      obtain ⟨l1, l2, hl, hoff⟩ := reachable_legs M c hr i seg hseg
      subst hseg'
      simp only [hl, List.map_cons, List.map_nil]
      refine ⟨_, _, rfl, ?_, ?_, ?_⟩
      · rw [updateLeg_phaseOffset, updateLeg_phaseOffset]; exact hoff
      · rintro ⟨h1, h2⟩
        have g1 : ¬ (gait.legPhase t l1.phaseOffset < gait.stanceEnd) := by
          intro hcon
          rw [(updateLeg_onGround M t z _ _ _ l1).mpr hcon] at h1
          exact absurd h1 (by simp)
        have g2 : ¬ (gait.legPhase t l2.phaseOffset < gait.stanceEnd) := by
          intro hcon
          rw [(updateLeg_onGround M t z _ _ _ l2).mpr hcon] at h2
          exact absurd h2 (by simp)
        rw [hoff] at g2
        exact swing_exclusive t l1.phaseOffset ⟨not_lt.mp g1, not_lt.mp g2⟩
      · by_cases g1 : gait.legPhase t l1.phaseOffset < gait.stanceEnd
        · exact Or.inl ((updateLeg_onGround M t z _ _ _ l1).mpr g1)
        · right
          apply (updateLeg_onGround M t z _ _ _ l2).mpr
          by_contra g2
          rw [hoff] at g2
          exact swing_exclusive t l1.phaseOffset ⟨not_lt.mp g1, not_lt.mp g2⟩
  refine ⟨key gaitTime bodyZ lastMoveDx lastMoveDy, ?_⟩
  intro hne
  have hpl : plantedEstimates M (Centipede.gaitSegments M c) ≠ [] := by
    have hlen : 0 < (Centipede.gaitSegments M c).length := by
      unfold Centipede.gaitSegments gait.updateGait
      rw [List.length_map, List.enum_length]
      exact List.length_pos.mpr hne
    obtain ⟨seg', hseg'⟩ : ∃ seg', (Centipede.gaitSegments M c)[0]? = some seg' :=
      ⟨_, List.getElem?_eq_getElem hlen⟩
    obtain ⟨l1, l2, hl, _, _, hor⟩ := key _ _ _ _ 0 seg' hseg'
    intro hcon
    have hall : ∀ z, z ∉ plantedEstimates M (Centipede.gaitSegments M c) := by
      rw [hcon]; exact fun z => List.not_mem_nil z
    have hmem : ∀ l ∈ seg'.legs, l.onGround = true → False := by
      intro l hlm hlo
      apply hall (zFromLeg M (spineDir M (Centipede.gaitSegments M c) 0 (1.0, 0.0) 0.001)
        (spineMid (Centipede.gaitSegments M c) 0) l)
      unfold plantedEstimates
      rw [List.mem_flatMap]
      refine ⟨(0, seg'), List.mk_mem_enum_iff_getElem?.mpr hseg', ?_⟩
      exact List.mem_map_of_mem _ (List.mem_filter.mpr ⟨hlm, hlo⟩)
    rcases hor with h | h
    · exact hmem l1 (by rw [hl]; simp) h
    · exact hmem l2 (by rw [hl]; simp) h
  have hcount : 0 < (supportedZ M (Centipede.gaitSegments M c)).2 := by
    rw [supportedZ_eq]
    exact List.length_pos.mpr hpl
  refine ⟨hpl, hcount, ?_⟩
  rw [targetBodyZ_eq, if_neg hpl]

/-- A run of the alternating legs: the constructed `Centipede(40, 10, 2)` at gait time 4. -/
theorem one_leg_planted_witness :
    Reachable ratFns (Centipede.create 40 10 2) ∧
    (Centipede.create 40 10 2 : Centipede ℚ).segments ≠ [] ∧
    (∀ (i : Nat) (seg' : Segment ℚ),
      (gait.updateGait ratFns (Centipede.create 40 10 2 : Centipede ℚ).segments 4 0.6 0 0)[i]? =
        some seg' →
      ∃ l1 l2 : Leg ℚ, seg'.legs = [l1, l2] ∧ l2.phaseOffset = l1.phaseOffset + PI ∧
        ¬ (l1.onGround = false ∧ l2.onGround = false) ∧
        (l1.onGround = true ∨ l2.onGround = true)) ∧
    plantedEstimates ratFns (Centipede.gaitSegments ratFns (Centipede.create 40 10 2)) ≠ [] :=
  ⟨Reachable.create 40 10 2, by decide!,
    (one_leg_planted ratFns _ (Reachable.create 40 10 2) 4 0.6 0 0).1,
    ((one_leg_planted ratFns _ (Reachable.create 40 10 2) 4 0.6 0 0).2 (by decide!)).1⟩

/-! ### Relocation never fails -/

theorem buildOcc_sound (segments : List (Segment F)) : OccSound segments (buildOcc segments) := by
  rw [buildOcc_eq]
  intro cell o h
  rcases setFold_find_some _ _ _ _ h with h | h
  · exact (mem_ownedCells segments cell o).mp h
  · simp [Occ.find] at h

/-- Moving the owner of cell `tk` to a free cell `n`, with the map updated as `relocateVoxel`
does, keeps the map sound. -/
theorem relocate_sound (segments : List (Segment F)) (occ : Occ) (o : Nat × Nat)
    (tk n : Int × Int) (hex : OccSound segments occ) (ho : Occ.find occ tk = some o) :
    OccSound
      (updateAt segments o.1 fun s =>
        { s with voxels := updateAt s.voxels o.2 fun v =>
            { v with wx := (n.1 : F), wy := (n.2 : F) } })
      (Occ.set (Occ.erase occ tk) n o) := by
  obtain ⟨s0, v0, hs0, hv0, hf0, hc0⟩ := hex tk o ho
  intro cell o' h
  rw [Occ.find_set] at h
  by_cases hc : cell = n
  · rw [if_pos hc] at h
    have ho' := Option.some.inj h
    subst ho'
    obtain ⟨s', hs', hv'⟩ := updateAt_voxel_of segments o.1 o.2
      (fun v => { v with wx := (n.1 : F), wy := (n.2 : F) }) o.1 o.2 s0 v0 hs0 hv0
    rw [if_pos ⟨rfl, rfl⟩] at hv'
    exact ⟨s', _, hs', hv', hf0, by rw [hc]; exact cell_of_intCast _ n rfl rfl⟩
  · rw [if_neg hc, Occ.find_erase] at h
    by_cases hct : cell = tk
    · rw [if_pos hct] at h
      exact absurd h (by simp)
    · rw [if_neg hct] at h
      obtain ⟨s, v, hs, hv, hf, hcv⟩ := hex cell o' h
      obtain ⟨s', hs', hv'⟩ := updateAt_voxel_of segments o.1 o.2
        (fun v => { v with wx := (n.1 : F), wy := (n.2 : F) }) o'.1 o'.2 s v hs hv
      have hne : ¬ (o'.1 = o.1 ∧ o'.2 = o.2) := by
        intro hcon
        rw [hcon.1] at hs
        rw [hs0] at hs
        have hs := Option.some.inj hs
        subst hs
        rw [hcon.2, hv0] at hv
        have hv := Option.some.inj hv
        subst hv
        exact hct (hcv.symm.trans hc0)
      rw [if_neg hne] at hv'
      exact ⟨s', v, hs', hv', hf, hcv⟩

theorem sound_mem_filledCells (segments : List (Segment F)) (occ : Occ)
    (hex : OccSound segments occ) (cell : Int × Int) (h : Occ.find occ cell ≠ none) :
    cell ∈ filledCells segments := by
  cases hf : Occ.find occ cell with
  | none => exact absurd hf h
  | some o =>
    obtain ⟨s, v, hs, hv, hfv, hc⟩ := hex cell o hf
    unfold filledCells
    rw [List.mem_flatMap]
    refine ⟨s, List.mem_iff_getElem?.mpr ⟨_, hs⟩, ?_⟩
    rw [List.mem_map]
    exact ⟨v, List.mem_filter.mpr ⟨List.mem_iff_getElem?.mpr ⟨_, hv⟩, hfv⟩, hc⟩

/-- With a sound map for at most 168 filled voxels, the ring search around an occupied cell
finds a free cell: the cell and the 168 ring cells are 169 distinct cells, each occupied cell
holds a filled voxel. -/
theorem firstFreeRing_of_sound (segments : List (Segment F)) (occ : Occ)
    (hex : OccSound segments occ) (hcount : (filledCells segments).length ≤ 168)
    (k : Int × Int) (hk : Occ.find occ k ≠ none) :
    ∃ n, firstFreeRing occ k = some n := by
  cases h : firstFreeRing occ k with
  | some n => exact ⟨n, rfl⟩
  | none =>
    exfalso
    have hall := (firstFreeRing_spec occ k).1.mp h
    have hnd : (k :: ringOffsets.map fun d => (k.1 + d.1, k.2 + d.2)).Nodup := by
      rw [List.nodup_cons]
      constructor
      · intro hmem
        have := (mem_ringCells k k).mp hmem
        simp [cheb] at this
      · refine ringOffsets_nodup.map ?_
        intro a b hab
        simp only [Prod.mk.injEq, add_right_inj] at hab
        exact Prod.ext hab.1 hab.2
    have hsub : (k :: ringOffsets.map fun d => (k.1 + d.1, k.2 + d.2)) ⊆
        filledCells segments := by
      intro c hc
      rcases List.mem_cons.mp hc with rfl | hc
      · exact sound_mem_filledCells segments occ hex _ hk
      · have := (mem_ringCells k c).mp hc
        exact sound_mem_filledCells segments occ hex c (hall c this.1 this.2)
    have := (hnd.subperm hsub).length_le
    simp only [List.length_cons, List.length_map, ringOffsets_length] at this
    omega

theorem relocateVoxel_sound (segments : List (Segment F)) (occ : Occ) (o : Nat × Nat)
    (tk : Int × Int) (hex : OccSound segments occ)
    (hcount : (filledCells segments).length ≤ 168) (ho : Occ.find occ tk = some o) :
    (relocateVoxel segments occ o.1 o.2).2.2 = true ∧
    OccSound (relocateVoxel segments occ o.1 o.2).1 (relocateVoxel segments occ o.1 o.2).2.1 := by
  obtain ⟨s0, v0, hs0, hv0, hf0, hc0⟩ := hex tk o ho
  have hov : (segments.getD o.1 default).voxels.getD o.2 default = v0 := by
    simp [List.getD_eq_getElem?_getD, hs0, hv0]
  obtain ⟨n, hn⟩ := firstFreeRing_of_sound segments occ hex hcount tk (by rw [ho]; simp)
  unfold relocateVoxel
  simp only [hov, hc0, hn]
  exact ⟨trivial, relocate_sound segments occ o tk n hex ho⟩

theorem relocateVoxel_pos (segments : List (Segment F)) (occ : Occ) (os ov : Nat) :
    (relocateVoxel segments occ os ov).1.map (fun s => (s.x, s.y, s.moved)) =
      segments.map (fun s => (s.x, s.y, s.moved)) := by
  unfold relocateVoxel
  simp only
  split
  · rfl
  · show List.map _ (updateAt _ _ _) = _
    apply updateAt_map_congr
    intro s
    rfl

theorem resolveTarget_sound (M : MathFns F) (iter : Nat) (pos : List (F × F × Bool))
    (st : List (Segment F) × Occ × Bool) (tk : Int × Int)
    (h : OccSound st.1 st.2.1 ∧ (filledCells st.1).length ≤ 168 ∧ st.2.2 = true ∧
      st.1.map (fun s => (s.x, s.y, s.moved)) = pos) :
    OccSound (resolveTarget M iter st tk).1 (resolveTarget M iter st tk).2.1 ∧
    (filledCells (resolveTarget M iter st tk).1).length ≤ 168 ∧
    (resolveTarget M iter st tk).2.2 = true ∧
    (resolveTarget M iter st tk).1.map (fun s => (s.x, s.y, s.moved)) = pos := by
  unfold resolveTarget
  split
  · exact h
  · rename_i o ho
    by_cases ho0 : o.1 = 0
    · rw [if_pos ho0]; exact h
    · rw [if_neg ho0]
      obtain ⟨h1, h2⟩ := relocateVoxel_sound st.1 st.2.1 o tk h.1 h.2.1 ho
      simp only [h1, if_true]
      refine ⟨h2, ?_, h.2.2.1, ?_⟩
      · rw [filledCells_length_congr _ _ (relocateVoxel_topology st.1 st.2.1 o.1 o.2)]
        exact h.2.1
      · rw [relocateVoxel_pos]; exact h.2.2.2

theorem firstPassState_inv (M : MathFns F) (segments : List (Segment F)) (dx dy : F)
    (hcount : (filledCells segments).length ≤ 168) (k : Nat) :
    OccSound (firstPassState M segments dx dy k).1 (firstPassState M segments dx dy k).2.1 ∧
    (filledCells (firstPassState M segments dx dy k).1).length ≤ 168 ∧
    (firstPassState M segments dx dy k).2.2 = true ∧
    (firstPassState M segments dx dy k).1.map (fun s => (s.x, s.y, s.moved)) =
      (clearMoved segments).map (fun s => (s.x, s.y, s.moved)) :=
  foldl_inv
    (fun st : List (Segment F) × Occ × Bool =>
      OccSound st.1 st.2.1 ∧ (filledCells st.1).length ≤ 168 ∧ st.2.2 = true ∧
        st.1.map (fun s => (s.x, s.y, s.moved)) =
          (clearMoved segments).map (fun s => (s.x, s.y, s.moved)))
    (resolveTarget M 0) (fun st tk h => resolveTarget_sound M 0 _ st tk h)
    _ (clearMoved segments, buildOcc (clearMoved segments), true)
    ⟨buildOcc_sound _, by rw [filledCells_clearMoved]; exact hcount, rfl, rfl⟩

/-- C27. In `moveBy(dx, dy)` on a body with at most 168 filled voxels: every call of
`relocateVoxel` succeeds, so `headFree` is still true after the first pass (the push branch is
not executed), the resolution loop runs exactly one pass and returns the state of that pass,
and every segment has after collision resolution the logical position it had before, with
`moved` false. -/
theorem relocation_never_fails (M : MathFns F) (segments : List (Segment F)) (dx dy : F)
    (hcount : (filledCells segments).length ≤ 168) :
    (∀ (k : Nat) (tk : Int × Int) (o : Nat × Nat),
      (headTargets (clearMoved segments) dx dy)[k]? = some tk →
      Occ.find (firstPassState M segments dx dy k).2.1 tk = some o → o.1 ≠ 0 →
      (relocateVoxel (firstPassState M segments dx dy k).1
        (firstPassState M segments dx dy k).2.1 o.1 o.2).2.2 = true) ∧
    (∀ k : Nat, (firstPassState M segments dx dy k).2.2 = true) ∧
    resolvePasses M (headTargets (clearMoved segments) dx dy) 5 0 (clearMoved segments) = 1 ∧
    resolved M segments dx dy =
      ((firstPassState M segments dx dy (headTargets (clearMoved segments) dx dy).length).1,
       (firstPassState M segments dx dy (headTargets (clearMoved segments) dx dy).length).2.1) ∧
    (resolved M segments dx dy).1.map (fun s => (s.x, s.y)) =
      segments.map (fun s => (s.x, s.y)) ∧
    (∀ s ∈ (resolved M segments dx dy).1, s.moved = false) := by
  have hfull : firstPassState M segments dx dy (headTargets (clearMoved segments) dx dy).length =
      (headTargets (clearMoved segments) dx dy).foldl (resolveTarget M 0)
        (clearMoved segments, buildOcc (clearMoved segments), true) := by
    unfold firstPassState
    rw [List.take_length]
  have hfree := (firstPassState_inv M segments dx dy hcount
    (headTargets (clearMoved segments) dx dy).length).2.2.1
  have hres : resolved M segments dx dy =
      ((firstPassState M segments dx dy (headTargets (clearMoved segments) dx dy).length).1,
       (firstPassState M segments dx dy
        (headTargets (clearMoved segments) dx dy).length).2.1) := by
    rw [hfull] at hfree ⊢
    unfold resolved resolveLoop
    simp only [hfree, if_true]
  have hpos := (firstPassState_inv M segments dx dy hcount
    (headTargets (clearMoved segments) dx dy).length).2.2.2
  refine ⟨?_, fun k => (firstPassState_inv M segments dx dy hcount k).2.2.1, ?_, hres, ?_, ?_⟩
  · intro k tk o _ ho _
    have hinv := firstPassState_inv M segments dx dy hcount k
    exact (relocateVoxel_sound _ _ o tk hinv.1 hinv.2.1 ho).1
  · rw [hfull] at hfree
    unfold resolvePasses
    simp only [hfree, if_true]
  · rw [hres]
    simp only
    have := congrArg (List.map fun p : F × F × Bool => (p.1, p.2.1)) hpos
    simp only [List.map_map, Function.comp_def, clearMoved] at this
    exact this
  · intro s hs
    rw [hres] at hs
    simp only at hs
    have hm : (s.x, s.y, s.moved) ∈
        (clearMoved segments).map (fun s => (s.x, s.y, s.moved)) := by
      rw [← hpos]
      exact List.mem_map_of_mem _ hs
    simp only [clearMoved, List.map_map, List.mem_map, Function.comp_def, Prod.mk.injEq] at hm
    obtain ⟨_, _, _, _, h3⟩ := hm
    exact h3.symm

/-- A run of C27: `moveBy(-3, 0)` on `Centipede(40, 10, 3)`, whose five head targets are all
held by the second segment. -/
theorem relocation_never_fails_witness :
    (filledCells (Centipede.create 40 10 3 : Centipede ℚ).segments).length ≤ 168 ∧
    resolvePasses ratFns
      (headTargets (clearMoved (Centipede.create 40 10 3 : Centipede ℚ).segments) (-3) 0) 5 0
      (clearMoved (Centipede.create 40 10 3 : Centipede ℚ).segments) = 1 ∧
    (resolved ratFns (Centipede.create 40 10 3 : Centipede ℚ).segments (-3) 0).1.map
        (fun s => (s.x, s.y)) =
      (Centipede.create 40 10 3 : Centipede ℚ).segments.map (fun s => (s.x, s.y)) :=
  ⟨by decide!,
    (relocation_never_fails ratFns (Centipede.create 40 10 3 : Centipede ℚ).segments (-3) 0
      (by decide!)).2.2.1,
    (relocation_never_fails ratFns (Centipede.create 40 10 3 : Centipede ℚ).segments (-3) 0
      (by decide!)).2.2.2.2.1⟩

/-! ### Reach guard on an airborne leg -/

theorem exact_sqrt_mul_self (M : MathFns F) (hM : M.Exact) (m : F) (hm : 0 ≤ m) :
    M.sqrt (m * m) = m := by
  have h1 := hM.sqrt_nonneg (m * m) (mul_self_nonneg m)
  have h2 := hM.sqrt_mul_self (m * m) (mul_self_nonneg m)
  have h3 : (M.sqrt (m * m) - m) * (M.sqrt (m * m) + m) = 0 := by ring_nf; ring_nf at h2; linarith
  rcases mul_eq_zero.mp h3 with h | h
  · linarith
  · have : m = 0 := by linarith
    rw [this] at h1 h ⊢
    linarith

theorem solveLeg_keep (M : MathFns F) (leg : Leg F) (ax ay bodyZ yawRef : F)
    (hmin : |leg.hipLength - (leg.kneeLength + leg.footLength)| + 0.05 ≤
      ik.footDist M leg ax ay bodyZ)
    (hmax : ik.footDist M leg ax ay bodyZ ≤
      (leg.hipLength + (leg.kneeLength + leg.footLength)) - 0.05) :
    (ik.solveLeg M leg ax ay bodyZ yawRef).footHoldX = leg.footHoldX ∧
    (ik.solveLeg M leg ax ay bodyZ yawRef).footHoldY = leg.footHoldY := by
  simp only [ik.footDist] at hmin hmax
  simp only [ik.solveLeg, ik.reachGuard]
  rw [clamp_of_mem _ _ _ hmin hmax, if_neg]
  · exact ⟨rfl, rfl⟩
  · rintro ⟨_, h⟩
    rw [sub_self, abs_zero] at h
    norm_num at h

/-- The anchor `solveLeg` stores for an airborne leg beyond reach: the horizontal offset
scaled by `desiredR / r`. -/
theorem solveLeg_far (M : MathFns F) (hM : M.Exact) (leg : Leg F) (ax ay bodyZ yawRef : F)
    (hair : leg.onGround = false)
    (hlen : |leg.hipLength - (leg.kneeLength + leg.footLength)| + 0.05 ≤
      (leg.hipLength + (leg.kneeLength + leg.footLength)) - 0.05)
    (hfar : (leg.hipLength + (leg.kneeLength + leg.footLength)) - 0.05 + 1e-5 <
      ik.footDist M leg ax ay bodyZ)
    (hr : 1e-4 < M.sqrt ((leg.footHoldX - ax) * (leg.footHoldX - ax) +
      (leg.footHoldY - ay) * (leg.footHoldY - ay)))
    (hz : |bodyZ| ≤ (leg.hipLength + (leg.kneeLength + leg.footLength)) - 0.05) :
    (ik.solveLeg M leg ax ay bodyZ yawRef).footHoldX =
      ax + (leg.footHoldX - ax) *
        (M.sqrt (((leg.hipLength + (leg.kneeLength + leg.footLength)) - 0.05) *
            ((leg.hipLength + (leg.kneeLength + leg.footLength)) - 0.05) - bodyZ * bodyZ) /
          M.sqrt ((leg.footHoldX - ax) * (leg.footHoldX - ax) +
            (leg.footHoldY - ay) * (leg.footHoldY - ay))) ∧
    (ik.solveLeg M leg ax ay bodyZ yawRef).footHoldY =
      ay + (leg.footHoldY - ay) *
        (M.sqrt (((leg.hipLength + (leg.kneeLength + leg.footLength)) - 0.05) *
            ((leg.hipLength + (leg.kneeLength + leg.footLength)) - 0.05) - bodyZ * bodyZ) /
          M.sqrt ((leg.footHoldX - ax) * (leg.footHoldX - ax) +
            (leg.footHoldY - ay) * (leg.footHoldY - ay))) := by
  have h0 : (0.0 : F) = 0 := by norm_num
  simp only [ik.footDist, h0, zero_sub, neg_mul_neg] at hfar
  simp only [ik.solveLeg, ik.reachGuard, h0, zero_sub, neg_mul_neg, hair, Bool.not_false,
    if_true]
  set m := (leg.hipLength + (leg.kneeLength + leg.footLength)) - 0.05 with hm
  set r := M.sqrt ((leg.footHoldX - ax) * (leg.footHoldX - ax) +
      (leg.footHoldY - ay) * (leg.footHoldY - ay)) with hrdef
  set dist := M.sqrt (r * r + bodyZ * bodyZ) with hdist
  have e5 : (0 : F) < 1e-5 := by norm_num
  have e4 : (0 : F) < 1e-4 := by norm_num
  have hrn : 0 ≤ r := hM.sqrt_nonneg _ (add_nonneg (mul_self_nonneg _) (mul_self_nonneg _))
  have hdn : 0 ≤ dist :=
    hM.sqrt_nonneg _ (add_nonneg (mul_self_nonneg _) (mul_self_nonneg _))
  have hdd : dist * dist = r * r + bodyZ * bodyZ :=
    hM.sqrt_mul_self _ (add_nonneg (mul_self_nonneg _) (mul_self_nonneg _))
  clear_value dist r m
  have hdr : r ≤ dist := by
    by_contra hcon
    have hcon := not_le.mp hcon
    nlinarith [mul_self_nonneg bodyZ]
  have hclamp : clamp dist (|leg.hipLength - (leg.kneeLength + leg.footLength)| + 0.05) m =
      m := by
    unfold clamp
    rw [if_neg (by linarith), if_pos (by linarith)]
  have hsq : bodyZ * bodyZ ≤ m * m := by
    have := abs_le.mp hz
    nlinarith
  have hfm : fmax 0 (m * m - bodyZ * bodyZ) = m * m - bodyZ * bodyZ := by
    unfold fmax
    by_cases h : (0 : F) < m * m - bodyZ * bodyZ
    · rw [if_pos h]
    · rw [if_neg h]; linarith
  rw [hclamp, if_pos, hfm, if_pos hr]
  · exact ⟨rfl, rfl⟩
  · refine ⟨by linarith, ?_⟩
    rw [abs_sub_comm, abs_of_pos (by linarith)]
    linarith

/-- C21. For an airborne leg whose foot anchor is beyond reach (the distance `dist` of
`solveLeg` exceeds `maxDist = L1 + L2 - 0.05` by more than `1e-5`), with horizontal offset
longer than `1e-4` and `|bodyZ| <= maxDist`, and with `minDist <= maxDist` as `std::clamp`
requires: `solveLeg` moves the anchor to the point of the same horizontal ray from the hip
attach point whose distance `dist` is exactly `maxDist`, and a second `solveLeg` call with
the same inputs leaves that anchor unchanged.  For a `sqrt` that obeys the laws of the real
one. -/
theorem airborne_anchor_clamped (M : MathFns F) (hM : M.Exact) (leg : Leg F)
    (ax ay bodyZ yawRef : F)
    (hair : leg.onGround = false)
    (hlen : |leg.hipLength - (leg.kneeLength + leg.footLength)| + 0.05 ≤
      (leg.hipLength + (leg.kneeLength + leg.footLength)) - 0.05)
    (hfar : (leg.hipLength + (leg.kneeLength + leg.footLength)) - 0.05 + 1e-5 <
      ik.footDist M leg ax ay bodyZ)
    (hr : 1e-4 < M.sqrt ((leg.footHoldX - ax) * (leg.footHoldX - ax) +
      (leg.footHoldY - ay) * (leg.footHoldY - ay)))
    (hz : |bodyZ| ≤ (leg.hipLength + (leg.kneeLength + leg.footLength)) - 0.05) :
    (∃ scale : F, 0 ≤ scale ∧
      (ik.solveLeg M leg ax ay bodyZ yawRef).footHoldX - ax = scale * (leg.footHoldX - ax) ∧
      (ik.solveLeg M leg ax ay bodyZ yawRef).footHoldY - ay = scale * (leg.footHoldY - ay)) ∧
    ik.footDist M (ik.solveLeg M leg ax ay bodyZ yawRef) ax ay bodyZ =
      (leg.hipLength + (leg.kneeLength + leg.footLength)) - 0.05 ∧
    (ik.solveLeg M (ik.solveLeg M leg ax ay bodyZ yawRef) ax ay bodyZ yawRef).footHoldX =
      (ik.solveLeg M leg ax ay bodyZ yawRef).footHoldX ∧
    (ik.solveLeg M (ik.solveLeg M leg ax ay bodyZ yawRef) ax ay bodyZ yawRef).footHoldY =
      (ik.solveLeg M leg ax ay bodyZ yawRef).footHoldY := by
  have h0 : (0.0 : F) = 0 := by norm_num
  obtain ⟨hx, hy⟩ := solveLeg_far M hM leg ax ay bodyZ yawRef hair hlen hfar hr hz
  have e4 : (0 : F) < 1e-4 := by norm_num
  have hm0 : 0 ≤ (leg.hipLength + (leg.kneeLength + leg.footLength)) - 0.05 :=
    (abs_nonneg bodyZ).trans hz
  have hsq : bodyZ * bodyZ ≤ ((leg.hipLength + (leg.kneeLength + leg.footLength)) - 0.05) *
      ((leg.hipLength + (leg.kneeLength + leg.footLength)) - 0.05) := by
    have := abs_le.mp hz
    nlinarith
  have hRn := hM.sqrt_nonneg _ (sub_nonneg.mpr hsq)
  have hRR := hM.sqrt_mul_self _ (sub_nonneg.mpr hsq)
  have hrr := hM.sqrt_mul_self ((leg.footHoldX - ax) * (leg.footHoldX - ax) +
      (leg.footHoldY - ay) * (leg.footHoldY - ay))
    (add_nonneg (mul_self_nonneg _) (mul_self_nonneg _))
  have hdist : ik.footDist M (ik.solveLeg M leg ax ay bodyZ yawRef) ax ay bodyZ =
      (leg.hipLength + (leg.kneeLength + leg.footLength)) - 0.05 := by
    simp only [ik.footDist, h0, zero_sub, neg_mul_neg]
    rw [hx, hy]
    generalize (leg.hipLength + (leg.kneeLength + leg.footLength)) - 0.05 = m at *
    generalize M.sqrt (m * m - bodyZ * bodyZ) = R at *
    generalize hrdef : M.sqrt ((leg.footHoldX - ax) * (leg.footHoldX - ax) +
      (leg.footHoldY - ay) * (leg.footHoldY - ay)) = r at *
    have hrne : r ≠ 0 := by linarith
    have e : (ax + (leg.footHoldX - ax) * (R / r) - ax) *
          (ax + (leg.footHoldX - ax) * (R / r) - ax) +
        (ay + (leg.footHoldY - ay) * (R / r) - ay) *
          (ay + (leg.footHoldY - ay) * (R / r) - ay) = R * R := by
      have : (ax + (leg.footHoldX - ax) * (R / r) - ax) *
            (ax + (leg.footHoldX - ax) * (R / r) - ax) +
          (ay + (leg.footHoldY - ay) * (R / r) - ay) *
            (ay + (leg.footHoldY - ay) * (R / r) - ay) =
          ((leg.footHoldX - ax) * (leg.footHoldX - ax) +
            (leg.footHoldY - ay) * (leg.footHoldY - ay)) * (R * R) / (r * r) := by
        field_simp
        ring
      rw [this, ← hrr]
      field_simp
    rw [e, exact_sqrt_mul_self M hM R hRn, hRR, sub_add_cancel,
      exact_sqrt_mul_self M hM m hm0]
  refine ⟨⟨M.sqrt (((leg.hipLength + (leg.kneeLength + leg.footLength)) - 0.05) *
        ((leg.hipLength + (leg.kneeLength + leg.footLength)) - 0.05) - bodyZ * bodyZ) /
      M.sqrt ((leg.footHoldX - ax) * (leg.footHoldX - ax) +
        (leg.footHoldY - ay) * (leg.footHoldY - ay)),
    div_nonneg hRn (hM.sqrt_nonneg _
      (add_nonneg (mul_self_nonneg _) (mul_self_nonneg _))), ?_, ?_⟩, hdist, ?_⟩
  · rw [hx]; ring
  · rw [hy]; ring
  · exact solveLeg_keep M (ik.solveLeg M leg ax ay bodyZ yawRef) ax ay bodyZ yawRef
      (by rw [hdist]; exact hlen) (by rw [hdist]; exact le_rfl)

/-- Over `ℝ`: a leg with links `2.75` and `2 + 0.75` whose anchor is 10 away horizontally from
a hip at height 0.6 is beyond reach. -/
theorem far_leg_dist :
    ((2.75 : ℝ) + (2 + 0.75)) - 0.05 + 1e-5 <
      ik.footDist (⟨Real.sqrt, fun y x => Complex.arg ⟨x, y⟩, Real.arccos, Real.sin, Real.cos⟩ :
        MathFns ℝ)
        { (default : Leg ℝ) with
          hipLength := 2.75
          kneeLength := 2
          footLength := 0.75
          footHoldX := 10 } 0 0 0.6 := by
  simp only [ik.footDist]
  have h : Real.sqrt (((10 : ℝ) - 0) * (10 - 0) + ((default : Leg ℝ).footHoldY - 0) *
      ((default : Leg ℝ).footHoldY - 0)) = 10 := by
    have : (((10 : ℝ) - 0) * (10 - 0) + ((default : Leg ℝ).footHoldY - 0) *
      ((default : Leg ℝ).footHoldY - 0)) = 10 ^ 2 := by
      show ((10 : ℝ) - 0) * (10 - 0) + ((0 : ℝ) - 0) * (0 - 0) = 10 ^ 2
      norm_num
    rw [this, Real.sqrt_sq (by norm_num)]
  rw [h]
  apply Real.lt_sqrt_of_sq_lt
  norm_num

theorem far_leg_offset :
    (1e-4 : ℝ) < Real.sqrt (((10 : ℝ) - 0) * (10 - 0) + ((default : Leg ℝ).footHoldY - 0) *
      ((default : Leg ℝ).footHoldY - 0)) := by
  have : (((10 : ℝ) - 0) * (10 - 0) + ((default : Leg ℝ).footHoldY - 0) *
      ((default : Leg ℝ).footHoldY - 0)) = 10 ^ 2 := by
    show ((10 : ℝ) - 0) * (10 - 0) + ((0 : ℝ) - 0) * (0 - 0) = 10 ^ 2
    norm_num
  rw [this, Real.sqrt_sq (by norm_num)]
  norm_num

/-- A run of C21 over `ℝ` with the real `sqrt`: an airborne leg with links `2.75` and
`2 + 0.75`, anchor 10 away horizontally, hip at height 0.6. -/
theorem airborne_anchor_clamped_witness :
    (MathFns.Exact (⟨Real.sqrt, fun y x => Complex.arg ⟨x, y⟩, Real.arccos, Real.sin,
        Real.cos⟩ : MathFns ℝ) ∧
      |(2.75 : ℝ) - (2 + 0.75)| + 0.05 ≤ (2.75 + (2 + 0.75)) - 0.05 ∧
      ((2.75 : ℝ) + (2 + 0.75)) - 0.05 + 1e-5 <
        ik.footDist (⟨Real.sqrt, fun y x => Complex.arg ⟨x, y⟩, Real.arccos, Real.sin,
          Real.cos⟩ : MathFns ℝ)
          { (default : Leg ℝ) with
            hipLength := 2.75
            kneeLength := 2
            footLength := 0.75
            footHoldX := 10 } 0 0 0.6 ∧
      |(0.6 : ℝ)| ≤ (2.75 + (2 + 0.75)) - 0.05) ∧
    ik.footDist (⟨Real.sqrt, fun y x => Complex.arg ⟨x, y⟩, Real.arccos, Real.sin,
        Real.cos⟩ : MathFns ℝ)
      (ik.solveLeg ⟨Real.sqrt, fun y x => Complex.arg ⟨x, y⟩, Real.arccos, Real.sin, Real.cos⟩
        { (default : Leg ℝ) with
          hipLength := 2.75
          kneeLength := 2
          footLength := 0.75
          footHoldX := 10 } 0 0 0.6 0) 0 0 0.6 = (2.75 + (2 + 0.75)) - 0.05 :=
  ⟨⟨real_exact, by norm_num, far_leg_dist, by norm_num [abs_of_pos]⟩,
    (airborne_anchor_clamped _ real_exact
      { (default : Leg ℝ) with
        hipLength := 2.75
        kneeLength := 2
        footLength := 0.75
        footHoldX := 10 } 0 0 0.6 0 rfl
      (show |(2.75 : ℝ) - (2 + 0.75)| + 0.05 ≤ (2.75 + (2 + 0.75)) - 0.05 by norm_num)
      far_leg_dist far_leg_offset
      (show |(0.6 : ℝ)| ≤ (2.75 + (2 + 0.75)) - 0.05 by norm_num [abs_of_pos])).2.1⟩

/-! ### Outward component of the landing point -/

theorem landing_outward_of_unit (M : MathFns F) (bodyZ : F) (forward spine mid : F × F)
    (leg : Leg F)
    (hu : (gait.outDir spine leg).1 * (gait.outDir spine leg).1 +
      (gait.outDir spine leg).2 * (gait.outDir spine leg).2 = 1) :
    0.95 * gait.maxReachR M leg bodyZ * M.cos gait.desiredHalfSweep ≤
      ((gait.landing M bodyZ forward spine mid leg).1 - (coxaAttach spine mid leg).1) *
          (gait.outDir spine leg).1 +
        ((gait.landing M bodyZ forward spine mid leg).2 - (coxaAttach spine mid leg).2) *
          (gait.outDir spine leg).2 := by
  simp only [gait.outDir] at hu
  simp only [gait.landing, gait.outDir, gait.maxReachR, gait.desiredHalfSweep]
  generalize (if |bodyZ| < leg.hipLength + (leg.kneeLength + leg.footLength) - 0.05 then
    M.sqrt (fmax 0.0 ((leg.hipLength + (leg.kneeLength + leg.footLength) - 0.05) *
      (leg.hipLength + (leg.kneeLength + leg.footLength) - 0.05) - |bodyZ| * |bodyZ|))
    else 0.0) = R
  generalize M.cos (150.0 * (PI / 180.0) * 0.5) = c
  generalize M.sin (150.0 * (PI / 180.0) * 0.5) = sn
  generalize (coxaAttach spine mid leg).1 = cx
  generalize (coxaAttach spine mid leg).2 = cy
  generalize -spine.2 * (leg.side : F) = ox at *
  generalize spine.1 * (leg.side : F) = oy at *
  generalize cx + ox * (R * c) + forward.1 * (R * sn) = lx
  generalize cy + oy * (R * c) + forward.2 * (R * sn) = ly
  by_cases h : (lx - cx) * ox + (ly - cy) * oy < R * c * 0.95
  · rw [if_pos h]
    simp only
    have e : (lx + ox * (R * c * 0.95 - ((lx - cx) * ox + (ly - cy) * oy)) - cx) * ox +
        (ly + oy * (R * c * 0.95 - ((lx - cx) * ox + (ly - cy) * oy)) - cy) * oy =
        R * c * 0.95 := by
      linear_combination (R * c * 0.95 - ((lx - cx) * ox + (ly - cy) * oy)) * hu
    rw [e]
    apply le_of_eq
    ring
  · rw [if_neg h]
    simp only
    have := not_lt.mp h
    calc 0.95 * R * c = R * c * 0.95 := by ring
      _ ≤ _ := this


theorem forwardDir_unit (M : MathFns F) (hM : M.Exact) (segments : List (Segment F))
    (lastMoveDx lastMoveDy : F) :
    (gait.forwardDir M segments lastMoveDx lastMoveDy).1 *
        (gait.forwardDir M segments lastMoveDx lastMoveDy).1 +
      (gait.forwardDir M segments lastMoveDx lastMoveDy).2 *
        (gait.forwardDir M segments lastMoveDx lastMoveDy).2 = 1 := by
  have e4 : (0 : F) < 1e-4 := by norm_num
  unfold gait.forwardDir
  simp only
  generalize (if 2 ≤ segments.length then _ else ((1.0 : F), (0.0 : F))) = base
  generalize (if M.sqrt (lastMoveDx * lastMoveDx + lastMoveDy * lastMoveDy) > 1e-4 then _
    else base) = moveDir
  generalize base.1 * (1.0 - 0.85) + moveDir.1 * 0.85 = fx
  generalize base.2 * (1.0 - 0.85) + moveDir.2 * 0.85 = fy
  have hn := hM.sqrt_nonneg (fx * fx + fy * fy)
    (add_nonneg (mul_self_nonneg _) (mul_self_nonneg _))
  have hs := hM.sqrt_mul_self (fx * fx + fy * fy)
    (add_nonneg (mul_self_nonneg _) (mul_self_nonneg _))
  by_cases h : M.sqrt (fx * fx + fy * fy) < 1e-4
  · rw [if_pos h]
    norm_num
  · rw [if_neg h]
    have hpos : 0 < M.sqrt (fx * fx + fy * fy) := lt_of_lt_of_le e4 (not_lt.mp h)
    simp only
    generalize M.sqrt (fx * fx + fy * fy) = len at *
    field_simp
    linarith

theorem spineDir_unit (M : MathFns F) (hM : M.Exact) (segments : List (Segment F)) (i : Nat)
    (fallback : F × F) (eps : F) (heps : 0 < eps)
    (hf : fallback.1 * fallback.1 + fallback.2 * fallback.2 = 1) :
    (spineDir M segments i fallback eps).1 * (spineDir M segments i fallback eps).1 +
      (spineDir M segments i fallback eps).2 * (spineDir M segments i fallback eps).2 = 1 := by
  unfold spineDir
  simp only
  generalize spineRaw segments i fallback = sp
  have hn := hM.sqrt_nonneg (sp.1 * sp.1 + sp.2 * sp.2)
    (add_nonneg (mul_self_nonneg _) (mul_self_nonneg _))
  have hs := hM.sqrt_mul_self (sp.1 * sp.1 + sp.2 * sp.2)
    (add_nonneg (mul_self_nonneg _) (mul_self_nonneg _))
  by_cases h : M.sqrt (sp.1 * sp.1 + sp.2 * sp.2) < eps
  · rw [if_pos h]
    have h1 : (1.0 : F) = 1 := by norm_num
    simp only [h1, div_one]
    exact hf
  · rw [if_neg h]
    have hpos : 0 < M.sqrt (sp.1 * sp.1 + sp.2 * sp.2) := lt_of_lt_of_le heps (not_lt.mp h)
    simp only
    generalize M.sqrt (sp.1 * sp.1 + sp.2 * sp.2) = len at *
    field_simp
    linarith

theorem outDir_unit (spine : F × F) (leg : Leg F)
    (hs : spine.1 * spine.1 + spine.2 * spine.2 = 1) (hside : leg.side = 1 ∨ leg.side = -1) :
    (gait.outDir spine leg).1 * (gait.outDir spine leg).1 +
      (gait.outDir spine leg).2 * (gait.outDir spine leg).2 = 1 := by
  unfold gait.outDir
  simp only
  rcases hside with h | h <;> rw [h] <;> push_cast <;> linear_combination hs

theorem maxReachR_eq (M : MathFns F) (hM : M.Exact) (leg : Leg F) (bodyZ : F)
    (hlen : 0.05 ≤ leg.hipLength + (leg.kneeLength + leg.footLength)) :
    gait.maxReachR M leg bodyZ =
      M.sqrt (fmax 0 ((leg.hipLength + (leg.kneeLength + leg.footLength) - 0.05) *
        (leg.hipLength + (leg.kneeLength + leg.footLength) - 0.05) - bodyZ * bodyZ)) := by
  have h0 : (0.0 : F) = 0 := by norm_num
  unfold gait.maxReachR
  simp only [h0, abs_mul_abs_self]
  by_cases h : |bodyZ| < leg.hipLength + (leg.kneeLength + leg.footLength) - 0.05
  · rw [if_pos h]
  · rw [if_neg h]
    have hm : 0 ≤ leg.hipLength + (leg.kneeLength + leg.footLength) - 0.05 := by linarith
    have hb := not_lt.mp h
    have hsq : (leg.hipLength + (leg.kneeLength + leg.footLength) - 0.05) *
        (leg.hipLength + (leg.kneeLength + leg.footLength) - 0.05) ≤ bodyZ * bodyZ := by
      rw [← abs_mul_abs_self bodyZ]
      exact mul_le_mul hb hb hm (abs_nonneg _)
    have hf : fmax 0 ((leg.hipLength + (leg.kneeLength + leg.footLength) - 0.05) *
        (leg.hipLength + (leg.kneeLength + leg.footLength) - 0.05) - bodyZ * bodyZ) = 0 := by
      unfold fmax
      rw [if_neg (by linarith)]
    rw [hf]
    have := exact_sqrt_mul_self M hM 0 le_rfl
    rw [mul_zero] at this
    exact this.symm

/-- C23. For every leg of side `+1` or `-1` and every input of `updateGait`, with a `sqrt`
that obeys the laws of the real one: the leg's outward direction is a unit vector, and the
landing point computed for the leg has an outward component (landing minus hip attach point,
dot outward direction) of at least `0.95 * maxReachR * cos(desiredHalfSweep)`, where
`desiredHalfSweep` is 75 degrees and `maxReachR` is the value the code computes; for link
lengths with `maxDist = L1 + L2 - 0.05 >= 0` it equals
`sqrt(max(0, maxDist^2 - bodyZ^2))`. -/
theorem landing_outward (M : MathFns F) (hM : M.Exact) (segments : List (Segment F))
    (bodyZ lastMoveDx lastMoveDy : F) (i : Nat) (leg : Leg F)
    (hside : leg.side = 1 ∨ leg.side = -1) :
    (gait.outDir (spineDir M segments i (gait.forwardDir M segments lastMoveDx lastMoveDy) 1e-4)
        leg).1 *
      (gait.outDir (spineDir M segments i (gait.forwardDir M segments lastMoveDx lastMoveDy)
        1e-4) leg).1 +
      (gait.outDir (spineDir M segments i (gait.forwardDir M segments lastMoveDx lastMoveDy)
        1e-4) leg).2 *
      (gait.outDir (spineDir M segments i (gait.forwardDir M segments lastMoveDx lastMoveDy)
        1e-4) leg).2 = 1 ∧
    0.95 * gait.maxReachR M leg bodyZ * M.cos gait.desiredHalfSweep ≤
      ((gait.landing M bodyZ (gait.forwardDir M segments lastMoveDx lastMoveDy)
          (spineDir M segments i (gait.forwardDir M segments lastMoveDx lastMoveDy) 1e-4)
          (spineMid segments i) leg).1 -
        (coxaAttach (spineDir M segments i (gait.forwardDir M segments lastMoveDx lastMoveDy)
          1e-4) (spineMid segments i) leg).1) *
        (gait.outDir (spineDir M segments i (gait.forwardDir M segments lastMoveDx lastMoveDy)
          1e-4) leg).1 +
      ((gait.landing M bodyZ (gait.forwardDir M segments lastMoveDx lastMoveDy)
          (spineDir M segments i (gait.forwardDir M segments lastMoveDx lastMoveDy) 1e-4)
          (spineMid segments i) leg).2 -
        (coxaAttach (spineDir M segments i (gait.forwardDir M segments lastMoveDx lastMoveDy)
          1e-4) (spineMid segments i) leg).2) *
        (gait.outDir (spineDir M segments i (gait.forwardDir M segments lastMoveDx lastMoveDy)
          1e-4) leg).2 ∧
    (gait.desiredHalfSweep : F) = 75 * (PI / 180) ∧
    (0.05 ≤ leg.hipLength + (leg.kneeLength + leg.footLength) →
      gait.maxReachR M leg bodyZ =
        M.sqrt (fmax 0 ((leg.hipLength + (leg.kneeLength + leg.footLength) - 0.05) *
          (leg.hipLength + (leg.kneeLength + leg.footLength) - 0.05) - bodyZ * bodyZ))) := by
  have hu := outDir_unit
    (spineDir M segments i (gait.forwardDir M segments lastMoveDx lastMoveDy) 1e-4) leg
    (spineDir_unit M hM segments i _ 1e-4 (by norm_num)
      (forwardDir_unit M hM segments lastMoveDx lastMoveDy)) hside
  refine ⟨hu, landing_outward_of_unit M bodyZ _ _ _ leg hu, ?_, maxReachR_eq M hM leg bodyZ⟩
  unfold gait.desiredHalfSweep
  norm_num
  ring

/-- A run of C23 over `ℝ` with the real functions: the right leg of the head of
`Centipede(40, 10, 2)` at body height 0.6. -/
theorem landing_outward_witness :
    (MathFns.Exact (⟨Real.sqrt, fun y x => Complex.arg ⟨x, y⟩, Real.arccos, Real.sin,
        Real.cos⟩ : MathFns ℝ) ∧
      ((mkLeg (40 : ℝ) 10 3 3 0 1).side = 1 ∨ (mkLeg (40 : ℝ) 10 3 3 0 1).side = -1)) ∧
    0.95 * gait.maxReachR (⟨Real.sqrt, fun y x => Complex.arg ⟨x, y⟩, Real.arccos, Real.sin,
        Real.cos⟩ : MathFns ℝ) (mkLeg (40 : ℝ) 10 3 3 0 1) 0.6 *
        Real.cos gait.desiredHalfSweep ≤
      ((gait.landing (⟨Real.sqrt, fun y x => Complex.arg ⟨x, y⟩, Real.arccos, Real.sin,
            Real.cos⟩ : MathFns ℝ) 0.6
          (gait.forwardDir ⟨Real.sqrt, fun y x => Complex.arg ⟨x, y⟩, Real.arccos, Real.sin,
            Real.cos⟩ (Centipede.create 40 10 2 : Centipede ℝ).segments 0 0)
          (spineDir ⟨Real.sqrt, fun y x => Complex.arg ⟨x, y⟩, Real.arccos, Real.sin, Real.cos⟩
            (Centipede.create 40 10 2 : Centipede ℝ).segments 0
            (gait.forwardDir ⟨Real.sqrt, fun y x => Complex.arg ⟨x, y⟩, Real.arccos, Real.sin,
              Real.cos⟩ (Centipede.create 40 10 2 : Centipede ℝ).segments 0 0) 1e-4)
          (spineMid (Centipede.create 40 10 2 : Centipede ℝ).segments 0)
          (mkLeg (40 : ℝ) 10 3 3 0 1)).1 -
        (coxaAttach
          (spineDir ⟨Real.sqrt, fun y x => Complex.arg ⟨x, y⟩, Real.arccos, Real.sin, Real.cos⟩
            (Centipede.create 40 10 2 : Centipede ℝ).segments 0
            (gait.forwardDir ⟨Real.sqrt, fun y x => Complex.arg ⟨x, y⟩, Real.arccos, Real.sin,
              Real.cos⟩ (Centipede.create 40 10 2 : Centipede ℝ).segments 0 0) 1e-4)
          (spineMid (Centipede.create 40 10 2 : Centipede ℝ).segments 0)
          (mkLeg (40 : ℝ) 10 3 3 0 1)).1) *
        (gait.outDir
          (spineDir ⟨Real.sqrt, fun y x => Complex.arg ⟨x, y⟩, Real.arccos, Real.sin, Real.cos⟩
            (Centipede.create 40 10 2 : Centipede ℝ).segments 0
            (gait.forwardDir ⟨Real.sqrt, fun y x => Complex.arg ⟨x, y⟩, Real.arccos, Real.sin,
              Real.cos⟩ (Centipede.create 40 10 2 : Centipede ℝ).segments 0 0) 1e-4)
          (mkLeg (40 : ℝ) 10 3 3 0 1)).1 +
      ((gait.landing (⟨Real.sqrt, fun y x => Complex.arg ⟨x, y⟩, Real.arccos, Real.sin,
            Real.cos⟩ : MathFns ℝ) 0.6
          (gait.forwardDir ⟨Real.sqrt, fun y x => Complex.arg ⟨x, y⟩, Real.arccos, Real.sin,
            Real.cos⟩ (Centipede.create 40 10 2 : Centipede ℝ).segments 0 0)
          (spineDir ⟨Real.sqrt, fun y x => Complex.arg ⟨x, y⟩, Real.arccos, Real.sin, Real.cos⟩
            (Centipede.create 40 10 2 : Centipede ℝ).segments 0
            (gait.forwardDir ⟨Real.sqrt, fun y x => Complex.arg ⟨x, y⟩, Real.arccos, Real.sin,
              Real.cos⟩ (Centipede.create 40 10 2 : Centipede ℝ).segments 0 0) 1e-4)
          (spineMid (Centipede.create 40 10 2 : Centipede ℝ).segments 0)
          (mkLeg (40 : ℝ) 10 3 3 0 1)).2 -
        (coxaAttach
          (spineDir ⟨Real.sqrt, fun y x => Complex.arg ⟨x, y⟩, Real.arccos, Real.sin, Real.cos⟩
            (Centipede.create 40 10 2 : Centipede ℝ).segments 0
            (gait.forwardDir ⟨Real.sqrt, fun y x => Complex.arg ⟨x, y⟩, Real.arccos, Real.sin,
              Real.cos⟩ (Centipede.create 40 10 2 : Centipede ℝ).segments 0 0) 1e-4)
          (spineMid (Centipede.create 40 10 2 : Centipede ℝ).segments 0)
          (mkLeg (40 : ℝ) 10 3 3 0 1)).2) *
        (gait.outDir
          (spineDir ⟨Real.sqrt, fun y x => Complex.arg ⟨x, y⟩, Real.arccos, Real.sin, Real.cos⟩
            (Centipede.create 40 10 2 : Centipede ℝ).segments 0
            (gait.forwardDir ⟨Real.sqrt, fun y x => Complex.arg ⟨x, y⟩, Real.arccos, Real.sin,
              Real.cos⟩ (Centipede.create 40 10 2 : Centipede ℝ).segments 0 0) 1e-4)
          (mkLeg (40 : ℝ) 10 3 3 0 1)).2 :=
  ⟨⟨real_exact, Or.inl rfl⟩,
    (landing_outward _ real_exact (Centipede.create 40 10 2 : Centipede ℝ).segments 0.6 0 0 0
      (mkLeg (40 : ℝ) 10 3 3 0 1) (Or.inl rfl)).2.1⟩

/-! ### Single precision -/

theorem f32_log2_spec : ∀ (fuel n : Nat), 0 < n → n ≤ fuel →
    2 ^ f32.log2 fuel n ≤ n ∧ n < 2 ^ (f32.log2 fuel n + 1)
  | 0, n, h0, h => by omega
  | fuel + 1, n, h0, h => by
    unfold f32.log2
    cases hm : n / 2 with
    | zero =>
      have : n = 1 := by omega
      subst this
      simp
    | succ m =>
      have ih := f32_log2_spec fuel (m + 1) (by omega) (by omega)
      simp only
      rw [pow_succ, pow_succ 2 (f32.log2 fuel (m + 1) + 1)]
      omega

theorem f32_pow2_eq (k : Int) : f32.pow2 k = (2 : ℚ) ^ k := by
  unfold f32.pow2
  by_cases h : 0 ≤ k
  · rw [if_pos h]
    obtain ⟨n, rfl⟩ := Int.eq_ofNat_of_zero_le h
    simp
  · rw [if_neg h]
    obtain ⟨n, rfl⟩ := Int.exists_eq_neg_ofNat (le_of_lt (not_le.mp h))
    simp

theorem f32_pow2_pos (k : Int) : 0 < f32.pow2 k := by
  rw [f32_pow2_eq]
  positivity

/-- The exponent chosen for `x` is its binade: `|x| < 2 ^ (e + 1)`, and `2 ^ e ≤ |x|` unless
`x` is below the normal range. -/
theorem f32_exponent_spec (x : ℚ) (hx : x ≠ 0) :
    (-126 : Int) ≤ f32.exponent x ∧
    ((2 : ℚ) ^ (-126 : Int) ≤ |x| → (2 : ℚ) ^ f32.exponent x ≤ |x|) ∧
    (|x| < (2 : ℚ) ^ (f32.exponent x + 1)) := by
  have hn : 0 < x.num.natAbs := Int.natAbs_pos.mpr (Rat.num_ne_zero.mpr hx)
  have hd : 0 < x.den := x.den_pos
  obtain ⟨n1, n2⟩ := f32_log2_spec x.num.natAbs x.num.natAbs hn le_rfl
  obtain ⟨d1, d2⟩ := f32_log2_spec x.den x.den hd le_rfl
  have habs : |x| = (x.num.natAbs : ℚ) / (x.den : ℚ) := by
    conv_lhs => rw [← Rat.num_div_den x]
    rw [abs_div, Nat.abs_cast, ← Int.cast_abs, Int.abs_eq_natAbs, Int.cast_natCast]
  have hdq : (0 : ℚ) < x.den := by exact_mod_cast hd
  set ln := f32.log2 x.num.natAbs x.num.natAbs with hln
  set ld := f32.log2 x.den x.den with hld
  have n1q : ((2 : ℚ) ^ (ln : Int)) ≤ (x.num.natAbs : ℚ) := by
    rw [zpow_natCast]; exact_mod_cast n1
  have n2q : (x.num.natAbs : ℚ) < (2 : ℚ) ^ ((ln : Int) + 1) := by
    rw [show ((ln : Int) + 1) = ((ln + 1 : Nat) : Int) by push_cast; ring, zpow_natCast]
    exact_mod_cast n2
  have d1q : ((2 : ℚ) ^ (ld : Int)) ≤ (x.den : ℚ) := by
    rw [zpow_natCast]; exact_mod_cast d1
  have d2q : (x.den : ℚ) < (2 : ℚ) ^ ((ld : Int) + 1) := by
    rw [show ((ld : Int) + 1) = ((ld + 1 : Nat) : Int) by push_cast; ring, zpow_natCast]
    exact_mod_cast d2
  have hp : ∀ k : Int, (0 : ℚ) < 2 ^ k := fun k => by positivity
  have two : ∀ k : Int, (2 : ℚ) ^ (k + 1) = 2 ^ k * 2 := fun k => by
    rw [zpow_add₀ (by norm_num : (2 : ℚ) ≠ 0), zpow_one]
  have sub : ∀ a b : Int, (2 : ℚ) ^ (a - b) = 2 ^ a / 2 ^ b := fun a b => by
    rw [zpow_sub₀ (by norm_num : (2 : ℚ) ≠ 0)]
  -- the quotient lies strictly between `2 ^ (k - 1)` and `2 ^ (k + 1)`
  have up : |x| < (2 : ℚ) ^ ((ln : Int) - ld + 1) := by
    rw [habs, div_lt_iff₀ hdq]
    have e : (2 : ℚ) ^ ((ln : Int) - ld + 1) = 2 ^ ((ln : Int) + 1) / 2 ^ (ld : Int) := by
      rw [← sub]; congr 1; ring
    rw [e, div_mul_eq_mul_div, lt_div_iff₀ (hp _)]
    calc (x.num.natAbs : ℚ) * 2 ^ (ld : Int) ≤ (x.num.natAbs : ℚ) * x.den :=
          mul_le_mul_of_nonneg_left d1q (by positivity)
      _ < 2 ^ ((ln : Int) + 1) * x.den := mul_lt_mul_of_pos_right n2q hdq
  have lo : (2 : ℚ) ^ ((ln : Int) - ld - 1) ≤ |x| := by
    rw [habs, le_div_iff₀ hdq]
    have e : (2 : ℚ) ^ ((ln : Int) - ld - 1) = 2 ^ (ln : Int) / 2 ^ ((ld : Int) + 1) := by
      rw [← sub]; congr 1; ring
    rw [e, div_mul_eq_mul_div, div_le_iff₀ (hp _)]
    calc (2 : ℚ) ^ (ln : Int) * x.den ≤ 2 ^ (ln : Int) * 2 ^ ((ld : Int) + 1) :=
          mul_le_mul_of_nonneg_left d2q.le (hp _).le
      _ ≤ (x.num.natAbs : ℚ) * 2 ^ ((ld : Int) + 1) :=
          mul_le_mul_of_nonneg_right n1q (hp _).le
  -- the unclamped exponent
  have key : ∃ e : Int, f32.exponent x = max e (-126) ∧ (2 : ℚ) ^ e ≤ |x| ∧
      |x| < (2 : ℚ) ^ (e + 1) := by
    unfold f32.exponent
    simp only [← hln, ← hld, f32_pow2_eq]
    by_cases hk : (2 : ℚ) ^ ((ln : Int) - ld) ≤ |x|
    · exact ⟨_, by rw [if_pos hk], hk, up⟩
    · refine ⟨_, by rw [if_neg hk], lo, ?_⟩
      rw [sub_add_cancel]
      exact not_le.mp hk
  obtain ⟨e, he, h1, h2⟩ := key
  rw [he]
  refine ⟨le_max_right _ _, ?_, ?_⟩
  · intro hsmall
    rcases le_total e (-126) with h | h
    · rw [max_eq_right h]; exact hsmall
    · rw [max_eq_left h]; exact h1
  · refine lt_of_lt_of_le h2 ?_
    exact zpow_le_zpow_right₀ (by norm_num) (by have := le_max_left e (-126); omega)

theorem f32_roundEven_error (y : ℚ) : |(f32.roundEven y : ℚ) - y| ≤ 1 / 2 := by
  have h1 := Int.floor_le y
  have h2 := Int.lt_floor_add_one y
  unfold f32.roundEven
  simp only
  rw [abs_le]
  split_ifs with a b c <;> push_cast <;> constructor <;> linarith

/-- The value `f32 x` is a multiple of the unit in the last place of the binade of `x`, with
a significand of at most 24 bits, and lies within half a unit of `x`. -/
theorem f32_nearest (x : ℚ) (hx : x ≠ 0) :
    ∃ m : Int, f32 x = m * (2 : ℚ) ^ (f32.exponent x - 23) ∧ |m| ≤ 2 ^ 24 ∧
      |f32 x - x| ≤ (2 : ℚ) ^ (f32.exponent x - 23) / 2 := by
  have hu : (0 : ℚ) < 2 ^ (f32.exponent x - 23) := by positivity
  obtain ⟨_, _, hlt⟩ := f32_exponent_spec x hx
  have hval : f32 x = (f32.roundEven (x / 2 ^ (f32.exponent x - 23)) : ℚ) *
      2 ^ (f32.exponent x - 23) := by
    unfold f32
    rw [if_neg hx]
    simp only [f32_pow2_eq]
  have herr := f32_roundEven_error (x / 2 ^ (f32.exponent x - 23))
  refine ⟨f32.roundEven (x / 2 ^ (f32.exponent x - 23)), hval, ?_, ?_⟩
  · -- the scaled value is below `2 ^ 24` in absolute value
    have hq : |x / 2 ^ (f32.exponent x - 23)| < 2 ^ 24 := by
      rw [abs_div, abs_of_pos hu, div_lt_iff₀ hu]
      have e : (2 : ℚ) ^ 24 * 2 ^ (f32.exponent x - 23) = 2 ^ (f32.exponent x + 1) := by
        rw [show (2 : ℚ) ^ 24 = 2 ^ (24 : Int) by norm_num,
          ← zpow_add₀ (by norm_num : (2 : ℚ) ≠ 0)]
        congr 1; ring
      rw [e]; exact hlt
    have hr : |(f32.roundEven (x / 2 ^ (f32.exponent x - 23)) : ℚ)| < 2 ^ 24 + 1 := by
      have := abs_sub_abs_le_abs_sub
        (f32.roundEven (x / 2 ^ (f32.exponent x - 23)) : ℚ) (x / 2 ^ (f32.exponent x - 23))
      linarith
    have hr2 : |f32.roundEven (x / 2 ^ (f32.exponent x - 23))| < 2 ^ 24 + 1 := by
      exact_mod_cast hr
    omega
  · rw [hval]
    have e : (f32.roundEven (x / 2 ^ (f32.exponent x - 23)) : ℚ) * 2 ^ (f32.exponent x - 23) - x
        = ((f32.roundEven (x / 2 ^ (f32.exponent x - 23)) : ℚ) - x / 2 ^ (f32.exponent x - 23))
          * 2 ^ (f32.exponent x - 23) := by
      field_simp
    rw [e, abs_mul, abs_of_pos hu]
    calc _ ≤ 1 / 2 * (2 : ℚ) ^ (f32.exponent x - 23) :=
          mul_le_mul_of_nonneg_right herr hu.le
      _ = _ := by ring

theorem PI32_eq : PI32 = 13176795 / 4194304 := by decide!

theorem twoPI32_eq : f32 (2.0 * PI32) = 13176795 / 2097152 := by decide!

/-- Rounding on familiar values: representable numbers are kept, a tie goes to the even
significand, `0.1` becomes its nearest binary32 neighbour. -/
theorem f32_examples :
    f32 1 = 1 ∧ f32 (-3 / 8) = -3 / 8 ∧ f32 16777216 = 16777216 ∧
    f32 16777217 = 16777216 ∧ f32 16777219 = 16777220 ∧ f32 (-16777217) = -16777216 ∧
    f32 0.1 = 13421773 / 134217728 ∧ f32 0.55 = 9227469 / 16777216 ∧
    f32 (1 / 3) = 11184811 / 33554432 := by decide!

/-- On an argument below `3 PI` the single-precision `wrapAngle` runs its first loop once,
and the subtraction is exact. -/
theorem wrapAngle32_small :
    ik.wrapAngle32 2 4 = some (4 - 13176795 / 2097152) ∧
    ik.wrapAngle32 1 3 = some 3 ∧
    ik.wrapAngle32 2 (-4) = some (-4 + 13176795 / 2097152) := by decide!

/-- With no leg planted `update` counts no support and takes the rest height (source line
370). -/
theorem targetBodyZ_of_no_planted (M : MathFns F) (segments : List (Segment F))
    (h : ∀ seg ∈ segments, ∀ l ∈ seg.legs, l.onGround = false) :
    (supportedZ M segments).2 = 0 ∧ targetBodyZ M segments = kBodyRestZ := by
  have hpl : plantedEstimates M segments = [] := by
    rw [List.eq_nil_iff_forall_not_mem]
    intro z hz
    unfold plantedEstimates at hz
    rw [List.mem_flatMap] at hz
    obtain ⟨p, hp, hz⟩ := hz
    rw [List.mem_map] at hz
    obtain ⟨l, hl, _⟩ := hz
    rw [List.mem_filter] at hl
    have hseg : p.2 ∈ segments := by
      cases p with
      | mk i s => exact List.mem_iff_getElem?.mpr ⟨i, List.mk_mem_enum_iff_getElem?.mp hp⟩
    have := h p.2 hseg l hl.1
    rw [this] at hl
    exact absurd hl.2 (by simp)
  refine ⟨by rw [supportedZ_eq, hpl]; rfl, ?_⟩
  rw [targetBodyZ_eq, if_pos hpl]
  unfold kBodyRestZ
  rfl

/-- At a moderate gait time the single-precision phases of the two legs of segment 0 are
`PI` apart up to rounding and exactly one of them is planted; of the 28 legs of a
14-segment creature 18 are planted at gait time 100. -/
theorem legPhase32_moderate :
    gait.inSwing32 4 (phaseOffset32 0 (-1)) = true ∧
    gait.inSwing32 4 (phaseOffset32 0 1) = false ∧
    supportedZCount32 1 4 = 1 ∧ supportedZCount32 14 100 = 18 := by decide!

/-- C28, evaluated in single precision on `Centipede(40, 10, 1)` at `gaitTime = 16777236.0f`.
The two legs of segment 0 have the phase offsets `0` and `PI`.  Binary32 values near
`2 ^ 24` are `2` apart, so `gaitTime + PI` rounds to `16777240`, `4` above `gaitTime`
instead of `PI`; the two phases are about `6.0728` and `3.7896`, both at or above
`stanceEnd`, about `3.4558`.  Both legs are in swing, so `updateGait` leaves no leg with
`onGround = true`; and whenever no leg has `onGround = true`, `update` counts no planted
leg and takes the rest height. -/
theorem both_legs_swing_single_precision :
    f32 16777236 = 16777236 ∧
    phaseOffset32 0 (-1) = 0 ∧ phaseOffset32 0 1 = PI32 ∧
    f32 (16777236 + phaseOffset32 0 1) = 16777240 ∧
    gait.legPhase32 16777236 (phaseOffset32 0 (-1)) = 12735567 / 2097152 ∧
    gait.legPhase32 16777236 (phaseOffset32 0 1) = 1986845 / 524288 ∧
    gait.stanceEnd32 = 14494475 / 4194304 ∧
    gait.inSwing32 16777236 (phaseOffset32 0 (-1)) = true ∧
    gait.inSwing32 16777236 (phaseOffset32 0 1) = true ∧
    supportedZCount32 1 16777236 = 0 ∧
    (∀ (M : MathFns ℚ) (segments : List (Segment ℚ)),
      (∀ seg ∈ segments, ∀ l ∈ seg.legs, l.onGround = false) →
      (supportedZ M segments).2 = 0 ∧ targetBodyZ M segments = kBodyRestZ) :=
  ⟨by decide!, by decide!, by decide!, by decide!, by decide!, by decide!, by decide!,
    by decide!, by decide!, by decide!,
    fun M segments h => targetBodyZ_of_no_planted M segments h⟩

end Proofs

end CentipedeSim
